import Mathlib

/-!
ledweb front-end: colour codec, effect synthesizer, state store, stream handling.

A shallow embedding of `src/frontend/app.js` and `src/frontend/app_v2.js`.

Modelling conventions

* JavaScript strings are lists of characters (`Str`).
* JavaScript numbers are exact rationals; `NaN` is `none` where a value can be `NaN`
  (`parseInt`, colour channels).  Arithmetic is exact: the rounding of IEEE doubles is not
  modelled.  `Math.sin`, `Math.pow` and `Math.PI` are fields of a `JSMath` record that the
  synthesizer takes as a parameter.
* A thrown `TypeError` is the result `none` of an `Option`-valued function.
* Objects received as JSON are typed: a field that is absent or `null` is `none`; parameter
  objects are key/value lists (`Obj`).
* Handlers return the state they leave and the calls they make to the outside (`Outcall`);
  time is counted in whole milliseconds and a timeout fires when it is due.
* Namespace `JS` holds the language primitives, `App` the functions of `app.js`,
  `AppV2` those of `app_v2.js`.
-/

abbrev Str := List Char

/-- A colour channel as the code computes it: an integer, or `NaN` (`none`). -/
abbrev Chan := Option Int

/-- An array of three channels. -/
abbrev RGB := Chan × Chan × Chan

namespace JS

/-- The code points that `parseInt` skips as leading white space. -/
def isWhiteSpace (c : Char) : Bool :=
  let n := c.toNat
  n = 9 || n = 10 || n = 11 || n = 12 || n = 13 || n = 32 || n = 160 || n = 0x1680 ||
  (0x2000 ≤ n && n ≤ 0x200A) || n = 0x2028 || n = 0x2029 || n = 0x202F || n = 0x205F ||
  n = 0x3000 || n = 0xFEFF

/-- Value of a hexadecimal digit, either case. -/
def hexVal (c : Char) : Option Nat :=
  let n := c.toNat
  if 48 ≤ n ∧ n ≤ 57 then some (n - 48)
  else if 97 ≤ n ∧ n ≤ 102 then some (n - 87)
  else if 65 ≤ n ∧ n ≤ 70 then some (n - 55)
  else none

/-- Reads the longest prefix of hexadecimal digits: the value so far and whether a digit was
seen. -/
def hexPrefix : Str → Nat → Bool → Nat × Bool
  | [], acc, seen => (acc, seen)
  | c :: cs, acc, seen =>
    match hexVal c with
    | some d => hexPrefix cs (16 * acc + d) true
    | none => (acc, seen)

/-- Removes a leading `0x` or `0X`, as `parseInt` does for radix 16. -/
def stripHexPrefix : Str → Str
  | '0' :: 'x' :: cs => cs
  | '0' :: 'X' :: cs => cs
  | s => s

/-- The call `parseInt(s, 16)`: leading white space, an optional sign, an optional `0x`, then
the longest run of hex digits; `NaN` when there is no digit. -/
def parseInt16 (s : Str) : Chan :=
  let s1 := s.dropWhile isWhiteSpace
  let (neg, s2) : Bool × Str :=
    match s1 with
    | '-' :: cs => (true, cs)
    | '+' :: cs => (false, cs)
    | _ => (false, s1)
  match hexPrefix (stripHexPrefix s2) 0 false with
  | (v, true) => some (if neg then -(v : Int) else (v : Int))
  | (_, false) => none

/-- The call `v.toString(16)` on an integer-valued number or `NaN`. -/
def toString16 : Chan → Str
  | none => "NaN".toList
  | some v => if v < 0 then '-' :: Nat.toDigits 16 v.natAbs else Nat.toDigits 16 v.natAbs

/-- The call `s.padStart(2, "0")`. -/
def padStart2 (s : Str) : Str :=
  if s.length < 2 then List.replicate (2 - s.length) '0' ++ s else s

/-- The call `s.slice(a, b)` for `0 ≤ a ≤ b`. -/
def slice (s : Str) (a b : Nat) : Str := (s.drop a).take (b - a)

/-- The call `s.replace(c, "")` for a one-character pattern: the first occurrence goes. -/
def removeFirst (s : Str) (c : Char) : Str := s.erase c

/-- The call `Math.round(x)`: nearest integer, a tie going up. -/
def round (x : ℚ) : Int := ⌊x + 1 / 2⌋

/-- The power `2^e` for an integer exponent. -/
def pow2 (e : Int) : ℚ :=
  if 0 ≤ e then ((2 ^ e.toNat : Nat) : ℚ) else 1 / ((2 ^ (-e).toNat : Nat) : ℚ)

/-- The number of halvings that take `n` below 2, `floor(log2 n)` for `n ≥ 1`; `fuel` bounds
the number of steps, and `fuel = n` is enough. -/
def log2Fuel : Nat → Nat → Nat
  | 0, _ => 0
  | fuel + 1, n => if 2 ≤ n then log2Fuel fuel (n / 2) + 1 else 0

/-- The binary exponent of a number other than 0: the `e` with `2^e ≤ |x| < 2^(e+1)`. -/
def expo (x : ℚ) : Int :=
  let e0 : Int := (log2Fuel x.num.natAbs x.num.natAbs : Int) - (log2Fuel x.den x.den : Int)
  if pow2 e0 ≤ |x| then e0 else e0 - 1

/-- The nearest integer, a tie going to the even one. -/
def roundEven (z : ℚ) : Int :=
  if z - ⌊z⌋ < 1 / 2 then ⌊z⌋
  else if 1 / 2 < z - ⌊z⌋ then ⌊z⌋ + 1
  else if ⌊z⌋ % 2 = 0 then ⌊z⌋ else ⌊z⌋ + 1

/-- The binary64 value of a real number, which every arithmetic operation of the code returns
in place of the exact result: round to nearest, ties to even, with 53 significant bits from
the exponent -1022 up and the multiples of `2^-1074` below.  The result is the one of the code
as long as it is finite, which is for `|x| < 2^1024 - 2^970`; the infinities are not part of
the model. -/
def fl (x : ℚ) : ℚ :=
  if x = 0 then 0
  else (roundEven (x / pow2 (max (expo x) (-1022) - 52)) : ℚ) * pow2 (max (expo x) (-1022) - 52)

/-- The remainder `a % b` on numbers: the sign follows the dividend. -/
def rem (a b : ℚ) : ℚ :=
  let q := a / b
  a - b * (if 0 ≤ q then (⌊q⌋ : ℚ) else (⌈q⌉ : ℚ))

end JS

namespace App

/-- Source: `rgbToHex` (app.js 549-552). -/
def rgbToHex (rgb : RGB) : Str :=
  '#' :: ([rgb.1, rgb.2.1, rgb.2.2].map (fun v => JS.padStart2 (JS.toString16 v))).flatten

/-- Source: `hexToRgb` (app.js 554-557). -/
def hexToRgb (hex : Str) : RGB :=
  let v := JS.removeFirst hex '#'
  (JS.parseInt16 (JS.slice v 0 2), JS.parseInt16 (JS.slice v 2 4), JS.parseInt16 (JS.slice v 4 6))

end App

namespace AppV2

/-- Source: `rgbToHex` (app_v2.js 75-78). -/
def rgbToHex (rgb : RGB) : Str :=
  '#' :: ([rgb.1, rgb.2.1, rgb.2.2].map (fun v => JS.padStart2 (JS.toString16 v))).flatten

/-- Source: `hexToRgb` (app_v2.js 80-87). -/
def hexToRgb (hex : Str) : RGB :=
  let v := JS.removeFirst hex '#'
  (JS.parseInt16 (JS.slice v 0 2), JS.parseInt16 (JS.slice v 2 4), JS.parseInt16 (JS.slice v 4 6))

end AppV2

namespace JS

/-- The functions of `Math` that have no rational closed form, as the synthesizer uses them. -/
structure JSMath where
  /-- The function `Math.sin`. -/
  sin : ℚ → ℚ
  /-- The function `Math.pow`. -/
  pow : ℚ → ℚ → ℚ
  /-- The constant `Math.PI`. -/
  PI : ℚ

/-- The lower case of one character.  An ASCII letter comes out of the letters `A` to `Z`, of
the Kelvin sign U+212A (`k`) and of the dotted capital I U+0130 (`i` followed by U+0307), and
of no other character.  Every other character is left at its code point here: its lower case
holds no ASCII letter either, and the code compares lower-cased names with ASCII words
only. -/
def lowerChar (c : Char) : List Char :=
  if c.toNat = 0x212A then ['k']
  else if c.toNat = 0x130 then ['i', Char.ofNat 0x307]
  else [c.toLower]

/-- The call `s.toLowerCase()`. -/
def toLowerCase (s : Str) : Str := (s.map lowerChar).flatten

/-- The call `s.includes(pat)`. -/
def includes : Str → Str → Bool
  | [], pat => pat.isEmpty
  | c :: cs, pat => pat.isPrefixOf (c :: cs) || includes cs pat

/-- Truthiness of a string-or-undefined value: the value when it is a non-empty string. -/
def truthyStr : Option Str → Option Str
  | some (c :: cs) => some (c :: cs)
  | _ => none

/-- What reading `map[name]` yields for a name that is not an own key of an object literal:
the arity (`length`) of the inherited `Object.prototype` function, `some none` for
`__proto__` (an object without `length`), `none` when nothing is inherited. -/
def objectProtoMember (name : Str) : Option (Option Nat) :=
  if name = "constructor".toList then some (some 1)
  else if name = "hasOwnProperty".toList then some (some 1)
  else if name = "isPrototypeOf".toList then some (some 1)
  else if name = "propertyIsEnumerable".toList then some (some 1)
  else if name = "__lookupGetter__".toList then some (some 1)
  else if name = "__lookupSetter__".toList then some (some 1)
  else if name = "__defineGetter__".toList then some (some 2)
  else if name = "__defineSetter__".toList then some (some 2)
  else if name = "toString".toList then some (some 0)
  else if name = "valueOf".toList then some (some 0)
  else if name = "toLocaleString".toList then some (some 0)
  else if name = "__proto__".toList then some none
  else none

end JS

/-- An entry of a `colors` list: a colour array, or any other value as `String(c)` renders it. -/
inductive ColorEntry
  | rgb (r g b : Int)
  | text (s : Str)
deriving DecidableEq, Repr

/-- The parameters of an effect that the synthesizer reads (`default_params`). -/
structure Params where
  /-- The key `color`: one colour array. -/
  color : Option (Int × Int × Int)
  /-- The key `colors`: a list of colours. -/
  colors : Option (List ColorEntry)
  /-- The key `palette`: a palette name. -/
  palette : Option Str
  /-- The key `speed`. -/
  speed : Option ℚ
deriving DecidableEq, Repr

/-- An effect descriptor, as far as the synthesizer reads it. -/
structure Effect where
  /-- The field `name` (a missing name reads as the empty string). -/
  name : Str
  /-- The field `default_params`, absent when `none`. -/
  default_params : Option Params
deriving DecidableEq, Repr

/-- The value a palette lookup returns: an array of colour strings, or a member inherited from
`Object.prototype` with its `length`, if it has one. -/
inductive PaletteVal
  | colours (cs : List Str)
  | inherited (len : Option Nat)
deriving DecidableEq, Repr

/-- The property `palette.length`, `none` when absent. -/
def PaletteVal.length? : PaletteVal → Option Nat
  | .colours cs => some cs.length
  | .inherited len => len

/-- The element `palette[k]`, `none` (undefined) outside the array or on a non-array. -/
def PaletteVal.get (p : PaletteVal) (k : Int) : Option Str :=
  match p with
  | .colours cs => if 0 ≤ k then cs.get? k.toNat else none
  | .inherited _ => none

/-- A value passed where the code expects a colour: an array, a string or `undefined`. -/
inductive ColorArg
  | arr (c : RGB)
  | str (s : Str)
  | missing
deriving DecidableEq, Repr

/-- A value handed to `setPixel`: a colour array or a string. -/
inductive Pixel
  | arr (c : RGB)
  | str (s : Str)
deriving DecidableEq, Repr

namespace App

/-- The empty parameter object `{}`. -/
def noParams : Params := ⟨none, none, none, none⟩

/-- The table `map` of `paletteColors` (app.js 843-849). -/
def paletteMap : List (Str × List Str) :=
  [("neon".toList, ["#32ffe0".toList, "#7c3aed".toList, "#ff61d6".toList]),
   ("sunset".toList, ["#ff8b5f".toList, "#ff3f81".toList, "#ffd86f".toList]),
   ("ocean".toList, ["#0087ff".toList, "#00c6ff".toList, "#7cf2c8".toList]),
   ("fire".toList, ["#ff8b3d".toList, "#ff3b1f".toList, "#ffd86f".toList]),
   ("pastel".toList, ["#ffe0f0".toList, "#c8f5ff".toList, "#d8ffd9".toList])]

/-- The entry `map.neon`. -/
def neon : List Str := ["#32ffe0".toList, "#7c3aed".toList, "#ff61d6".toList]

/-- Source: `paletteColors` (app.js 842-851): `map[name] || map.neon`.  The read `map[name]`
finds an own key of the table, else a member of `Object.prototype`, else `undefined`. -/
def paletteColors (name : Str) : PaletteVal :=
  match paletteMap.lookup name with
  | some cs => .colours cs
  | none =>
    match JS.objectProtoMember name with
    | some len => .inherited len
    | none => .colours neon

/-- Source: `adjustHex` (app.js 853-856). -/
def adjustHex (hex : Str) (factor : ℚ) : Str :=
  let f : Chan → Chan := fun c => c.map (fun z => min 255 (max 0 (JS.round ((z : ℚ) * factor))))
  let c := hexToRgb hex
  rgbToHex (f c.1, f c.2.1, f c.2.2)

/-- The rendering of one `colors` entry: `Array.isArray(c) ? rgbToHex(c) : String(c)`. -/
def entryHex : ColorEntry → Str
  | .rgb r g b => rgbToHex (some r, some g, some b)
  | .text s => s

/-- Source: `effectPalette` (app.js 858-864). -/
def effectPalette (effect : Effect) : PaletteVal :=
  let params := effect.default_params.getD noParams
  match params.color with
  | some c => .colours [rgbToHex (some c.1, some c.2.1, some c.2.2)]
  | none =>
    match params.colors with
    | some (c :: cs) => .colours ((c :: cs).map entryHex)
    | _ =>
      match params.palette with
      | some (c :: cs) => paletteColors (c :: cs)
      | _ => paletteColors "neon".toList

/-- The channels of a colour argument: `Array.isArray(a) ? a : hexToRgb(a)`; `hexToRgb` of
`undefined` throws. -/
def colorChannels : ColorArg → Option RGB
  | .arr c => some c
  | .str s => some (hexToRgb s)
  | .missing => none

/-- One channel of `lerpColor`: `Math.round(c1 + (c2 - c1) * t)`. -/
def lerpChan (c1 c2 : Chan) (t : ℚ) : Chan :=
  match c1, c2 with
  | some a, some b => some (JS.round ((a : ℚ) + ((b : ℚ) - (a : ℚ)) * t))
  | _, _ => none

/-- Source: `lerpColor` (app.js 866-874). -/
def lerpColor (a b : ColorArg) (t : ℚ) : Option RGB :=
  match colorChannels a, colorChannels b with
  | some x, some y => some (lerpChan x.1 y.1 t, lerpChan x.2.1 y.2.1 t, lerpChan x.2.2 y.2.2 t)
  | _, _ => none

/-- The palette `simulateEffectPixels` works with (app.js 878-879):
`(paletteRaw && paletteRaw.length) ? paletteRaw : paletteColors("neon")`. -/
def workingPalette (effect : Effect) : PaletteVal :=
  match (effectPalette effect).length? with
  | some (_ + 1) => effectPalette effect
  | _ => paletteColors "neon".toList

/-- The value `palette.length` of a working palette as a number. -/
def paletteLen (p : PaletteVal) : Nat := p.length?.getD 0

/-- The speed `Math.max(0.2, effect.default_params?.speed || 1)` (app.js 880). -/
def effectSpeed (effect : Effect) : ℚ :=
  let configured : Option ℚ := effect.default_params.bind (fun p => p.speed)
  max (1 / 5) (match configured with
    | some s => if s = 0 then 1 else s
    | none => 1)

/-- The placeholder colour `off` (app.js 881). -/
def off : Str := "#0a1220".toList

/-- The closure `pick` (app.js 883):
`palette[idx % palette.length] || palette[0] || "#32ffe0"`. -/
def pick (palette : PaletteVal) (idx : Int) : Str :=
  match JS.truthyStr (palette.get (Int.tmod idx (paletteLen palette))) with
  | some s => s
  | none =>
    match JS.truthyStr (palette.get 0) with
    | some s => s
    | none => "#32ffe0".toList

/-- The string stored for a pixel: `Array.isArray(col) ? rgbToHex(col) : col`. -/
def pixelHex : Pixel → Str
  | .arr c => rgbToHex c
  | .str s => s

/-- The closure `setPixel` (app.js 885-887) on the array `colors`. -/
def setPixel (length : Nat) (colors : List Str) (i : Int) (col : Pixel) : List Str :=
  if 0 ≤ i ∧ i < (length : Int) then colors.set i.toNat (pixelHex col) else colors

/-- The loop `for (let i = 0; i < length; i++) setPixel(i, body(i))`; an iteration that throws
ends the run. -/
def forPixels (length : Nat) (body : Nat → Option Pixel) (colors : List Str) : Option (List Str) :=
  (List.range length).foldlM
    (fun cs i => (body i).map (fun col => setPixel length cs (i : Int) col)) colors

/-- The argument `next` of `lerpColor`: an element of the palette, or `undefined`. -/
def colorArgOf : Option Str → ColorArg
  | some s => .str s
  | none => .missing

/-- The loop body of the flow and the default family (app.js 891-895, 942-946), with the rate
0.5 or 0.4 as `rate`. -/
def flowPixel (palette : PaletteVal) (speed : ℚ) (rate : ℚ) (length : Nat) (t : ℚ) (i : Nat) :
    Option Pixel :=
  let phase := JS.rem (t * speed * rate + (i : ℚ) / (length : ℚ)) 1
  let idx : Int := ⌊phase * (paletteLen palette : ℚ)⌋
  let next := palette.get (Int.tmod (idx + 1) (paletteLen palette))
  (lerpColor (.str (pick palette idx)) (colorArgOf next)
    (JS.rem (phase * (paletteLen palette : ℚ)) 1)).map Pixel.arr

/-- The loop body of the wipe family (app.js 904-909). -/
def wipePixel (M : JS.JSMath) (palette : PaletteVal) (speed : ℚ) (length : Nat) (t : ℚ)
    (i : Nat) : Pixel :=
  let head : Int := ⌊JS.rem (t * speed * (length : ℚ)) (length : ℚ)⌋
  let tail : Int := max 4 ⌊(length : ℚ) * (5 / 100)⌋
  let d : Int := |(i : Int) - head|
  let fade : ℚ := if d ≤ tail then M.pow (1 - (d : ℚ) / (tail : ℚ)) (3 / 2) else 0
  .str (adjustHex (pick palette 0) (1 / 4 + fade))

/-- The loop body of the comet family (app.js 912-917). -/
def cometPixel (M : JS.JSMath) (palette : PaletteVal) (speed : ℚ) (length : Nat) (t : ℚ)
    (i : Nat) : Pixel :=
  let head : Int := ⌊JS.rem (t * speed * ((length : ℚ) + 10)) ((length : ℚ) + 10)⌋
  let tail : Int := max 6 ⌊(length : ℚ) * (6 / 100)⌋
  let d : Int := head - (i : Int)
  let fade : ℚ := if 0 ≤ d ∧ d ≤ tail then M.pow (1 - (d : ℚ) / (tail : ℚ)) (8 / 5) else 0
  .str (adjustHex (pick palette 0) fade)

/-- The gate `on` of the matrix family (app.js 921-922), a function of `i`, `t` and `speed`. -/
def matrixGate (M : JS.JSMath) (speed : ℚ) (t : ℚ) (i : Nat) : Bool :=
  let noise := JS.rem (M.sin ((i : ℚ) * (129898 / 10000) + t * speed * 4) * (437585453 / 10000)) 1
  decide (|noise| > 65 / 100)

/-- The loop body of the matrix family (app.js 921-923). -/
def matrixPixel (M : JS.JSMath) (palette : PaletteVal) (speed : ℚ) (t : ℚ) (i : Nat) : Pixel :=
  if matrixGate M speed t i then .str (pick palette (i : Int))
  else .str (adjustHex (pick palette 0) (15 / 100))

/-- The level of band `b` in the audio family (app.js 929). -/
def audioLevel (M : JS.JSMath) (t : ℚ) (b : Nat) : ℚ :=
  (M.sin (t * 2 + (b : ℚ)) * (1 / 2) + 1 / 2) * (8 / 10) + 2 / 10

/-- The inner loop of the audio family for band `b` (app.js 931-935):
`for (let i = 0; i < seg && b * seg + i < length; i++)`. -/
def audioBand (M : JS.JSMath) (palette : PaletteVal) (length : Nat) (t : ℚ) (seg : Nat)
    (colors : List Str) (b : Nat) : List Str :=
  let level := audioLevel M t b
  let col := pick palette (b : Int)
  ((List.range seg).takeWhile (fun i => decide (b * seg + i < length))).foldl
    (fun cs i =>
      let idx := b * seg + i
      let fill := decide ((i : ℚ) < level * (seg : ℚ))
      setPixel length cs (idx : Int) (.str (if fill then col else adjustHex col (12 / 100))))
    colors

/-- The test of the flow family (app.js 889). -/
def isFlow (name : Str) : Bool :=
  JS.includes name "rainbow".toList || JS.includes name "gradient".toList ||
    decide (name = "palette_flow".toList)

/-- The test of the breathing family (app.js 897). -/
def isBreath (name : Str) : Bool :=
  JS.includes name "breath".toList || JS.includes name "pulse".toList

/-- The test of the strobe family (app.js 900). -/
def isStrobe (name : Str) : Bool :=
  JS.includes name "strobe".toList || JS.includes name "blink".toList

/-- The test of the wipe family (app.js 903). -/
def isWipe (name : Str) : Bool :=
  JS.includes name "wipe".toList || JS.includes name "theater".toList ||
    JS.includes name "knight".toList

/-- The test of the comet family (app.js 911). -/
def isComet (name : Str) : Bool := JS.includes name "comet".toList

/-- The test of the matrix family (app.js 919). -/
def isMatrix (name : Str) : Bool :=
  JS.includes name "matrix".toList || JS.includes name "confetti".toList ||
    JS.includes name "twinkle".toList

/-- The test of the audio family (app.js 925). -/
def isAudio (name : Str) : Bool :=
  JS.includes name "audio".toList || JS.includes name "spectrum".toList ||
    JS.includes name "beat".toList

/-- The test of the solid family (app.js 937). -/
def isSolid (name : Str) : Bool := JS.includes name "solid".toList

/-- Source: `simulateEffectPixels` (app.js 876-950).  The result is `none` when the run
throws. -/
def simulateEffectPixels (M : JS.JSMath) (effect : Effect) (length : Nat) (t : ℚ) :
    Option (List Str) :=
  let name := JS.toLowerCase effect.name
  let palette := workingPalette effect
  let speed := effectSpeed effect
  let colors := List.replicate length off
  if isFlow name then
    forPixels length (flowPixel palette speed (1 / 2) length t) colors
  else if isBreath name then
    let pulse := 35 / 100 + 65 / 100 * (M.sin (t * speed * 2 * M.PI) * (1 / 2) + 1 / 2)
    forPixels length (fun _ => some (.str (adjustHex (pick palette 0) pulse))) colors
  else if isStrobe name then
    let isOn := decide (M.sin (t * speed * 6) > 0)
    forPixels length
      (fun _ => some (.str (if isOn then pick palette 0 else adjustHex (pick palette 0) (15 / 100))))
      colors
  else if isWipe name then
    forPixels length (fun i => some (wipePixel M palette speed length t i)) colors
  else if isComet name then
    forPixels length (fun i => some (cometPixel M palette speed length t i)) colors
  else if isMatrix name then
    forPixels length (fun i => some (matrixPixel M palette speed t i)) colors
  else if isAudio name then
    let bars := 8
    let seg := length / bars
    some ((List.range bars).foldl (audioBand M palette length t seg) colors)
  else if isSolid name then
    let pulse := 7 / 10 + 3 / 10 * (M.sin (t * speed * M.PI) * (1 / 2) + 1 / 2)
    forPixels length (fun _ => some (.str (adjustHex (pick palette 0) pulse))) colors
  else
    forPixels length (flowPixel palette speed (4 / 10) length t) colors

end App

namespace App

/-- Source: `rgbToHsv` (app.js 559-586), on a triple of integer channels.  Every division,
subtraction, addition and product rounds to binary64 (`JS.fl`); `Math.max`, `Math.min`, the
comparisons and `Math.round` are exact on doubles. -/
def rgbToHsv (rgb : Int × Int × Int) : Int × Int × Int :=
  let r : ℚ := JS.fl ((rgb.1 : ℚ) / 255)
  let g : ℚ := JS.fl ((rgb.2.1 : ℚ) / 255)
  let b : ℚ := JS.fl ((rgb.2.2 : ℚ) / 255)
  let max := Max.max (Max.max r g) b
  let min := Min.min (Min.min r g) b
  let v := max
  let d := JS.fl (max - min)
  let s := if max = 0 then 0 else JS.fl (d / max)
  let h :=
    if max = min then 0
    else
      JS.fl ((if max = r then JS.fl (JS.fl (JS.fl (g - b) / d) + (if g < b then 6 else 0))
       else if max = g then JS.fl (JS.fl (JS.fl (b - r) / d) + 2)
       else JS.fl (JS.fl (JS.fl (r - g) / d) + 4)) / 6)
  (JS.round (JS.fl (h * 360)), JS.round (JS.fl (s * 100)), JS.round (JS.fl (v * 100)))

/-- Source: `hsvToRgb` (app.js 588-618), with the binary64 rounding of every operation; the
product `h * 6` is computed twice in the code, with the same result. -/
def hsvToRgb (h s v : ℚ) : Int × Int × Int :=
  let h := JS.fl (h / 360)
  let s := JS.fl (s / 100)
  let v := JS.fl (v / 100)
  let i : Int := ⌊JS.fl (h * 6)⌋
  let f := JS.fl (JS.fl (h * 6) - (i : ℚ))
  let p := JS.fl (v * JS.fl (1 - s))
  let q := JS.fl (v * JS.fl (1 - JS.fl (f * s)))
  let t := JS.fl (v * JS.fl (1 - JS.fl (JS.fl (1 - f) * s)))
  let rgb : ℚ × ℚ × ℚ :=
    match Int.tmod i 6 with
    | 0 => (v, t, p)
    | 1 => (q, v, p)
    | 2 => (p, v, t)
    | 3 => (p, q, v)
    | 4 => (t, p, v)
    | _ => (v, p, q)
  (JS.round (JS.fl (rgb.1 * 255)), JS.round (JS.fl (rgb.2.1 * 255)),
    JS.round (JS.fl (rgb.2.2 * 255)))

/-- The round trip `hsvToRgb(...rgbToHsv(x))`. -/
def viaHsv (x : Int × Int × Int) : Int × Int × Int :=
  let hsv := rgbToHsv x
  hsvToRgb (hsv.1 : ℚ) (hsv.2.1 : ℚ) (hsv.2.2 : ℚ)

end App

/-- A JSON value held under a key of a parameter object or of the live-modifier object. -/
inductive PVal
  | null
  | bool (b : Bool)
  | num (q : ℚ)
  | str (s : Str)
  | rgb (c : Int × Int × Int)
  | list (cs : List ColorEntry)
deriving DecidableEq, Repr

/-- A JSON object: its keys with their values, each key once. -/
abbrev Obj := List (Str × PVal)

namespace JS

/-- The keys of an object. -/
def keys (o : Obj) : List Str := o.map Prod.fst

/-- The object spread `{ ...a, ...b }`: the keys of `a` in place, taking the value `b` gives
them when it has one, then the keys only `b` has. -/
def spread (a b : Obj) : Obj :=
  a.map (fun kv => (kv.1, (b.lookup kv.1).getD kv.2)) ++
    b.filter (fun kv => (a.lookup kv.1).isNone)

end JS

/-- A zone of the strip. -/
structure Segment where
  /-- The field `name`. -/
  name : Option Str
  /-- The field `start`. -/
  start : Option ℚ
  /-- The field `end`. -/
  stop : Option ℚ
  /-- The field `effect`. -/
  effect : Option Str
  /-- The field `params`. -/
  params : Option Obj
deriving DecidableEq, Repr

/-- The device state object (`state.current`, `payload.state`, `data.state`); a field that is
absent or `null` is `none`. -/
structure Current where
  /-- The field `on`. -/
  power : Option Bool
  /-- The field `brightness`. -/
  brightness : Option ℚ
  /-- The field `effect`. -/
  effect : Option Str
  /-- The field `fps`. -/
  fps : Option ℚ
  /-- The field `intensity_boost`. -/
  intensity_boost : Option ℚ
  /-- The field `max_leds`. -/
  max_leds : Option ℚ
  /-- The field `effect_params`. -/
  effect_params : Option Obj
  /-- The field `params`. -/
  params : Option Obj
  /-- The field `live`. -/
  live : Option Obj
  /-- The field `frame_preview`. -/
  frame_preview : Option (List (Int × Int × Int))
  /-- The field `segments`. -/
  segments : Option (List Segment)
deriving DecidableEq, Repr

/-- The audio snapshot, as far as the front-end reads it. -/
structure Audio where
  /-- The field `bands`. -/
  bands : Option (List ℚ)
  /-- The field `beat`. -/
  beat : Option Bool
  /-- The field `vol`. -/
  vol : Option ℚ
deriving DecidableEq, Repr

/-- The object `vizState` (app.js 101-106). -/
structure VizState where
  /-- The displayed levels. -/
  audioLevels : List ℚ
  /-- The targets the levels move to. -/
  audioTargets : List ℚ
  /-- The field `vol`. -/
  vol : ℚ
  /-- The field `beat`. -/
  beat : Bool
deriving DecidableEq, Repr

/-- An entry of `state.effects` as the server sends it. -/
structure EffectMeta where
  /-- The field `name`. -/
  name : Str
  /-- The field `default_params`. -/
  default_params : Option Obj
deriving DecidableEq, Repr

/-- A function handed to `setTimeout`. -/
inductive Callback
  | connectWs
deriving DecidableEq, Repr

/-- What a handler does to the outside: the calls it makes, in order. -/
inductive Outcall
  | openSocket (token : Str)
  | closeSocket
  | send (msg : Str)
  | setTimeout (fn : Callback) (delay : Nat)
  | showAuth (message : Str)
  | fetch (path : Str) (method : Str) (sessionToken : Option Str)
deriving DecidableEq, Repr

/-- The text of a stream message after `JSON.parse`: unparseable text, the value `null`, or any
other value with its `state` and `audio` properties (absent on a value that has none). -/
inductive WsData
  | unparseable
  | jsonNull
  | json (state : Option Current) (audio : Option Audio)
deriving DecidableEq, Repr

/-- The front-end state: the object `state`, `vizState` and the stored token
(`localStorage["led_token"]`). -/
structure AppState where
  /-- The field `state.effects`. -/
  effects : List EffectMeta
  /-- The field `state.current`; `none` is `undefined`. -/
  current : Option Current
  /-- The field `state.hardware.led_count`. -/
  led_count : Option ℚ
  /-- The field `state.audio`. -/
  audio : Option Audio
  /-- The field `state.token`. -/
  token : Str
  /-- The stored copy of the token. -/
  storedToken : Option Str
  /-- Whether `state.ws` holds a socket. -/
  ws : Bool
  /-- The object `vizState`. -/
  viz : VizState
deriving DecidableEq, Repr

/-- Whether the presentation calls of a stream handler return when they run in a state: `true`
when they return, `false` when one of them throws.  The calls read the state, the page and the
clock (they draw the preview, for one, so they throw when `simulateEffectPixels` does). -/
abbrev Presentation := AppState → Bool

namespace App

/-- The constant `defaultLive` (app.js 72). -/
def defaultLive : Obj :=
  [("master_speed".toList, .num 1), ("frame_blend".toList, .num (15 / 100)),
   ("gamma".toList, .num 1), ("direction".toList, .str "forward".toList),
   ("dither".toList, .bool true), ("dither_strength".toList, .num (3 / 10))]

/-- The list `globalKeys` of `renderEffectParams` (app.js 1896). -/
def globalKeys : List Str :=
  ["gamma".toList, "frame_blend".toList, "smoothing".toList, "master_speed".toList,
   "brightness".toList, "fps".toList, "max_leds".toList, "dither".toList,
   "dither_strength".toList]

/-- The value `state.hardware?.led_count || ((state.current.segments?.[0]?.end ?? 299) + 1)`
(app.js 290, 319). -/
def ledTotal (led_count : Option ℚ) (cur : Current) : ℚ :=
  match led_count with
  | some n => if n = 0 then ((cur.segments.bind List.head?).bind (fun sg => sg.stop)).getD 299 + 1
              else n
  | none => ((cur.segments.bind List.head?).bind (fun sg => sg.stop)).getD 299 + 1

/-- The normalisation of a freshly assigned `state.current` (app.js 284-291 and 313-320). -/
def normalise (led_count : Option ℚ) (cur : Current) : Current :=
  let effect_params : Obj :=
    match cur.effect_params with
    | some o => o
    | none => cur.params.getD []
  { cur with
    effect_params := some effect_params
    params := some effect_params
    live := some (JS.spread defaultLive (cur.live.getD []))
    frame_preview := some (cur.frame_preview.getD [])
    fps := some (cur.fps.getD 60)
    intensity_boost := some (cur.intensity_boost.getD 1)
    max_leds := some (cur.max_leds.getD (ledTotal led_count cur)) }

/-- Source: `updateAudioTargets` (app.js 753-759). -/
def updateAudioTargets (viz : VizState) (audio : Option Audio) : VizState :=
  let baseLevels : List ℚ :=
    match audio.bind (fun a => a.bands) with
    | some (x :: xs) => x :: xs
    | _ => List.replicate 8 0
  { viz with
    audioTargets := baseLevels ++ baseLevels.reverse
    beat := (audio.bind (fun a => a.beat)).getD false
    vol := (audio.bind (fun a => a.vol)).getD 0 }

/-- Source: the handler `ws.onmessage` (app.js 310-329): the state it leaves and the calls it
made.  A throw ends the handler, and what it assigned before stays.  The presentation calls
`setUiValues(); updateLive(); renderEffectPresets()` (app.js 325-327) come between the
assignments and the send: `setUiValues` reads `state.audio.gain` (app.js 533), so without
`audio` it throws; whether the three calls return otherwise is `ui` of the state they run in.
`captureLiveDefaults`, `deriveSpeedMultiplier` and the presentation calls assign nothing the
model holds: they call `ensureLive` and `getEffectParams`, which leave a normalised state as
it is. -/
def wsOnMessage (ui : Presentation) (s : AppState) (data : WsData) : AppState × List Outcall :=
  match data with
  | .unparseable => (s, [])
  | .jsonNull => (s, [])
  | .json none _ => ({ s with current := none }, [])
  | .json (some st) audio =>
    let s1 : AppState :=
      { s with
        current := some (normalise s.led_count st)
        audio := audio
        viz := updateAudioTargets s.viz audio }
    (s1, if audio.isSome && ui s1 then [.send "ok".toList] else [])

/-- The state in which `ws.onmessage` (app.js 310-329) calls `ws.send("ok")`, `none` when it
does not get to the call. -/
def stateAtAck (ui : Presentation) (s : AppState) (data : WsData) : Option AppState :=
  match data with
  | .json (some st) (some audio) =>
    let s1 : AppState :=
      { s with
        current := some (normalise s.led_count st)
        audio := some audio
        viz := updateAudioTargets s.viz (some audio) }
    if ui s1 then some s1 else none
  | _ => none

/-- The body of a `/api/status` response, as far as `loadStatus` stores it. -/
structure StatusData where
  /-- The field `effects`. -/
  effects : List EffectMeta
  /-- The field `hardware.led_count`. -/
  led_count : Option ℚ
  /-- The field `audio`. -/
  audio : Option Audio
  /-- The field `state`. -/
  state : Option Current
deriving DecidableEq, Repr

/-- Source: `loadStatus` (app.js 273-304), the assignments to `state` up to the normalisation;
without `data.state` line 284 throws with `state.current` already `undefined`. -/
def loadStatusApply (s : AppState) (data : StatusData) : AppState :=
  { s with
    effects := data.effects
    led_count := data.led_count
    audio := some (data.audio.getD ⟨none, none, none⟩)
    current := data.state.map (normalise data.led_count) }

/-- Source: `getEffectParams` (app.js 84-89), the value it returns. -/
def getEffectParams (cur : Current) : Obj :=
  match cur.effect_params with
  | some o => o
  | none => cur.params.getD []

/-- Source: `renderEffectParams` (app.js 1889-1940): the keys of the parameter fields it
appends, for the effect found under `state.current.effect`. -/
def renderEffectParams (s : AppState) : List Str :=
  match s.current with
  | none => []
  | some cur =>
    match s.effects.find? (fun e => decide (some e.name = cur.effect)) with
    | none => []
    | some eff =>
      let params := JS.spread (eff.default_params.getD []) (getEffectParams cur)
      (JS.keys params).filter (fun key => !(globalKeys.contains key))

/-- Source: `forceReauth` (app.js 246-250). -/
def forceReauth (s : AppState) (message : Str) : AppState × List Outcall :=
  ({ s with token := [], storedToken := none }, [.showAuth message])

/-- Source: `connectWs` (app.js 306-338), the part that runs at the call. -/
def connectWs (s : AppState) : AppState × List Outcall :=
  if s.token = [] then (s, [])
  else ({ s with ws := true }, (if s.ws then [Outcall.closeSocket] else []) ++ [.openSocket s.token])

/-- Source: the handler `ws.onclose` (app.js 330-336). -/
def wsOnClose (s : AppState) (code : Int) : AppState × List Outcall :=
  if code = 4401 ∨ code = 4403 ∨ code = 1008 ∨ code = 403 then
    forceReauth s "Sessie verlopen, log opnieuw in.".toList
  else (s, [.setTimeout .connectWs 2000])

end App

namespace App

/-- The state `state.current` starts with (app.js 9-21). -/
def initialCurrent : Current :=
  { power := some true
    brightness := some 180
    effect := some "rainbow_cycle".toList
    fps := some 60
    intensity_boost := some 1
    max_leds := some 300
    effect_params := some []
    params := some []
    live := some defaultLive
    frame_preview := some []
    segments := some [] }

/-- Truthiness of a parameter value. -/
def truthy : PVal → Bool
  | .null => false
  | .bool b => b
  | .num q => decide (q ≠ 0)
  | .str s => !s.isEmpty
  | .rgb _ => true
  | .list _ => true

/-- The parameters the synthesizer reads from a parameter object, each under its key and with
the type the data model gives it. -/
def readParams (o : Obj) : Params :=
  { color := match o.lookup "color".toList with
      | some (.rgb c) => some c
      | _ => none
    colors := match o.lookup "colors".toList with
      | some (.list cs) => some cs
      | _ => none
    palette := match o.lookup "palette".toList with
      | some (.str p) => some p
      | _ => none
    speed := match o.lookup "speed".toList with
      | some (.num q) => some q
      | _ => none }

/-- The effect descriptor as the synthesizer reads it. -/
def toEffect (e : EffectMeta) : Effect := ⟨e.name, e.default_params.map readParams⟩

/-- Source: `drawLedViz` (app.js 1018-1021), the descriptor `simEffect` built for the
synthesizer when there is no frame preview. -/
def simEffect (effects : List EffectMeta) (cur : Current) : EffectMeta :=
  match effects.find? (fun e => decide (some e.name = cur.effect)) with
  | some effMeta =>
    { effMeta with
      default_params := some (JS.spread (effMeta.default_params.getD []) (getEffectParams cur)) }
  | none =>
    { name := "solid".toList
      default_params := some [("color".toList,
        match (getEffectParams cur).lookup "color".toList with
        | some v => if truthy v then v else .rgb (50, 255, 224)
        | none => .rgb (50, 255, 224))] }

/-- The object `ledVizState` (app.js 107). -/
structure LedVizState where
  /-- The field `phase`. -/
  phase : ℚ
  /-- The field `lastTs`. -/
  lastTs : ℚ
  /-- The field `time`. -/
  time : ℚ
deriving DecidableEq, Repr

/-- Everything a function of app.js could read or write besides its arguments: the object
`state` with `vizState`, the object `ledVizState`, and the state of `Math.random`. -/
structure Globals where
  /-- The object `state`. -/
  app : AppState
  /-- The object `ledVizState`. -/
  ledViz : LedVizState
  /-- The state of the generator behind `Math.random`. -/
  random : Nat
deriving DecidableEq, Repr

/-- Source: a call `simulateEffectPixels(effect, length, t)` made in the program state `g`: the
state after the call and the value returned.  The body (app.js 876-950) reads and assigns only
its arguments and locals. -/
def callSimulateEffectPixels (M : JS.JSMath) (g : Globals) (effect : Effect) (length : Nat)
    (t : ℚ) : Globals × Option (List Str) :=
  (g, simulateEffectPixels M effect length t)

end App

namespace App

/-- The object `state` and `vizState` at load (app.js 1-24, 101-106), with the stored token
there is at that time. -/
def initialState (stored : Option Str) : AppState :=
  { effects := []
    current := some initialCurrent
    led_count := none
    audio := some ⟨none, none, none⟩
    token := stored.getD []
    storedToken := stored
    ws := false
    viz := ⟨List.replicate 16 0, List.replicate 16 0, 0, false⟩ }

end App

/-- The closure state of a debounced function: the pending timeout `t`, with the time it is
due and the arguments its callback captured. -/
structure Debounced (α : Type) where
  /-- The pending timeout, if any. -/
  t : Option (Nat × α)

namespace JS

/-- The timeline of a debounced function: `calls` are the calls made to it, each with its time
in milliseconds, in order; `step now args d` is what one call does to the closure state.  A
pending timeout that is due before the next call fires first; after the last call the pending
timeout fires.  The result lists the invocations of `fn` with their times. -/
def runDebounced {α : Type} (step : Nat → α → Debounced α → Debounced α) :
    Debounced α → List (Nat × α) → List (Nat × α)
  | d, [] =>
    match d.t with
    | some due => [due]
    | none => []
  | d, (now, args) :: rest =>
    match d.t with
    | some due =>
      if due.1 ≤ now then due :: runDebounced step (step now args ⟨none⟩) rest
      else runDebounced step (step now args d) rest
    | none => runDebounced step (step now args d) rest

end JS

/-- Each call comes after the previous one and less than `wait` milliseconds after it. -/
def withinWindow {α : Type} (wait : Nat) : List (Nat × α) → Bool
  | a :: b :: rest => decide (a.1 ≤ b.1) && decide (b.1 < a.1 + wait) && withinWindow wait (b :: rest)
  | _ => true

namespace App

/-- Source: `debounce` (app.js 625-631), one call of the returned function at time `now`:
`clearTimeout(t); t = setTimeout(() => fn(...args), wait)`. -/
def debounce {α : Type} (wait : Nat) (now : Nat) (args : α) (_d : Debounced α) : Debounced α :=
  ⟨some (now + wait, args)⟩

end App

namespace AppV2

/-- Source: `debounce` (app_v2.js 93-99), one call of the returned function at time `now`. -/
def debounce {α : Type} (wait : Nat) (now : Nat) (args : α) (_d : Debounced α) : Debounced α :=
  ⟨some (now + wait, args)⟩

end AppV2

namespace JS

/-- The assignment `o[k] = v` on an object: the key keeps its place when the object has it, and
is added at the end otherwise. -/
def setKey (o : Obj) (k : Str) (v : PVal) : Obj :=
  if (o.lookup k).isSome then o.map (fun kv => if kv.1 = k then (kv.1, v) else kv)
  else o ++ [(k, v)]

end JS

namespace App

/-- The keys of `defaultLive` (app.js 72). -/
def liveKeys : List Str :=
  ["master_speed".toList, "frame_blend".toList, "gamma".toList, "direction".toList,
   "dither".toList, "dither_strength".toList]

/-- Source: `ensureLive` (app.js 79-82), on `state.current`. -/
def ensureLive (cur : Current) : Current :=
  { cur with live := some (JS.spread defaultLive (cur.live.getD [])) }

/-- Source: `setEffectParams` (app.js 91-95), on `state.current`. -/
def setEffectParams (cur : Current) (next : Obj) : Current :=
  { cur with effect_params := some next, params := some next }

/-- Source: `mergeEffectParams` (app.js 97-99), on `state.current`. -/
def mergeEffectParams (cur : Current) (extra : Obj) : Current :=
  setEffectParams cur (JS.spread (getEffectParams cur) extra)

/-- Source: `updateParam` (app.js 1981-1985), what it does to `state.current`. -/
def updateParam (cur : Current) (key : Str) (value : PVal) : Current :=
  mergeEffectParams cur [(key, value)]

/-- Source: `applyEffect` (app.js 1395-1401), the assignments to `state.current` up to
`setEffectParams(mergedParams)`. -/
def applyEffectLocal (cur : Current) (effect : EffectMeta) : Current :=
  let isSameEffect : Bool := decide (cur.effect = some effect.name)
  let baseParams : Obj := effect.default_params.getD []
  let mergedParams : Obj :=
    if isSameEffect then JS.spread baseParams (getEffectParams cur) else baseParams
  setEffectParams { cur with effect := some effect.name } mergedParams

/-- The normalisation of `state.current` after a response with a `state` (app.js 1247-1250 and
1422-1425). -/
def normaliseResponse (cur : Current) : Current :=
  let effect_params : Obj :=
    match cur.effect_params with
    | some o => o
    | none => cur.params.getD []
  { cur with
    effect_params := some effect_params
    params := some effect_params
    live := some (JS.spread defaultLive (cur.live.getD []))
    frame_preview := some (cur.frame_preview.getD []) }

/-- Source: `applyPreset` (app.js 1241-1262), the branch `if (res?.state)`: `state.current`
after a response that carries the state `st`. -/
def applyPresetResponse (s : AppState) (st : Current) : AppState :=
  { s with current := some (normaliseResponse st) }

/-- Source: `applyEffect` (app.js 1420-1434), the branch `if (res?.state)`: `state.current`
after a response that carries the state `st`; `restore` is the brightness
`lastBrightnessBeforeKill ?? liveDefaults?.brightness ?? 180`. -/
def applyEffectResponse (s : AppState) (st : Current) (restore : ℚ) : AppState :=
  let cur := normaliseResponse st
  { s with
    current := some
      (if cur.power ≠ some true ∨ cur.brightness.getD 0 ≤ 0 then
        { cur with power := some true, brightness := some restore }
      else cur) }

/-- The body of a `POST /api/state` request: the fields of the state it carries. -/
structure StateBody where
  /-- The field `on`. -/
  power : Option Bool
  /-- The field `brightness`. -/
  brightness : Option ℚ
  /-- The field `intensity_boost`. -/
  intensity_boost : Option ℚ
  /-- The field `fps`. -/
  fps : Option ℚ
  /-- The field `max_leds`. -/
  max_leds : Option ℚ
  /-- The field `live`. -/
  live : Option Obj
deriving DecidableEq, Repr

/-- The delay of the queue `pushState` (app.js 633). -/
def pushStateWait : Nat := 80

/-- Source: the brightness handler (app.js 1532-1538) for the slider value `v`: the state it
leaves and the body it hands to `pushState`. -/
def onBrightness (cur : Current) (v : Int) : Current × StateBody :=
  ({ cur with brightness := some (v : ℚ) },
   { power := none, brightness := some (v : ℚ), intensity_boost := none, fps := none,
     max_leds := none, live := none })

/-- Source: the live-speed handler (app.js 1628-1638) for the value `mult`: the state it leaves
and the body it hands to `pushState`. -/
def onLiveSpeed (cur : Current) (mult : ℚ) : Current × StateBody :=
  let live := JS.setKey ((ensureLive cur).live.getD []) "master_speed".toList (.num mult)
  ({ cur with live := some live },
   { power := none, brightness := none, intensity_boost := none, fps := none,
     max_leds := none, live := some live })

/-- Source: the live-direction handler (app.js 1641-1650) for the value `val`. -/
def onLiveDirection (cur : Current) (val : Str) : Current × StateBody :=
  let live := JS.setKey ((ensureLive cur).live.getD []) "direction".toList (.str val)
  ({ cur with live := some live },
   { power := none, brightness := none, intensity_boost := none, fps := none,
     max_leds := none, live := some live })

end App

namespace AppV2

/-- Source: `updateAudioTargets` (app_v2.js 667-673). -/
def updateAudioTargets (viz : VizState) (audio : Option Audio) : VizState :=
  let baseLevels : List ℚ :=
    match audio.bind (fun a => a.bands) with
    | some (x :: xs) => x :: xs
    | _ => List.replicate 8 0
  { viz with
    audioTargets := baseLevels ++ baseLevels.reverse
    beat := (audio.bind (fun a => a.beat)).getD false
    vol := (audio.bind (fun a => a.vol)).getD 0 }

/-- The state `ws.onmessage` of app_v2.js leaves once `payload.state` and `payload.audio` are
handled (app_v2.js 227-235). -/
def applyPayload (s : AppState) (state : Option Current) (audio : Option Audio) : AppState :=
  let s1 : AppState :=
    match state with
    | some st =>
      { s with
        current := some
          { st with
            effect_params := some (st.effect_params.getD [])
            live := some (st.live.getD []) } }
    | none => s
  match audio with
  | some a => { s1 with audio := some a, viz := updateAudioTargets s1.viz (some a) }
  | none => s1

/-- Source: the handler `ws.onmessage` (app_v2.js 224-241): the state it leaves and the calls
it made.  A throw is caught by the handler, which then skips the send; whether `updateUI`
(app_v2.js 270) returns is `ui` of the state it runs in. -/
def wsOnMessage (ui : Presentation) (s : AppState) (data : WsData) : AppState × List Outcall :=
  match data with
  | .unparseable => (s, [])
  | .jsonNull => (s, [])
  | .json state audio =>
    (applyPayload s state audio,
      if ui (applyPayload s state audio) then [.send "ok".toList] else [])

/-- The state in which `ws.onmessage` (app_v2.js 224-241) calls `ws.send('ok')`, `none` when
it does not get to the call. -/
def stateAtAck (ui : Presentation) (s : AppState) (data : WsData) : Option AppState :=
  match data with
  | .json state audio =>
    if ui (applyPayload s state audio) then some (applyPayload s state audio) else none
  | _ => none

end AppV2

/-- A response of `fetch`, as far as `api` reads it. -/
structure Response (β : Type) where
  /-- The field `status`. -/
  status : Nat
  /-- The text `res.text()` resolves to. -/
  text : Str
  /-- The value `res.json()` resolves to, `none` when the body does not parse. -/
  json : Option β

/-- An error `api` throws: its message and its `status`, if it carries one. -/
structure ApiError where
  /-- The message of the error. -/
  message : Str
  /-- The property `status`. -/
  status : Option Nat
deriving DecidableEq, Repr

namespace JS

/-- The field `ok` of a response: the status is in the range 200-299. -/
def responseOk {β : Type} (res : Response β) : Bool :=
  decide (200 ≤ res.status ∧ res.status ≤ 299)

end JS

namespace App

/-- Source: `api` (app.js 252-271), from the response `fetch` resolves to: the state it leaves,
the calls it made, and the value it returns or the error it throws. -/
def api {β : Type} (s : AppState) (path method : Str) (skipAuth : Bool) (res : Response β) :
    AppState × List Outcall × Except ApiError β :=
  let sent : Option Str := if s.token ≠ [] ∧ skipAuth = false then some s.token else none
  let r : AppState × List Outcall :=
    if res.status = 401 ∨ res.status = 403 then
      forceReauth s "Sessie verlopen of ongeldig. Log opnieuw in.".toList
    else (s, [])
  if JS.responseOk res = false then
    (r.1, Outcall.fetch path method sent :: r.2,
      .error ⟨if res.text = [] then "Request failed".toList else res.text, some res.status⟩)
  else
    (r.1, Outcall.fetch path method sent :: r.2,
      match res.json with
      | some v => .ok v
      | none => .error ⟨"SyntaxError".toList, none⟩)

/-- Source: `getStripLength` (app.js 1942-1949). -/
def getStripLength (led_count : Option ℚ) (cur : Current) : ℚ :=
  let fromSegments : ℚ :=
    match cur.segments with
    | some (sg :: sgs) => (sgs.map (fun x => x.stop.getD 0)).foldl max (sg.stop.getD 0) + 1
    | _ => 300
  match led_count with
  | some n => if n = 0 then fromSegments else n
  | none => fromSegments

/-- The pixel count `Math.min(leds, 300)` that `drawLedViz` hands to the synthesizer when there
is no frame preview (app.js 1005, 1023), with
`leds = Math.max(1, state.current.max_leds || getStripLength())`. -/
def previewCount (led_count : Option ℚ) (cur : Current) : ℚ :=
  let configured : ℚ :=
    match cur.max_leds with
    | some m => if m = 0 then getStripLength led_count cur else m
    | none => getStripLength led_count cur
  min (max 1 configured) 300

/-- A call `simulateEffectPixels(effect, length, t)` with a number as `length`:
`new Array(length)` (app.js 882) throws a `RangeError` unless `length` is an integer in
`[0, 2^32)`. -/
def simulateEffectPixelsAt (M : JS.JSMath) (effect : Effect) (length : ℚ) (t : ℚ) :
    Option (List Str) :=
  if length.den = 1 ∧ 0 ≤ length ∧ length < 4294967296 then
    simulateEffectPixels M effect length.num.toNat t
  else none

/-- Source: `drawLedViz` (app.js 1001-1032), the array `pixels` it draws, with the canvas
present; `now` is `performance.now()`.  The result is `none` when the run throws. -/
def drawLedViz (M : JS.JSMath) (s : AppState) (ledViz : LedVizState) (now : ℚ) :
    Option (List Str) :=
  match s.current with
  | none => none
  | some cur =>
    match cur.frame_preview with
    | some (p :: ps) => some ((p :: ps).map (fun c => rgbToHex (some c.1, some c.2.1, some c.2.2)))
    | _ =>
      let t : ℚ := if ledViz.time = 0 then now / 1000 else ledViz.time
      simulateEffectPixelsAt M (toEffect (simEffect s.effects cur)) (previewCount s.led_count cur) t

/-- The local `head` of the wipe family (app.js 904). -/
def wipeHead (speed : ℚ) (length : Nat) (t : ℚ) : Int :=
  ⌊JS.rem (t * speed * (length : ℚ)) (length : ℚ)⌋

/-- The local `tail` of the wipe family (app.js 905). -/
def wipeTail (length : Nat) : Int := max 4 ⌊(length : ℚ) * (5 / 100)⌋

/-- The local `head` of the comet family (app.js 912). -/
def cometHead (speed : ℚ) (length : Nat) (t : ℚ) : Int :=
  ⌊JS.rem (t * speed * ((length : ℚ) + 10)) ((length : ℚ) + 10)⌋

/-- The local `tail` of the comet family (app.js 913). -/
def cometTail (length : Nat) : Int := max 6 ⌊(length : ℚ) * (6 / 100)⌋

/-- Source: the loop over the levels in `startVizLoops` (app.js 765-769), on `vizState`: one
frame.  Iteration `i` reads and assigns entry `i` only.  The subtraction, the product and the
sum each round to binary64, and the literal `0.2` is the double nearest to 2/10. -/
def smoothLevels (viz : VizState) : VizState :=
  { viz with
    audioLevels := (List.range viz.audioLevels.length).map (fun i =>
      let target : ℚ := viz.audioTargets.getD i 0
      let current : ℚ := viz.audioLevels.getD i 0
      JS.fl (current + JS.fl (JS.fl (target - current) * JS.fl (2 / 10)))) }

/-- Source: the callback `loop` of `startVizLoops` (app.js 764-772) on the program state:
the levels move, `drawAudioViz` paints the canvas, the next frame is requested. -/
def audioLoop (g : Globals) : Globals :=
  { g with app := { g.app with viz := smoothLevels g.app.viz } }

end App

/-- The body of a `POST /api/effect` request of app_v2.js. -/
structure EffectBody where
  /-- The field `effect`. -/
  effect : Str
  /-- The field `effect_params`. -/
  effect_params : Obj
  /-- The field `live`. -/
  live : Option Obj
  /-- The field `apply_segments`. -/
  apply_segments : Bool
deriving DecidableEq, Repr

/-- The body of a response to `POST /api/effect`, as far as `applyEffect` reads it. -/
structure EffectResponse where
  /-- The field `state`. -/
  state : Option Current
deriving DecidableEq, Repr

namespace AppV2

/-- Source: `showAuth` (app_v2.js 145-152): it shows the dialog and assigns nothing. -/
def showAuth (s : AppState) (message : Str) : AppState × List Outcall :=
  (s, [.showAuth message])

/-- Source: `api` (app_v2.js 105-136), from the response `fetch` resolves to: the state it
leaves, the calls it made, and the value it returns (`none` is `null`).  An error thrown in
the body is caught and turned into `null`. -/
def api {β : Type} (s : AppState) (path method : Str) (res : Response β) :
    AppState × List Outcall × Option β :=
  let sent : Option Str := if s.token ≠ [] then some s.token else none
  if res.status = 401 ∨ res.status = 403 then
    ((showAuth s "Sessie verlopen".toList).1,
      Outcall.fetch path method sent :: (showAuth s "Sessie verlopen".toList).2, none)
  else if JS.responseOk res = false then (s, [Outcall.fetch path method sent], none)
  else (s, [Outcall.fetch path method sent], res.json)

/-- Source: the handler `ws.onclose` (app_v2.js 243-249). -/
def wsOnClose (s : AppState) (code : Int) : AppState × List Outcall :=
  if code = 4401 ∨ code = 4403 then showAuth s "Sessie verlopen".toList
  else (s, [.setTimeout .connectWs 2000])

/-- Source: the function `debounce` returns (app_v2.js 95-98), one call at time `now`: the
closure state it leaves and the value it returns.  The function has no `return`, so the value
is `undefined` (`none`). -/
def debounced {α ρ : Type} (wait : Nat) (now : Nat) (args : α) (d : Debounced α) :
    Debounced α × Option ρ :=
  (debounce wait now args d, none)

/-- Source: `pushEffect` (app_v2.js 139), one call at time `now`. -/
def pushEffect (now : Nat) (body : EffectBody) (d : Debounced EffectBody) :
    Debounced EffectBody × Option EffectResponse :=
  debounced 100 now body d

/-- Source: `applyEffect` (app_v2.js 513-531), called at time `now` with the queue of
`pushEffect` in the state `d`: the state it leaves and the queue.  Reading
`state.current.live` throws when `state.current` is `undefined`. -/
def applyEffect (s : AppState) (effect : Option EffectMeta) (now : Nat)
    (d : Debounced EffectBody) : AppState × Debounced EffectBody :=
  match effect with
  | none => (s, d)
  | some eff =>
    match s.current with
    | none => (s, d)
    | some cur =>
      let body : EffectBody :=
        { effect := eff.name
          effect_params := eff.default_params.getD []
          live := cur.live
          apply_segments := true }
      let r := pushEffect now body d
      match r.2.bind (fun res => res.state) with
      | some st => ({ s with current := some st }, r.1)
      | none => (s, r.1)

/-- Source: the loop over the levels in `startVizLoops` (app_v2.js 750-754), on `vizState`,
with the binary64 rounding of each operation. -/
def smoothLevels (viz : VizState) : VizState :=
  { viz with
    audioLevels := (List.range viz.audioLevels.length).map (fun i =>
      let target : ℚ := viz.audioTargets.getD i 0
      let current : ℚ := viz.audioLevels.getD i 0
      JS.fl (current + JS.fl (JS.fl (target - current) * JS.fl (2 / 10)))) }

/-- Source: the callback `audioLoop` of `startVizLoops` (app_v2.js 749-757) on the program
state. -/
def audioLoop (g : App.Globals) : App.Globals :=
  { g with app := { g.app with viz := smoothLevels g.app.viz } }

end AppV2

/-- The two hex characters written for a channel. -/
def chanHex (v : Chan) : Str := JS.padStart2 (JS.toString16 v)

/-! ## Scenario data and auxiliary notions used in the statements -/

/-- The effect `{name: "rainbow", default_params: {palette: "constructor"}}`. -/
def inheritedPaletteEffect : Effect :=
  ⟨"rainbow".toList, some ⟨none, none, some "constructor".toList, none⟩⟩

/-- The list `effects` of the end-to-end scenario. -/
def scenarioEffects : List EffectMeta :=
  [⟨"rainbow_cycle".toList, some [("speed".toList, .num 1)]⟩]

/-- The status response of the end-to-end scenario: the one effect, and a state that names it
and carries no parameters. -/
def scenarioStatus : App.StatusData :=
  { effects := scenarioEffects
    led_count := none
    audio := none
    state := some
      { power := some true
        brightness := some 180
        effect := some "rainbow_cycle".toList
        fps := none
        intensity_boost := none
        max_leds := none
        effect_params := none
        params := none
        live := none
        frame_preview := none
        segments := none } }

/-- The state `state.current` after `loadStatus` has stored the scenario's response. -/
def scenarioCurrent : Current :=
  ((App.loadStatusApply (App.initialState none) scenarioStatus).current).getD App.initialCurrent

/-- A snapshot whose `effect_params` carry the global-modifier key `gamma`. -/
def gammaSnapshot : Current :=
  { App.initialCurrent with
    effect_params := some [("gamma".toList, .num 2), ("speed".toList, .num 1)]
    params := none }

/-- How far below the largest channel the red channel lies at hue `x`, counted in sixths of
the circle, as a fraction of value times saturation: the `p`, `q`, `t`, `v` table of
`hsvToRgb` (app.js 598-616) read for red. -/
def dropR (x : ℚ) : ℚ := max 0 (min 1 (2 - |x - 3|))

/-- The same for the green channel. -/
def dropG (x : ℚ) : ℚ := max 0 (min 1 (|x - 2| - 1))

/-- The same for the blue channel. -/
def dropB (x : ℚ) : ℚ := max 0 (min 1 (|x - 4| - 1))

/-- The channel value before rounding, for a drop `u`: `v * (1 - u * s) * 255`. -/
def chanValue (u : ℚ) (S V : Int) : ℚ := (V : ℚ) / 100 * (1 - u * ((S : ℚ) / 100)) * 255

/-- The hue `h * 6` of an integer triple, as a numerator over the spread `max - min`
(app.js 573-582). -/
def hueNum (R G B : Int) : Int :=
  let M := max (max R G) B
  let D := M - min (min R G) B
  if M = R then (if G < B then G - B + 6 * D else G - B)
  else if M = G then B - R + 2 * D
  else R - G + 4 * D

/-- A `Math` for closed evaluations: `sin` is 0 everywhere and `pow(x, y)` is `x`, which is what
`Math.pow` gives at the bases 0 and 1. -/
def unitMath : JS.JSMath := ⟨fun _ => 0, fun x _ => x, 0⟩

/-- The effect `{name: "comet_wipe"}`. -/
def cometWipeEffect : Effect := ⟨"comet_wipe".toList, none⟩

/-- The effect `{name: "x", default_params: {speed: 0}}`. -/
def zeroSpeedEffect : Effect := ⟨"x".toList, some ⟨none, none, none, some 0⟩⟩

/-- A field that the payload carries has the payload's value in the store. -/
def KeepsField {α : Type} (payload stored : Option α) : Prop := payload = none ∨ stored = payload

/-- The store holds a state normalised from the server state `server`: its `live` has the six
keys of `defaultLive`, each key with the server's value when the server sent one and with the
default otherwise, and its `effect_params` is the server's `effect_params`, else the server's
`params`, else `{}`. -/
def NormalisedFrom (server : Current) (stored : Option Current) : Prop :=
  ∃ cur live, stored = some cur ∧ cur.live = some live ∧
    App.liveKeys ⊆ JS.keys live ∧
    (∀ k, live.lookup k = match (server.live.getD []).lookup k with
      | some v => some v
      | none => App.defaultLive.lookup k) ∧
    cur.effect_params = some (match server.effect_params with
      | some o => o
      | none => server.params.getD [])

/-- A snapshot whose `effect_params` and `params` differ. -/
def doubleParamsSnapshot : Current :=
  { App.initialCurrent with
    effect_params := some [("speed".toList, .num 1)]
    params := some [("speed".toList, .num 2)] }

/-- An effect whose `default_params` hold the global-modifier key `gamma`. -/
def gammaDefaultsEffect : EffectMeta :=
  ⟨"fire".toList, some [("gamma".toList, .num 2), ("speed".toList, .num 1)]⟩

/-- A session that holds the token "abc", in the store and in its persisted copy. -/
def sessionState : AppState := App.initialState (some "abc".toList)

/-- A response with the given status, an empty text and the body `7`. -/
def statusResponse (status : Nat) : Response Nat := ⟨status, [], some 7⟩

/-- The state of the end-to-end scenario with a frame preview of two pixels. -/
def previewState : AppState :=
  { App.loadStatusApply (App.initialState none) scenarioStatus with
    current := some { scenarioCurrent with frame_preview := some [(255, 0, 0), (0, 0, 255)] } }

/-- The program state at load, with the targets of the audio levels set to
`[1, 1/2]`. -/
def vizGlobals : App.Globals :=
  { app := { App.initialState none with
             viz := ⟨List.replicate 16 0, [1, 1 / 2], 0, false⟩ }
    ledViz := ⟨0, 0, 0⟩
    random := 0 }

/-- The number is a double: `m * 2^e` with fewer than 54 bits in `m` and
`-1074 ≤ e ≤ 971`. -/
def IsDouble (x : ℚ) : Prop :=
  ∃ m e : Int, |m| < 2 ^ 53 ∧ -1074 ≤ e ∧ e ≤ 971 ∧ x = (m : ℚ) * (2 : ℚ) ^ e

/-- The real number rounds to a finite double: the largest double is `2^1024 - 2^971`, and
from `2^1024 - 2^970` on the rounding gives an infinity. -/
def RoundsFinite (x : ℚ) : Prop := |x| < 2 ^ 1024 - 2 ^ 970

/-- The name matches no family test of `simulateEffectPixels` (app.js 889-937), so the final
`else` renders it. -/
def matchesNoFamily (name : Str) : Bool :=
  !(App.isFlow name || App.isBreath name || App.isStrobe name || App.isWipe name ||
    App.isComet name || App.isMatrix name || App.isAudio name || App.isSolid name)

/-- The rate of the flow formula for a name: 0.5 in the flow family, 0.4 in the final
`else`. -/
def flowRate (name : Str) : ℚ := if App.isFlow name then 1 / 2 else 4 / 10

/-- What the statements about the comet family use of `Math.pow` at the exponent 1.6: it is
0 at 0, 1 at 1, and at least the square for a base between 0 and 1.  The power function has
these properties. -/
def PowLike (M : JS.JSMath) : Prop :=
  M.pow 0 (8 / 5) = 0 ∧ M.pow 1 (8 / 5) = 1 ∧
    ∀ x : ℚ, 0 < x → x < 1 → x ^ 2 ≤ M.pow x (8 / 5)

/-- The colour string parses: `hexToRgb` gives three numbers. -/
def ParsesAsColour (c : Str) : Prop :=
  ∃ r g b : Int, App.hexToRgb c = (some r, some g, some b)

/-- The effect `{name: "comet"}`. -/
def cometEffect : Effect := ⟨"comet".toList, none⟩

/-- The effect `{name: "wipe"}`. -/
def wipeEffect : Effect := ⟨"wipe".toList, none⟩

/-- The effect `{name: "audio"}`. -/
def audioEffect : Effect := ⟨"audio".toList, none⟩

/-! ## Theorems -/

set_option maxRecDepth 100000 in
theorem chanHex_byte_nat :
    ∀ n : Nat, n < 256 →
      (chanHex (some (n : Int))).length = 2 ∧ JS.parseInt16 (chanHex (some (n : Int))) = some (n : Int) := by
  decide!

theorem length_two_cases (a : Str) (h : a.length = 2) : ∃ x y, a = [x, y] := by
  match a, h with
  | [x, y], _ => exact ⟨x, y, rfl⟩

theorem chanHex_byte (v : Int) (h0 : 0 ≤ v) (h1 : v ≤ 255) :
    (chanHex (some v)).length = 2 ∧ JS.parseInt16 (chanHex (some v)) = some v := by
  obtain ⟨n, rfl⟩ := Int.eq_ofNat_of_zero_le h0
  exact chanHex_byte_nat n (by omega)

theorem slices_of_pairs (a b c : Str) (ha : a.length = 2) (hb : b.length = 2) (hc : c.length = 2) :
    JS.slice (JS.removeFirst ('#' :: [a, b, c].flatten) '#') 0 2 = a ∧
    JS.slice (JS.removeFirst ('#' :: [a, b, c].flatten) '#') 2 4 = b ∧
    JS.slice (JS.removeFirst ('#' :: [a, b, c].flatten) '#') 4 6 = c := by
  obtain ⟨a1, a2, rfl⟩ := length_two_cases a ha
  obtain ⟨b1, b2, rfl⟩ := length_two_cases b hb
  obtain ⟨c1, c2, rfl⟩ := length_two_cases c hc
  simp [JS.slice, JS.removeFirst]

/-- C1: for every triple of integers with each channel in [0,255], `hexToRgb (rgbToHex t) = t`,
for the codec of app.js and for the copy in app_v2.js. -/
theorem C1_hex_roundtrip (r g b : Int)
    (hr : 0 ≤ r ∧ r ≤ 255) (hg : 0 ≤ g ∧ g ≤ 255) (hb : 0 ≤ b ∧ b ≤ 255) :
    App.hexToRgb (App.rgbToHex (some r, some g, some b)) = (some r, some g, some b) ∧
    AppV2.hexToRgb (AppV2.rgbToHex (some r, some g, some b)) = (some r, some g, some b) := by
  obtain ⟨lr, pr⟩ := chanHex_byte r hr.1 hr.2
  obtain ⟨lg, pg⟩ := chanHex_byte g hg.1 hg.2
  obtain ⟨lb, pb⟩ := chanHex_byte b hb.1 hb.2
  obtain ⟨s1, s2, s3⟩ := slices_of_pairs _ _ _ lr lg lb
  have e1 : App.rgbToHex (some r, some g, some b) =
      '#' :: [chanHex (some r), chanHex (some g), chanHex (some b)].flatten := rfl
  have e2 : AppV2.rgbToHex (some r, some g, some b) =
      '#' :: [chanHex (some r), chanHex (some g), chanHex (some b)].flatten := rfl
  constructor
  · simp only [App.hexToRgb, e1, s1, s2, s3, pr, pg, pb]
  · simp only [AppV2.hexToRgb, e2, s1, s2, s3, pr, pg, pb]

/-- C1 at the colour (50, 255, 224). -/
theorem C1_hex_roundtrip_witness :
    App.hexToRgb (App.rgbToHex (some 50, some 255, some 224)) = (some 50, some 255, some 224) ∧
    AppV2.hexToRgb (AppV2.rgbToHex (some 50, some 255, some 224)) = (some 50, some 255, some 224) :=
  C1_hex_roundtrip 50 255 224 (by decide) (by decide) (by decide)




/-! ## The pixel loop -/

theorem setPixel_length (n : Nat) (cs : List Str) (i : Int) (col : Pixel) :
    (App.setPixel n cs i col).length = cs.length := by
  unfold App.setPixel
  split <;> simp

theorem foldlM_setPixel_length (n : Nat) (body : Nat → Option Pixel) :
    ∀ (l : List Nat) (cs out : List Str),
      l.foldlM (fun cs i => (body i).map (fun col => App.setPixel n cs (i : Int) col)) cs = some out →
      out.length = cs.length := by
  intro l
  induction l with
  | nil =>
    intro cs out h
    simp at h
    rw [← h]
  | cons a l ih =>
    intro cs out h
    rw [List.foldlM_cons] at h
    cases hb : body a with
    | none => simp [hb] at h
    | some col =>
      simp only [hb, Option.map_some', Option.some_bind, Option.bind_eq_bind] at h
      rw [ih _ _ h, setPixel_length]

theorem forPixels_length (n : Nat) (body : Nat → Option Pixel) (cs out : List Str)
    (h : App.forPixels n body cs = some out) : out.length = cs.length :=
  foldlM_setPixel_length n body _ cs out h

theorem forPixels_prefix (n : Nat) (p : Nat → Pixel) (cs : List Str) (hcs : cs.length = n) :
    ∀ k, k ≤ n →
      (List.range k).foldlM (fun cs i => (some (p i)).map (fun col => App.setPixel n cs (i : Int) col)) cs
        = some ((List.range k).map (fun i => App.pixelHex (p i)) ++ cs.drop k) := by
  intro k
  induction k with
  | zero => intro _; simp
  | succ k ih =>
    intro hk
    rw [List.range_succ, List.foldlM_append, ih (by omega)]
    have hk1 : (0 : Int) ≤ (k : Int) ∧ (k : Int) < (n : Int) := ⟨by omega, by omega⟩
    simp only [Option.map_some', List.foldlM_cons, List.foldlM_nil, Option.some_bind,
      Option.bind_eq_bind, App.setPixel, hk1, and_self, if_true, Int.toNat_ofNat, List.map_append,
      List.map_cons, List.map_nil, Option.pure_def, Option.bind_some]
    congr 1
    have hlen : ((List.range k).map (fun i => App.pixelHex (p i))).length = k := by simp
    rw [List.set_append_right _ _ (by omega), hlen, Nat.sub_self]
    have hd : cs.drop k = cs[k] :: cs.drop (k + 1) := by
      rw [List.drop_eq_getElem_cons (by omega)]
    rw [hd, List.set_cons_zero, List.append_assoc]
    rfl

theorem forPixels_total (n : Nat) (p : Nat → Pixel) (cs : List Str) (hcs : cs.length = n) :
    App.forPixels n (fun i => some (p i)) cs = some ((List.range n).map (fun i => App.pixelHex (p i))) := by
  have h := forPixels_prefix n p cs hcs n (le_refl n)
  unfold App.forPixels
  rw [h, List.drop_of_length_le (by omega)]
  simp

theorem audioBand_length (M : JS.JSMath) (palette : PaletteVal) (n : Nat) (t : ℚ) (seg : Nat)
    (cs : List Str) (b : Nat) : (App.audioBand M palette n t seg cs b).length = cs.length := by
  unfold App.audioBand
  generalize (List.range seg).takeWhile _ = l
  induction l generalizing cs with
  | nil => rfl
  | cons a l ih => rw [List.foldl_cons, ih, setPixel_length]

theorem audioBands_length (M : JS.JSMath) (palette : PaletteVal) (n : Nat) (t : ℚ) (seg : Nat)
    (l : List Nat) (cs : List Str) :
    (l.foldl (App.audioBand M palette n t seg) cs).length = cs.length := by
  induction l generalizing cs with
  | nil => rfl
  | cons a l ih => rw [List.foldl_cons, ih, audioBand_length]

/-- Whenever `simulateEffectPixels` returns, it returns exactly `length` colours. -/
theorem simulateEffectPixels_length (M : JS.JSMath) (e : Effect) (n : Nat) (t : ℚ)
    (out : List Str) (h : App.simulateEffectPixels M e n t = some out) : out.length = n := by
  unfold App.simulateEffectPixels at h
  simp only at h
  split_ifs at h
  all_goals first
    | (rw [forPixels_length _ _ _ _ h, List.length_replicate])
    | (simp only [Option.some.injEq] at h
       rw [← h, audioBands_length, List.length_replicate])

theorem simulate_flow (M : JS.JSMath) (e : Effect) (n : Nat) (t : ℚ)
    (h : App.isFlow (JS.toLowerCase e.name) = true) :
    App.simulateEffectPixels M e n t =
      App.forPixels n (App.flowPixel (App.workingPalette e) (App.effectSpeed e) (1 / 2) n t)
        (List.replicate n App.off) := by
  unfold App.simulateEffectPixels
  simp only [h, if_true]

theorem simulate_strobe (M : JS.JSMath) (e : Effect) (n : Nat) (t : ℚ)
    (h1 : App.isFlow (JS.toLowerCase e.name) = false)
    (h2 : App.isBreath (JS.toLowerCase e.name) = false)
    (h3 : App.isStrobe (JS.toLowerCase e.name) = true) :
    App.simulateEffectPixels M e n t =
      some (List.replicate n
        (if M.sin (t * App.effectSpeed e * 6) > 0 then App.pick (App.workingPalette e) 0
         else App.adjustHex (App.pick (App.workingPalette e) 0) (15 / 100))) := by
  unfold App.simulateEffectPixels
  simp only [h1, h2, h3, if_true, Bool.false_eq_true, if_false]
  rw [forPixels_total n _ _ (List.length_replicate _ _)]
  simp only [App.pixelHex, decide_eq_true_eq, List.map_const', List.length_range]

theorem simulate_matrix (M : JS.JSMath) (e : Effect) (n : Nat) (t : ℚ)
    (h1 : App.isFlow (JS.toLowerCase e.name) = false)
    (h2 : App.isBreath (JS.toLowerCase e.name) = false)
    (h3 : App.isStrobe (JS.toLowerCase e.name) = false)
    (h4 : App.isWipe (JS.toLowerCase e.name) = false)
    (h5 : App.isComet (JS.toLowerCase e.name) = false)
    (h6 : App.isMatrix (JS.toLowerCase e.name) = true) :
    App.simulateEffectPixels M e n t =
      some ((List.range n).map (fun i =>
        if App.matrixGate M (App.effectSpeed e) t i = true
        then App.pick (App.workingPalette e) (i : Int)
        else App.adjustHex (App.pick (App.workingPalette e) 0) (15 / 100))) := by
  unfold App.simulateEffectPixels
  simp only [h1, h2, h3, h4, h5, h6, if_true, Bool.false_eq_true, if_false]
  rw [forPixels_total n _ _ (List.length_replicate _ _)]
  congr 1
  apply List.map_congr_left
  intro i _
  unfold App.matrixPixel
  split <;> rfl

/-! ## Properties of the synthesizer -/

/-- C2: at the effect `{name: "rainbow", default_params: {palette: "constructor"}}`, one pixel
and `t = 0`, `simulateEffectPixels` throws instead of returning one colour: the palette lookup
yields the inherited `Object` function, whose `length` is 1 and whose element 0 is
`undefined`, and `lerpColor` calls `hexToRgb(undefined)`. -/
theorem C2_throws_on_inherited_palette (M : JS.JSMath) :
    App.workingPalette inheritedPaletteEffect = PaletteVal.inherited (some 1) ∧
    App.simulateEffectPixels M inheritedPaletteEffect 1 0 = none := by
  refine ⟨by decide, ?_⟩
  rw [simulate_flow M _ _ _ (by decide)]
  decide!

/-- C3 (amended): for an effect whose lower-cased name contains "strobe" and matches neither
the flow nor the breathing family, every pixel is the primary colour `pick(0)` when
`sin(t * speed * 6) > 0`, and `adjustHex(pick(0), 0.15)` otherwise. -/
theorem C3_strobe_pixels (M : JS.JSMath) (e : Effect) (n : Nat) (t : ℚ)
    (hs : JS.includes (JS.toLowerCase e.name) "strobe".toList = true)
    (h1 : App.isFlow (JS.toLowerCase e.name) = false)
    (h2 : App.isBreath (JS.toLowerCase e.name) = false) :
    App.simulateEffectPixels M e n t =
      some (List.replicate n
        (if M.sin (t * App.effectSpeed e * 6) > 0 then App.pick (App.workingPalette e) 0
         else App.adjustHex (App.pick (App.workingPalette e) 0) (15 / 100))) :=
  simulate_strobe M e n t h1 h2 (by unfold App.isStrobe; rw [hs]; rfl)

/-- C3 (amended) at the effect "strobe" with the default palette, four pixels, `t = 0` and a
sine that is zero: every pixel is the 15% variant of "#32ffe0". -/
theorem C3_strobe_pixels_witness :
    App.simulateEffectPixels ⟨fun _ => 0, fun _ _ => 0, 0⟩ ⟨"strobe".toList, none⟩ 4 0 =
      some (List.replicate 4
        (if (0 : ℚ) > 0 then App.pick (App.workingPalette ⟨"strobe".toList, none⟩) 0
         else App.adjustHex (App.pick (App.workingPalette ⟨"strobe".toList, none⟩) 0) (15 / 100))) :=
  C3_strobe_pixels ⟨fun _ => 0, fun _ _ => 0, 0⟩ ⟨"strobe".toList, none⟩ 4 0
    (by decide) (by decide) (by decide)

/-- C3 as stated fails: the name "rainbow_strobe" contains "strobe", yet the flow family
renders it, and at two pixels and `t = 0` the pixels are not all equal. -/
theorem C3_counterexample :
    ¬ ∀ (M : JS.JSMath) (e : Effect) (n : Nat) (t : ℚ),
      JS.includes (JS.toLowerCase e.name) "strobe".toList = true →
      App.simulateEffectPixels M e n t =
        some (List.replicate n
          (if M.sin (t * App.effectSpeed e * 6) > 0 then App.pick (App.workingPalette e) 0
           else App.adjustHex (App.pick (App.workingPalette e) 0) (15 / 100))) := by
  intro h
  have h2 := h ⟨fun _ => 0, fun _ _ => 0, 0⟩ ⟨"rainbow_strobe".toList, none⟩ 2 0 (by decide)
  rw [simulate_flow _ _ _ _ (by decide)] at h2
  revert h2
  decide!

/-- C6: after `loadStatus` has stored `effects = [{name: "rainbow_cycle", default_params:
{speed: 1}}]` and a state whose effect is "rainbow_cycle", with no parameter overrides, the
synthesizer at `t = 0` with three pixels returns three pairwise distinct colours, each an
interpolation of two neighbours of the neon palette, none of them the placeholder "#0a1220". -/
theorem C6_rainbow_three_pixels (M : JS.JSMath) :
    (App.loadStatusApply (App.initialState none) scenarioStatus).current = some scenarioCurrent ∧
    scenarioCurrent.effect_params = some [] ∧
    App.simulateEffectPixels M
        (App.toEffect (App.simEffect
          (App.loadStatusApply (App.initialState none) scenarioStatus).effects scenarioCurrent)) 3 0
      = some ["#32ffe0".toList, "#7c3aed".toList, "#ff61d6".toList] ∧
    ("#32ffe0".toList ≠ "#7c3aed".toList ∧ "#32ffe0".toList ≠ "#ff61d6".toList ∧
      "#7c3aed".toList ≠ "#ff61d6".toList) ∧
    (∀ c ∈ ["#32ffe0".toList, "#7c3aed".toList, "#ff61d6".toList],
      c ≠ App.off ∧
      ∃ k : Fin 3, ∃ w : ℚ, 0 ≤ w ∧ w < 1 ∧
        (App.lerpColor (.str (App.neon.get! k.val)) (.str (App.neon.get! ((k.val + 1) % 3))) w).map
          App.rgbToHex = some c) := by
  refine ⟨rfl, rfl, ?_, by decide, ?_⟩
  · rw [simulate_flow M _ _ _ (by decide)]
    decide!
  · intro c hc
    simp only [List.mem_cons, List.mem_singleton, List.not_mem_nil, or_false] at hc
    rcases hc with rfl | rfl | rfl
    · exact ⟨by decide, 0, 0, le_refl _, by norm_num, by decide!⟩
    · exact ⟨by decide, 1, 0, le_refl _, by norm_num, by decide!⟩
    · exact ⟨by decide, 2, 0, le_refl _, by norm_num, by decide!⟩

/-- C10: a call of `simulateEffectPixels` returns the same sequence in every program state
and leaves the program state as it was, so two calls with the same arguments return the same
sequence; in the matrix family pixel `i` is decided by `matrixGate`, a function of `i`, `t` and
the speed. -/
theorem C10_simulate_deterministic (M : JS.JSMath) (e : Effect) (n : Nat) (t : ℚ) :
    (∀ g1 g2 : App.Globals,
      (App.callSimulateEffectPixels M g1 e n t).2 = (App.callSimulateEffectPixels M g2 e n t).2 ∧
      (App.callSimulateEffectPixels M g1 e n t).1 = g1 ∧
      (App.callSimulateEffectPixels M (App.callSimulateEffectPixels M g1 e n t).1 e n t).2 =
        (App.callSimulateEffectPixels M g1 e n t).2) ∧
    (App.isFlow (JS.toLowerCase e.name) = false → App.isBreath (JS.toLowerCase e.name) = false →
      App.isStrobe (JS.toLowerCase e.name) = false → App.isWipe (JS.toLowerCase e.name) = false →
      App.isComet (JS.toLowerCase e.name) = false → App.isMatrix (JS.toLowerCase e.name) = true →
      App.simulateEffectPixels M e n t =
        some ((List.range n).map (fun i =>
          if App.matrixGate M (App.effectSpeed e) t i = true
          then App.pick (App.workingPalette e) (i : Int)
          else App.adjustHex (App.pick (App.workingPalette e) 0) (15 / 100)))) :=
  ⟨fun _ _ => ⟨rfl, rfl, rfl⟩, simulate_matrix M e n t⟩

/-- C10 at the effect "twinkle": the six family tests hold, and the three pixels follow the
gate. -/
theorem C10_simulate_deterministic_witness :
    App.simulateEffectPixels ⟨fun _ => 0, fun _ _ => 0, 0⟩ ⟨"twinkle".toList, none⟩ 3 0 =
      some ((List.range 3).map (fun i =>
        if App.matrixGate ⟨fun _ => 0, fun _ _ => 0, 0⟩ (App.effectSpeed ⟨"twinkle".toList, none⟩) 0 i
            = true
        then App.pick (App.workingPalette ⟨"twinkle".toList, none⟩) (i : Int)
        else App.adjustHex (App.pick (App.workingPalette ⟨"twinkle".toList, none⟩) 0) (15 / 100))) :=
  (C10_simulate_deterministic ⟨fun _ => 0, fun _ _ => 0, 0⟩ ⟨"twinkle".toList, none⟩ 3 0).2
    (by decide) (by decide) (by decide) (by decide) (by decide) (by decide)

/-! ## Properties of the store and the stream -/

/-- C4 as stated fails: after `ws.onmessage` has applied a snapshot whose `effect_params` hold
`gamma`, `state.current.effect_params` still holds the key `gamma` (here with presentation
calls that return; the store does not depend on them). -/
theorem C4_counterexample :
    ∃ cur, (App.wsOnMessage (fun _ => true) (App.initialState none)
        (.json (some gammaSnapshot) none)).1.current = some cur ∧
      "gamma".toList ∈ App.globalKeys ∧
      "gamma".toList ∈ JS.keys (cur.effect_params.getD []) :=
  ⟨App.normalise none gammaSnapshot, rfl, by decide, by decide⟩

theorem mem_filter_not_global (l : List Str) (k : Str)
    (h : k ∈ l.filter (fun key => !(App.globalKeys.contains key))) : k ∉ App.globalKeys := by
  rw [List.mem_filter] at h
  intro hk
  have h2 := h.2
  simp [hk] at h2

/-- C4 (amended): after `ws.onmessage` or `loadStatus` has applied a snapshot,
`state.current.effect_params` is the snapshot's `effect_params` (else its `params`, else `{}`)
with every key kept, the global-modifier keys included; the nine global-modifier keys are left
out only of the parameter fields that `renderEffectParams` builds. -/
theorem C4_effect_params_kept_filter_at_render (ui : Presentation) (s : AppState) (st : Current)
    (audio : Option Audio) (data : App.StatusData) :
    ((App.wsOnMessage ui s (.json (some st) audio)).1.current.bind (fun c => c.effect_params)
        = some (match st.effect_params with
          | some o => o
          | none => st.params.getD [])) ∧
    ((App.loadStatusApply s { data with state := some st }).current.bind (fun c => c.effect_params)
        = some (match st.effect_params with
          | some o => o
          | none => st.params.getD [])) ∧
    (∀ k ∈ App.renderEffectParams (App.wsOnMessage ui s (.json (some st) audio)).1,
      k ∉ App.globalKeys) ∧
    (∀ k ∈ App.renderEffectParams (App.loadStatusApply s { data with state := some st }),
      k ∉ App.globalKeys) := by
  refine ⟨rfl, rfl, ?_, ?_⟩
  · intro k hk
    unfold App.renderEffectParams at hk
    split at hk
    · simp at hk
    · split at hk
      · simp at hk
      · exact mem_filter_not_global _ _ hk
  · intro k hk
    unfold App.renderEffectParams at hk
    split at hk
    · simp at hk
    · split at hk
      · simp at hk
      · exact mem_filter_not_global _ _ hk

/-- C7: when the stream closes with code 4401, 4403, 1008 or 403 the token and its stored copy
are cleared, no timeout is set, and `connectWs` then opens nothing; `connectWs` opens nothing
whenever the token is empty; on any other code the state, token included, is unchanged and the
only call made is `setTimeout(connectWs, 2000)`. -/
theorem C7_close_codes (s : AppState) (code : Int) :
    ((code = 4401 ∨ code = 4403 ∨ code = 1008 ∨ code = 403) →
      (App.wsOnClose s code).1.token = [] ∧
      (App.wsOnClose s code).1.storedToken = none ∧
      (∀ fn delay, Outcall.setTimeout fn delay ∉ (App.wsOnClose s code).2) ∧
      (App.connectWs (App.wsOnClose s code).1).2 = []) ∧
    (s.token = [] → App.connectWs s = (s, [])) ∧
    (¬ (code = 4401 ∨ code = 4403 ∨ code = 1008 ∨ code = 403) →
      (App.wsOnClose s code).1 = s ∧
      (App.wsOnClose s code).2 = [.setTimeout .connectWs 2000]) := by
  refine ⟨?_, ?_, ?_⟩
  · intro h
    simp [App.wsOnClose, h, App.forceReauth, App.connectWs]
  · intro h
    simp [App.connectWs, h]
  · intro h
    simp [App.wsOnClose, h]

/-- C7 on a session with the token "abc": the close code 4401 clears the token, the close
code 1006 schedules the one reconnect. -/
theorem C7_close_codes_witness :
    ((App.wsOnClose (App.initialState (some "abc".toList)) 4401).1.token = [] ∧
      (App.wsOnClose (App.initialState (some "abc".toList)) 4401).1.storedToken = none ∧
      (∀ fn delay, Outcall.setTimeout fn delay ∉
        (App.wsOnClose (App.initialState (some "abc".toList)) 4401).2) ∧
      (App.connectWs (App.wsOnClose (App.initialState (some "abc".toList)) 4401).1).2 = []) ∧
    ((App.wsOnClose (App.initialState (some "abc".toList)) 1006).1
        = App.initialState (some "abc".toList) ∧
      (App.wsOnClose (App.initialState (some "abc".toList)) 1006).2
        = [.setTimeout .connectWs 2000]) :=
  ⟨(C7_close_codes (App.initialState (some "abc".toList)) 4401).1 (by decide),
   (C7_close_codes (App.initialState (some "abc".toList)) 1006).2.2 (by decide)⟩

/-! ## Debounce -/

theorem runDebounced_coalesces {α : Type} (wait : Nat)
    (step : Nat → α → Debounced α → Debounced α)
    (hstep : ∀ now args d, step now args d = ⟨some (now + wait, args)⟩) :
    ∀ (calls : List (Nat × α)) (hne : calls ≠ []) (d : Debounced α),
      (∀ due, d.t = some due → ∀ c, calls.head? = some c → c.1 < due.1) →
      withinWindow wait calls = true →
      JS.runDebounced step d calls = [((calls.getLast hne).1 + wait, (calls.getLast hne).2)] := by
  intro calls
  induction calls with
  | nil => intro hne; exact absurd rfl hne
  | cons c rest ih =>
    intro hne d hd hw
    obtain ⟨now, args⟩ := c
    have hrun : JS.runDebounced step d ((now, args) :: rest)
        = JS.runDebounced step ⟨some (now + wait, args)⟩ rest := by
      cases hdt : d.t with
      | none => simp [JS.runDebounced, hdt, hstep]
      | some due =>
        have hlt := hd due hdt (now, args) rfl
        have hnot : ¬ due.1 ≤ now := by simpa using hlt
        simp [JS.runDebounced, hdt, hstep, hnot]
    rw [hrun]
    cases rest with
    | nil => simp [JS.runDebounced]
    | cons c2 rest2 =>
      rw [List.getLast_cons (by simp)]
      apply ih (by simp)
      · intro due hdue c hc
        simp only [Option.some.injEq] at hdue
        simp only [List.head?_cons, Option.some.injEq] at hc
        subst hdue hc
        simp only [withinWindow, Bool.and_eq_true, decide_eq_true_eq] at hw
        exact hw.1.2
      · simp only [withinWindow, Bool.and_eq_true, decide_eq_true_eq] at hw
        exact hw.2

/-- C5: for a function made by `debounce(fn, wait)`, in app.js and in app_v2.js, a sequence of
`N ≥ 1` calls, each less than `wait` milliseconds after the previous one, makes exactly one
invocation of `fn`, `wait` milliseconds after the last call and with the arguments of the last
call. -/
theorem C5_debounce_coalesces {α : Type} (wait : Nat) (calls : List (Nat × α))
    (hne : calls ≠ []) (hw : withinWindow wait calls = true) :
    JS.runDebounced (App.debounce wait) ⟨none⟩ calls
      = [((calls.getLast hne).1 + wait, (calls.getLast hne).2)] ∧
    JS.runDebounced (AppV2.debounce wait) ⟨none⟩ calls
      = [((calls.getLast hne).1 + wait, (calls.getLast hne).2)] :=
  ⟨runDebounced_coalesces wait _ (fun _ _ _ => rfl) calls hne ⟨none⟩
      (fun due h => by simp at h) hw,
   runDebounced_coalesces wait _ (fun _ _ _ => rfl) calls hne ⟨none⟩
      (fun due h => by simp at h) hw⟩

/-- C5 on three brightness edits at 0, 50 and 100 ms with the 80 ms window of `pushState`:
one write, at 180 ms, of the last value. -/
theorem C5_debounce_coalesces_witness :
    JS.runDebounced (App.debounce 80) ⟨none⟩ [(0, 10), (50, 20), (100, 30)] = [(180, 30)] ∧
    JS.runDebounced (AppV2.debounce 80) ⟨none⟩ [(0, 10), (50, 20), (100, 30)] = [(180, 30)] :=
  C5_debounce_coalesces 80 [(0, 10), (50, 20), (100, 30)] (by decide)
    (by decide)

/-! ## Binary64 rounding -/

theorem pow2_eq (e : Int) : JS.pow2 e = (2 : ℚ) ^ e := by
  unfold JS.pow2
  split_ifs with h
  · lift e to Nat using h
    simp
  · obtain ⟨n, hn⟩ : ∃ n : Nat, e = -(n : Int) := ⟨(-e).toNat, by omega⟩
    subst hn
    simp

theorem pow2_pos (e : Int) : 0 < JS.pow2 e := by
  rw [pow2_eq]
  positivity

theorem log2Fuel_spec : ∀ (fuel n : Nat), 1 ≤ n → n ≤ fuel →
    2 ^ JS.log2Fuel fuel n ≤ n ∧ n < 2 ^ (JS.log2Fuel fuel n + 1) := by
  intro fuel
  induction fuel with
  | zero => intro n h1 h2; omega
  | succ fuel ih =>
    intro n h1 h2
    unfold JS.log2Fuel
    by_cases h : 2 ≤ n
    · rw [if_pos h]
      obtain ⟨a, b⟩ := ih (n / 2) (by omega) (by omega)
      rw [pow_succ, pow_succ]
      rw [pow_succ] at b
      constructor <;> omega
    · rw [if_neg h]
      have : n = 1 := by omega
      subst this
      norm_num

theorem abs_eq_natAbs_div (x : ℚ) : |x| = (x.num.natAbs : ℚ) / (x.den : ℚ) := by
  conv_lhs => rw [← Rat.num_div_den x]
  rw [abs_div, Nat.abs_cast, Nat.cast_natAbs, Int.cast_abs]

/-- The exponent brackets the magnitude. -/
theorem expo_spec (x : ℚ) (hx : x ≠ 0) :
    (2 : ℚ) ^ JS.expo x ≤ |x| ∧ |x| < (2 : ℚ) ^ (JS.expo x + 1) := by
  have ha : 1 ≤ x.num.natAbs := by
    have : x.num ≠ 0 := Rat.num_ne_zero.mpr hx
    omega
  have hb : 1 ≤ x.den := x.den_pos
  obtain ⟨a1, a2⟩ := log2Fuel_spec _ _ ha (le_refl _)
  obtain ⟨b1, b2⟩ := log2Fuel_spec _ _ hb (le_refl _)
  have habs := abs_eq_natAbs_div x
  have hden : (0 : ℚ) < (x.den : ℚ) := by exact_mod_cast hb
  have a1q : (2 : ℚ) ^ (JS.log2Fuel x.num.natAbs x.num.natAbs) ≤ (x.num.natAbs : ℚ) := by
    exact_mod_cast a1
  have a2q : (x.num.natAbs : ℚ) < (2 : ℚ) ^ (JS.log2Fuel x.num.natAbs x.num.natAbs + 1) := by
    exact_mod_cast a2
  have b1q : (2 : ℚ) ^ (JS.log2Fuel x.den x.den) ≤ (x.den : ℚ) := by exact_mod_cast b1
  have b2q : (x.den : ℚ) < (2 : ℚ) ^ (JS.log2Fuel x.den x.den + 1) := by exact_mod_cast b2
  unfold JS.expo
  simp only [pow2_eq]
  generalize JS.log2Fuel x.num.natAbs x.num.natAbs = la at a1q a2q ⊢
  generalize JS.log2Fuel x.den x.den = lb at b1q b2q ⊢
  have hA : (0 : ℚ) < (2 : ℚ) ^ la := by positivity
  have hB : (0 : ℚ) < (2 : ℚ) ^ lb := by positivity
  have e1 : (2 : ℚ) ^ ((la : Int) - (lb : Int) + 1) = (2 : ℚ) ^ (la + 1) / (2 : ℚ) ^ lb := by
    rw [show (la : Int) - (lb : Int) + 1 = ((la + 1 : Nat) : Int) - ((lb : Nat) : Int) by
      push_cast; ring]
    rw [zpow_sub₀ (by norm_num), zpow_natCast, zpow_natCast]
  have e2 : (2 : ℚ) ^ ((la : Int) - (lb : Int) - 1) = (2 : ℚ) ^ la / (2 : ℚ) ^ (lb + 1) := by
    rw [show (la : Int) - (lb : Int) - 1 = ((la : Nat) : Int) - ((lb + 1 : Nat) : Int) by
      push_cast; ring]
    rw [zpow_sub₀ (by norm_num), zpow_natCast, zpow_natCast]
  split_ifs with h
  · refine ⟨h, ?_⟩
    rw [e1, habs, div_lt_div_iff₀ hden hB]
    nlinarith
  · push_neg at h
    refine ⟨?_, ?_⟩
    · rw [e2, habs, div_le_div_iff₀ (by positivity) hden]
      nlinarith
    · rw [sub_add_cancel]
      exact h

theorem expo_neg (x : ℚ) : JS.expo (-x) = JS.expo x := by
  unfold JS.expo
  simp only [Rat.neg_num, Int.natAbs_neg, Rat.neg_den, abs_neg]

/-- What `roundEven` returns: the nearest integer, and at a tie the even one. -/
theorem roundEven_spec (z : ℚ) :
    |((JS.roundEven z : Int) : ℚ) - z| < 1 / 2 ∨
      (|((JS.roundEven z : Int) : ℚ) - z| = 1 / 2 ∧ JS.roundEven z % 2 = 0) := by
  have h1 := Int.floor_le z
  have h2 := Int.lt_floor_add_one z
  unfold JS.roundEven
  split_ifs with a b c
  · left
    rw [abs_lt]
    constructor <;> linarith
  · left
    rw [abs_lt]
    push_cast
    constructor <;> linarith
  · right
    refine ⟨?_, c⟩
    have : z - ⌊z⌋ = 1 / 2 := le_antisymm (not_lt.mp b) (not_lt.mp a)
    rw [abs_sub_comm, this]
    norm_num
  · right
    have : z - ⌊z⌋ = 1 / 2 := le_antisymm (not_lt.mp b) (not_lt.mp a)
    refine ⟨?_, by omega⟩
    push_cast
    have e : (⌊z⌋ : ℚ) + 1 - z = 1 / 2 := by linarith
    rw [e]
    norm_num

theorem roundEven_unique (z : ℚ) (n : Int)
    (h : |(n : ℚ) - z| < 1 / 2 ∨ (|(n : ℚ) - z| = 1 / 2 ∧ n % 2 = 0)) :
    JS.roundEven z = n := by
  have hs := roundEven_spec z
  generalize JS.roundEven z = m at hs
  have hle : |((m - n : Int) : ℚ)| ≤ |(m : ℚ) - z| + |(n : ℚ) - z| := by
    have e : ((m - n : Int) : ℚ) = ((m : ℚ) - z) - ((n : ℚ) - z) := by push_cast; ring
    rw [e]
    exact abs_sub _ _
  rcases hs with hs | ⟨hs, hm⟩ <;> rcases h with h | ⟨h, hn⟩
  · have : |((m - n : Int) : ℚ)| < 1 := by linarith
    have h3 : |m - n| < 1 := by exact_mod_cast this
    rw [abs_lt] at h3
    omega
  · have : |((m - n : Int) : ℚ)| < 1 := by linarith
    have h3 : |m - n| < 1 := by exact_mod_cast this
    rw [abs_lt] at h3
    omega
  · have : |((m - n : Int) : ℚ)| < 1 := by linarith
    have h3 : |m - n| < 1 := by exact_mod_cast this
    rw [abs_lt] at h3
    omega
  · have : |((m - n : Int) : ℚ)| ≤ 1 := by linarith
    have h3 : |m - n| ≤ 1 := by exact_mod_cast this
    rw [abs_le] at h3
    omega

theorem roundEven_near (z : ℚ) : |((JS.roundEven z : Int) : ℚ) - z| ≤ 1 / 2 := by
  rcases roundEven_spec z with h | ⟨h, _⟩
  · exact le_of_lt h
  · exact le_of_eq h

theorem roundEven_int (n : Int) : JS.roundEven (n : ℚ) = n :=
  roundEven_unique _ n (Or.inl (by norm_num))

theorem roundEven_neg (z : ℚ) : JS.roundEven (-z) = -JS.roundEven z := by
  apply roundEven_unique
  have e : (((-JS.roundEven z : Int)) : ℚ) - -z = -(((JS.roundEven z : Int) : ℚ) - z) := by
    push_cast; ring
  rw [e, abs_neg]
  rcases roundEven_spec z with h | ⟨h, hm⟩
  · exact Or.inl h
  · exact Or.inr ⟨h, by omega⟩

theorem roundEven_mono (z w : ℚ) (h : z ≤ w) : JS.roundEven z ≤ JS.roundEven w := by
  by_contra hlt
  push_neg at hlt
  have hz := roundEven_spec z
  have hw := roundEven_spec w
  generalize JS.roundEven z = n at hz hlt
  generalize JS.roundEven w = m at hw hlt
  have hmn : (m : ℚ) + 1 ≤ (n : ℚ) := by exact_mod_cast hlt
  have hz1 : (n : ℚ) - z ≤ 1 / 2 := by
    rcases hz with a | ⟨a, _⟩
    · exact le_of_lt (lt_of_le_of_lt (le_abs_self _) a)
    · exact le_trans (le_abs_self _) (le_of_eq a)
  have hw1 : w - (m : ℚ) ≤ 1 / 2 := by
    rcases hw with a | ⟨a, _⟩
    · have := neg_le_abs ((m : ℚ) - w)
      linarith
    · have := neg_le_abs ((m : ℚ) - w)
      linarith
  have ez : (n : ℚ) - z = 1 / 2 := by linarith
  have ew : w - (m : ℚ) = 1 / 2 := by linarith
  have enm : (n : ℚ) = (m : ℚ) + 1 := by linarith
  have enm2 : n = m + 1 := by exact_mod_cast enm
  have hn : n % 2 = 0 := by
    rcases hz with a | ⟨_, b⟩
    · rw [ez, abs_of_pos (by norm_num : (0 : ℚ) < 1 / 2)] at a
      exact absurd a (lt_irrefl _)
    · exact b
  have hm : m % 2 = 0 := by
    rcases hw with a | ⟨_, b⟩
    · rw [abs_sub_comm, ew, abs_of_pos (by norm_num : (0 : ℚ) < 1 / 2)] at a
      exact absurd a (lt_irrefl _)
    · exact b
  omega

/-! ### The rounding `fl` -/

/-- The quantum of `fl` at `x`: the spacing of the doubles around `x`. -/
theorem fl_eq (x : ℚ) (hx : x ≠ 0) :
    JS.fl x = (JS.roundEven (x / (2 : ℚ) ^ (max (JS.expo x) (-1022) - 52)) : ℚ)
      * (2 : ℚ) ^ (max (JS.expo x) (-1022) - 52) := by
  unfold JS.fl
  rw [if_neg hx, pow2_eq]

theorem fl_zero : JS.fl 0 = 0 := by
  unfold JS.fl
  rw [if_pos rfl]

theorem fl_neg (x : ℚ) : JS.fl (-x) = -JS.fl x := by
  by_cases hx : x = 0
  · subst hx
    simp [fl_zero]
  · rw [fl_eq x hx, fl_eq (-x) (neg_ne_zero.mpr hx), expo_neg, neg_div, roundEven_neg]
    push_cast
    ring

/-- The rounding error is at most half the quantum. -/
theorem fl_err_quantum (x : ℚ) (hx : x ≠ 0) :
    |JS.fl x - x| ≤ (2 : ℚ) ^ (max (JS.expo x) (-1022) - 52) / 2 := by
  rw [fl_eq x hx]
  have hq : (0 : ℚ) < (2 : ℚ) ^ (max (JS.expo x) (-1022) - 52) := by positivity
  generalize (2 : ℚ) ^ (max (JS.expo x) (-1022) - 52) = q at hq
  have h := roundEven_near (x / q)
  have e : ((JS.roundEven (x / q) : Int) : ℚ) * q - x
      = (((JS.roundEven (x / q) : Int) : ℚ) - x / q) * q := by
    field_simp
  rw [e, abs_mul, abs_of_pos hq]
  calc |((JS.roundEven (x / q) : Int) : ℚ) - x / q| * q ≤ 1 / 2 * q :=
        mul_le_mul_of_nonneg_right h hq.le
    _ = q / 2 := by ring

/-- The error of one rounding: relative `2^-53`, or absolute `2^-1075` below the normal
range. -/
theorem fl_err (x : ℚ) : |JS.fl x - x| ≤ |x| / 2 ^ 53 + 1 / 2 ^ 1075 := by
  by_cases hx : x = 0
  · subst hx
    rw [fl_zero]
    norm_num
  · have h := fl_err_quantum x hx
    obtain ⟨e1, _⟩ := expo_spec x hx
    have habs : 0 ≤ |x| := abs_nonneg x
    rcases le_total (JS.expo x) (-1022) with hc | hc
    · rw [max_eq_right hc] at h
      have e : (2 : ℚ) ^ ((-1022 : Int) - 52) / 2 = 1 / 2 ^ 1075 := by
        rw [show ((-1022 : Int) - 52) = -((1074 : Nat) : Int) by norm_num, zpow_neg, zpow_natCast]
        rw [pow_succ (2 : ℚ) 1074]
        field_simp
      rw [e] at h
      have : 0 ≤ |x| / 2 ^ 53 := by positivity
      linarith
    · rw [max_eq_left hc] at h
      have e : (2 : ℚ) ^ (JS.expo x - 52) / 2 = (2 : ℚ) ^ JS.expo x / 2 ^ 53 := by
        rw [zpow_sub₀ (by norm_num)]
        rw [show ((52 : Int)) = ((52 : Nat) : Int) by norm_num, zpow_natCast, pow_succ (2 : ℚ) 52]
        field_simp
      rw [e] at h
      have h2 : (2 : ℚ) ^ JS.expo x / 2 ^ 53 ≤ |x| / 2 ^ 53 :=
        div_le_div_of_nonneg_right e1 (by positivity)
      have : (0 : ℚ) ≤ 1 / 2 ^ 1075 := by positivity
      linarith

theorem fl_nonneg (x : ℚ) (h : 0 ≤ x) : 0 ≤ JS.fl x := by
  by_cases hx : x = 0
  · subst hx
    rw [fl_zero]
  · rw [fl_eq x hx]
    have hq : (0 : ℚ) < (2 : ℚ) ^ (max (JS.expo x) (-1022) - 52) := by positivity
    apply mul_nonneg _ hq.le
    have h0 : JS.roundEven ((0 : Int) : ℚ) ≤ JS.roundEven (x / (2 : ℚ) ^ (max (JS.expo x) (-1022) - 52)) :=
      roundEven_mono _ _ (by
        rw [Int.cast_zero]
        exact div_nonneg h hq.le)
    rw [roundEven_int] at h0
    exact_mod_cast h0

theorem expo_mono (x y : ℚ) (hx : 0 < x) (h : x ≤ y) : JS.expo x ≤ JS.expo y := by
  obtain ⟨a, _⟩ := expo_spec x (ne_of_gt hx)
  obtain ⟨_, b⟩ := expo_spec y (ne_of_gt (lt_of_lt_of_le hx h))
  rw [abs_of_pos hx] at a
  rw [abs_of_pos (lt_of_lt_of_le hx h)] at b
  have hlt : (2 : ℚ) ^ JS.expo x < (2 : ℚ) ^ (JS.expo y + 1) := by linarith
  have := (zpow_lt_zpow_iff_right₀ (by norm_num : (1 : ℚ) < 2)).mp hlt
  omega

theorem fl_le_pow (x : ℚ) (hx : 0 < x) :
    JS.fl x ≤ (2 : ℚ) ^ (max (JS.expo x) (-1022) + 1) := by
  obtain ⟨_, b⟩ := expo_spec x (ne_of_gt hx)
  rw [abs_of_pos hx] at b
  rw [fl_eq x (ne_of_gt hx)]
  have hE : JS.expo x ≤ max (JS.expo x) (-1022) := le_max_left _ _
  generalize max (JS.expo x) (-1022) = E at hE
  have hq : (0 : ℚ) < (2 : ℚ) ^ (E - 52) := by positivity
  have hsplit : (2 : ℚ) ^ (E + 1) = ((2 ^ 53 : Int) : ℚ) * (2 : ℚ) ^ (E - 52) := by
    rw [show E + 1 = ((53 : Nat) : Int) + (E - 52) by push_cast; ring,
      zpow_add₀ (by norm_num), zpow_natCast]
    norm_num
  have hxE : x ≤ (2 : ℚ) ^ (E + 1) := by
    have : (2 : ℚ) ^ (JS.expo x + 1) ≤ (2 : ℚ) ^ (E + 1) :=
      zpow_le_zpow_right₀ (by norm_num) (by omega)
    linarith
  have hdiv : x / (2 : ℚ) ^ (E - 52) ≤ ((2 ^ 53 : Int) : ℚ) := by
    rw [div_le_iff₀ hq, ← hsplit]
    exact hxE
  have hr := roundEven_mono _ _ hdiv
  rw [roundEven_int] at hr
  rw [hsplit]
  apply mul_le_mul_of_nonneg_right _ hq.le
  exact_mod_cast hr

theorem pow_le_fl (x : ℚ) (hx : 0 < x) (hE : -1022 ≤ JS.expo x) :
    (2 : ℚ) ^ JS.expo x ≤ JS.fl x := by
  obtain ⟨a, _⟩ := expo_spec x (ne_of_gt hx)
  rw [abs_of_pos hx] at a
  rw [fl_eq x (ne_of_gt hx), max_eq_left hE]
  generalize JS.expo x = E at a
  have hq : (0 : ℚ) < (2 : ℚ) ^ (E - 52) := by positivity
  have hsplit : (2 : ℚ) ^ E = ((2 ^ 52 : Int) : ℚ) * (2 : ℚ) ^ (E - 52) := by
    rw [show E = ((52 : Nat) : Int) + (E - 52) by push_cast; ring,
      zpow_add₀ (by norm_num), zpow_natCast]
    norm_num
  have hdiv : ((2 ^ 52 : Int) : ℚ) ≤ x / (2 : ℚ) ^ (E - 52) := by
    rw [le_div_iff₀ hq, ← hsplit]
    exact a
  have hr := roundEven_mono _ _ hdiv
  rw [roundEven_int] at hr
  rw [hsplit]
  apply mul_le_mul_of_nonneg_right _ hq.le
  exact_mod_cast hr

theorem fl_mono_pos (x y : ℚ) (hx : 0 < x) (h : x ≤ y) : JS.fl x ≤ JS.fl y := by
  have hy : 0 < y := lt_of_lt_of_le hx h
  have he := expo_mono x y hx h
  rcases eq_or_lt_of_le (max_le_max he (le_refl (-1022 : Int))) with heq | hlt
  · rw [fl_eq x (ne_of_gt hx), fl_eq y (ne_of_gt hy), heq]
    have hq : (0 : ℚ) < (2 : ℚ) ^ (max (JS.expo y) (-1022) - 52) := by positivity
    apply mul_le_mul_of_nonneg_right _ hq.le
    have := roundEven_mono _ _ (div_le_div_of_nonneg_right h hq.le)
    exact_mod_cast this
  · have hEy : -1022 ≤ JS.expo y := by
      by_contra hc
      push_neg at hc
      rw [max_eq_right (le_of_lt hc)] at hlt
      have := le_max_right (JS.expo x) (-1022)
      omega
    rw [max_eq_left hEy] at hlt
    have h1 := fl_le_pow x hx
    have h2 := pow_le_fl y hy hEy
    have h3 : (2 : ℚ) ^ (max (JS.expo x) (-1022) + 1) ≤ (2 : ℚ) ^ JS.expo y :=
      zpow_le_zpow_right₀ (by norm_num) (by omega)
    linarith

theorem fl_nonpos (x : ℚ) (h : x ≤ 0) : JS.fl x ≤ 0 := by
  have h1 := fl_nonneg (-x) (by linarith)
  rw [fl_neg] at h1
  linarith

/-- The rounding is monotone. -/
theorem fl_mono (x y : ℚ) (h : x ≤ y) : JS.fl x ≤ JS.fl y := by
  by_cases hx : 0 < x
  · exact fl_mono_pos x y hx h
  · push_neg at hx
    by_cases hy : 0 ≤ y
    · exact le_trans (fl_nonpos x hx) (fl_nonneg y hy)
    · push_neg at hy
      have := fl_mono_pos (-y) (-x) (by linarith) (by linarith)
      rw [fl_neg, fl_neg] at this
      linarith

/-- A number `m * 2^e` with fewer than 54 bits in `m` and `e ≥ -1074` is its own rounding. -/
theorem fl_exact (m e : Int) (hm : |m| < 2 ^ 53) (he : -1074 ≤ e) :
    JS.fl ((m : ℚ) * (2 : ℚ) ^ e) = (m : ℚ) * (2 : ℚ) ^ e := by
  by_cases hm0 : m = 0
  · subst hm0
    simp [fl_zero]
  · have hp : (0 : ℚ) < (2 : ℚ) ^ e := by positivity
    have hx : (m : ℚ) * (2 : ℚ) ^ e ≠ 0 :=
      mul_ne_zero (by exact_mod_cast hm0) (ne_of_gt hp)
    obtain ⟨a, _⟩ := expo_spec _ hx
    rw [fl_eq _ hx]
    have hE : max (JS.expo ((m : ℚ) * (2 : ℚ) ^ e)) (-1022) ≤ e + 52 := by
      apply max_le _ (by omega)
      rw [abs_mul, abs_of_pos hp] at a
      have hmq : |(m : ℚ)| < 2 ^ 53 := by
        have : ((|m| : Int) : ℚ) < ((2 ^ 53 : Int) : ℚ) := by exact_mod_cast hm
        rw [Int.cast_abs] at this
        norm_num at this ⊢
        exact this
      have hlt : (2 : ℚ) ^ JS.expo ((m : ℚ) * (2 : ℚ) ^ e) < (2 : ℚ) ^ (53 + e) := by
        rw [zpow_add₀ (by norm_num)]
        calc (2 : ℚ) ^ JS.expo ((m : ℚ) * (2 : ℚ) ^ e) ≤ |(m : ℚ)| * (2 : ℚ) ^ e := a
          _ < 2 ^ 53 * (2 : ℚ) ^ e := mul_lt_mul_of_pos_right hmq hp
          _ = (2 : ℚ) ^ (53 : Int) * (2 : ℚ) ^ e := by norm_num
      have := (zpow_lt_zpow_iff_right₀ (by norm_num : (1 : ℚ) < 2)).mp hlt
      omega
    generalize max (JS.expo ((m : ℚ) * (2 : ℚ) ^ e)) (-1022) = E at hE
    obtain ⟨k, hk⟩ : ∃ k : Nat, e = E - 52 + (k : Int) := ⟨(e - (E - 52)).toNat, by omega⟩
    have hq : (0 : ℚ) < (2 : ℚ) ^ (E - 52) := by positivity
    have hdiv : (m : ℚ) * (2 : ℚ) ^ e / (2 : ℚ) ^ (E - 52) = ((m * 2 ^ k : Int) : ℚ) := by
      rw [hk, zpow_add₀ (by norm_num), zpow_natCast]
      push_cast
      field_simp
      ring
    rw [hdiv, roundEven_int, hk, zpow_add₀ (by norm_num), zpow_natCast]
    push_cast
    ring

theorem fl_natCast (n : Nat) (h : n < 2 ^ 53) : JS.fl (n : ℚ) = (n : ℚ) := by
  have := fl_exact (n : Int) 0 (by rw [abs_of_nonneg (by omega)]; exact_mod_cast h) (by norm_num)
  simpa using this

theorem fl_idem_of (x : ℚ) (h : ∃ m e : Int, |m| < 2 ^ 53 ∧ -1074 ≤ e ∧ x = (m : ℚ) * (2 : ℚ) ^ e) :
    JS.fl x = x := by
  obtain ⟨m, e, hm, he, rfl⟩ := h
  exact fl_exact m e hm he

theorem fl_of_isDouble (x : ℚ) (h : IsDouble x) : JS.fl x = x := by
  obtain ⟨m, e, hm, he, _, rfl⟩ := h
  exact fl_exact m e hm he

/-- A double is a multiple of `2^-1074`. -/
theorem isDouble_grid (x : ℚ) (h : IsDouble x) : ∃ k : Int, x = (k : ℚ) / 2 ^ 1074 := by
  obtain ⟨m, e, _, he, _, rfl⟩ := h
  obtain ⟨n, hn⟩ : ∃ n : Nat, e = (n : Int) - 1074 := ⟨(e + 1074).toNat, by omega⟩
  refine ⟨m * 2 ^ n, ?_⟩
  rw [hn, zpow_sub₀ (by norm_num), zpow_natCast]
  push_cast
  have : (2 : ℚ) ^ (1074 : Int) = 2 ^ 1074 := by norm_num
  rw [this]
  ring

theorem fl_fifth : JS.fl (2 / 10) = 3602879701896397 / 18014398509481984 := by decide!

/-- The product stage of the smoothing step does not pass the difference. -/
theorem smooth_delta_le (D : ℚ) (hD : 0 ≤ D) (hgrid : D = 0 ∨ 1 / 2 ^ 1074 ≤ D) :
    0 ≤ JS.fl (JS.fl D * JS.fl (2 / 10)) ∧ JS.fl (JS.fl D * JS.fl (2 / 10)) ≤ D := by
  rw [fl_fifth]
  have h1 := fl_nonneg D hD
  have h2 : 0 ≤ JS.fl D * (3602879701896397 / 18014398509481984) := by positivity
  refine ⟨fl_nonneg _ h2, ?_⟩
  rcases hgrid with h0 | hpos
  · subst h0
    rw [fl_zero, zero_mul, fl_zero]
  · have e1 := fl_err D
    have e2 := fl_err (JS.fl D * (3602879701896397 / 18014398509481984))
    rw [abs_of_nonneg hD] at e1
    rw [abs_of_nonneg h2] at e2
    rw [abs_le] at e1 e2
    have hη : (1 : ℚ) / 2 ^ 1074 = 2 * (1 / 2 ^ 1075) := by norm_num
    rw [hη] at hpos
    generalize (1 : ℚ) / 2 ^ 1075 = η at e1 e2 hpos
    generalize JS.fl (JS.fl D * (3602879701896397 / 18014398509481984)) = d2 at e2 ⊢
    generalize JS.fl D = d1 at e1 e2 h1
    norm_num at e1 e2
    linarith [e1.2, e2.2]

/-- Before its last rounding the new level lies between the level and the target. -/
theorem smooth_pre_between (L T : ℚ) (hL : IsDouble L) (hT : IsDouble T) :
    min L T ≤ L + JS.fl (JS.fl (T - L) * JS.fl (2 / 10)) ∧
    L + JS.fl (JS.fl (T - L) * JS.fl (2 / 10)) ≤ max L T := by
  obtain ⟨kL, hkL⟩ := isDouble_grid L hL
  obtain ⟨kT, hkT⟩ := isDouble_grid T hT
  rcases le_total L T with h | h
  · rw [min_eq_left h, max_eq_right h]
    have hgrid : T - L = 0 ∨ 1 / 2 ^ 1074 ≤ T - L := by
      rcases eq_or_lt_of_le h with h0 | hlt
      · left
        linarith
      · right
        rw [hkL, hkT] at hlt ⊢
        have hk : kL < kT := by
          have := (div_lt_div_iff_of_pos_right (by positivity : (0 : ℚ) < 2 ^ 1074)).mp hlt
          exact_mod_cast this
        have hk1 : (kL : ℚ) + 1 ≤ (kT : ℚ) := by exact_mod_cast hk
        rw [← sub_div]
        apply div_le_div_of_nonneg_right _ (by positivity)
        linarith
    obtain ⟨a, b⟩ := smooth_delta_le (T - L) (by linarith) hgrid
    constructor <;> linarith
  · rw [min_eq_right h, max_eq_left h]
    have hgrid : L - T = 0 ∨ 1 / 2 ^ 1074 ≤ L - T := by
      rcases eq_or_lt_of_le h with h0 | hlt
      · left
        linarith
      · right
        rw [hkL, hkT] at hlt ⊢
        have hk : kT < kL := by
          have := (div_lt_div_iff_of_pos_right (by positivity : (0 : ℚ) < 2 ^ 1074)).mp hlt
          exact_mod_cast this
        have hk1 : (kT : ℚ) + 1 ≤ (kL : ℚ) := by exact_mod_cast hk
        rw [← sub_div]
        apply div_le_div_of_nonneg_right _ (by positivity)
        linarith
    obtain ⟨a, b⟩ := smooth_delta_le (L - T) (by linarith) hgrid
    have hneg : JS.fl (JS.fl (T - L) * JS.fl (2 / 10))
        = -JS.fl (JS.fl (L - T) * JS.fl (2 / 10)) := by
      rw [show T - L = -(L - T) by ring, fl_neg, neg_mul, fl_neg]
    rw [hneg]
    constructor <;> linarith

/-- The level after one smoothing step lies between the level and the target. -/
theorem smooth_between (L T : ℚ) (hL : IsDouble L) (hT : IsDouble T) :
    min L T ≤ JS.fl (L + JS.fl (JS.fl (T - L) * JS.fl (2 / 10))) ∧
    JS.fl (L + JS.fl (JS.fl (T - L) * JS.fl (2 / 10))) ≤ max L T := by
  obtain ⟨a, b⟩ := smooth_pre_between L T hL hT
  have hmin : JS.fl (min L T) = min L T := by
    rcases min_choice L T with h | h <;> rw [h]
    · exact fl_of_isDouble L hL
    · exact fl_of_isDouble T hT
  have hmax : JS.fl (max L T) = max L T := by
    rcases max_choice L T with h | h <;> rw [h]
    · exact fl_of_isDouble L hL
    · exact fl_of_isDouble T hT
  constructor
  · have := fl_mono _ _ a
    rw [hmin] at this
    exact this
  · have := fl_mono _ _ b
    rw [hmax] at this
    exact this

/-- With level and target of magnitude at most `2^1022` no operation of the smoothing step
overflows. -/
theorem smooth_finite (L T : ℚ) (hL : IsDouble L) (hT : IsDouble T)
    (hLr : |L| ≤ 2 ^ 1022) (hTr : |T| ≤ 2 ^ 1022) :
    RoundsFinite (T - L) ∧ RoundsFinite (JS.fl (T - L) * JS.fl (2 / 10)) ∧
    RoundsFinite (L + JS.fl (JS.fl (T - L) * JS.fl (2 / 10))) := by
  have hD : |T - L| ≤ |T| + |L| := abs_sub T L
  refine ⟨?_, ?_, ?_⟩
  · unfold RoundsFinite
    have : (2 : ℚ) ^ 1022 + 2 ^ 1022 < 2 ^ 1024 - 2 ^ 970 := by norm_num
    linarith
  · unfold RoundsFinite
    rw [fl_fifth, abs_mul, abs_of_pos (by norm_num : (0 : ℚ) < 3602879701896397 / 18014398509481984)]
    have e1 := fl_err (T - L)
    have hd1 : |JS.fl (T - L)| ≤ |T - L| + |JS.fl (T - L) - (T - L)| := by
      have := abs_add (T - L) (JS.fl (T - L) - (T - L))
      rw [add_sub_cancel] at this
      exact this
    generalize |JS.fl (T - L)| = a at hd1 ⊢
    generalize |JS.fl (T - L) - (T - L)| = b at hd1 e1
    generalize |T - L| = c at hD e1 hd1
    generalize |T| = t at hD hTr
    generalize |L| = l at hD hLr
    norm_num at e1 hLr hTr ⊢
    linarith
  · unfold RoundsFinite
    obtain ⟨a, b⟩ := smooth_pre_between L T hL hT
    have h1 : |L + JS.fl (JS.fl (T - L) * JS.fl (2 / 10))| ≤ max |L| |T| := by
      rw [abs_le]
      constructor
      · have h3 : -max |L| |T| ≤ min L T := by
          rw [le_min_iff]
          constructor
          · have := neg_abs_le L
            have := le_max_left |L| |T|
            linarith
          · have := neg_abs_le T
            have := le_max_right |L| |T|
            linarith
        linarith
      · have h3 : max L T ≤ max |L| |T| := max_le_max (le_abs_self L) (le_abs_self T)
        linarith
    have h2 : max |L| |T| ≤ 2 ^ 1022 := max_le hLr hTr
    have : (2 : ℚ) ^ 1022 < 2 ^ 1024 - 2 ^ 970 := by norm_num
    linarith

/-- The distance of the computed level from the level of exact arithmetic. -/
theorem smooth_error (L T : ℚ) :
    |JS.fl (L + JS.fl (JS.fl (T - L) * JS.fl (2 / 10))) - (L + 2 / 10 * (T - L))|
      ≤ (|L| + |T|) / 2 ^ 52 + 1 / 2 ^ 1073 := by
  rw [fl_fifth]
  have e1 := fl_err (T - L)
  have e2 := fl_err (JS.fl (T - L) * (3602879701896397 / 18014398509481984))
  have e3 := fl_err (L + JS.fl (JS.fl (T - L) * (3602879701896397 / 18014398509481984)))
  have hD : |T - L| ≤ |L| + |T| := by
    have := abs_sub T L
    linarith
  have hd1 : |JS.fl (T - L)| ≤ |T - L| + |JS.fl (T - L) - (T - L)| := by
    have := abs_add (T - L) (JS.fl (T - L) - (T - L))
    rw [add_sub_cancel] at this
    exact this
  rw [abs_mul, abs_of_pos (by norm_num : (0 : ℚ) < 3602879701896397 / 18014398509481984)] at e2
  have hd2 : |JS.fl (JS.fl (T - L) * (3602879701896397 / 18014398509481984))|
      ≤ |JS.fl (T - L)| * (3602879701896397 / 18014398509481984)
        + |JS.fl (JS.fl (T - L) * (3602879701896397 / 18014398509481984))
            - JS.fl (T - L) * (3602879701896397 / 18014398509481984)| := by
    have := abs_add (JS.fl (T - L) * (3602879701896397 / 18014398509481984))
      (JS.fl (JS.fl (T - L) * (3602879701896397 / 18014398509481984))
        - JS.fl (T - L) * (3602879701896397 / 18014398509481984))
    rw [add_sub_cancel, abs_mul,
      abs_of_pos (by norm_num : (0 : ℚ) < 3602879701896397 / 18014398509481984)] at this
    exact this
  have hs : |L + JS.fl (JS.fl (T - L) * (3602879701896397 / 18014398509481984))|
      ≤ |L| + |JS.fl (JS.fl (T - L) * (3602879701896397 / 18014398509481984))| := abs_add _ _
  generalize JS.fl (L + JS.fl (JS.fl (T - L) * (3602879701896397 / 18014398509481984))) = nw
    at e3 ⊢
  generalize JS.fl (JS.fl (T - L) * (3602879701896397 / 18014398509481984)) = d2 at e2 e3 hd2 hs ⊢
  generalize JS.fl (T - L) = d1 at e1 e2 hd1 hd2
  have hsplit : nw - (L + 2 / 10 * (T - L))
      = (nw - (L + d2)) + (d2 - d1 * (3602879701896397 / 18014398509481984))
        + (3602879701896397 / 18014398509481984) * (d1 - (T - L))
        + (3602879701896397 / 18014398509481984 - 2 / 10) * (T - L) := by ring
  have t3 : |(3602879701896397 / 18014398509481984 : ℚ) * (d1 - (T - L))|
      = (3602879701896397 / 18014398509481984) * |d1 - (T - L)| := by
    rw [abs_mul, abs_of_pos (by norm_num : (0 : ℚ) < 3602879701896397 / 18014398509481984)]
  have t4 : |((3602879701896397 / 18014398509481984 : ℚ) - 2 / 10) * (T - L)|
      = (3602879701896397 / 18014398509481984 - 2 / 10) * |T - L| := by
    rw [abs_mul, abs_of_pos (by norm_num :
      (0 : ℚ) < 3602879701896397 / 18014398509481984 - 2 / 10)]
  have tri := abs_add_three (nw - (L + d2) + (d2 - d1 * (3602879701896397 / 18014398509481984)))
    ((3602879701896397 / 18014398509481984) * (d1 - (T - L)))
    ((3602879701896397 / 18014398509481984 - 2 / 10) * (T - L))
  have tri2 := abs_add (nw - (L + d2)) (d2 - d1 * (3602879701896397 / 18014398509481984))
  rw [hsplit]
  rw [t3, t4] at tri
  have hη : (1 : ℚ) / 2 ^ 1073 = 4 * (1 / 2 ^ 1075) := by norm_num
  rw [hη]
  have hηpos : (0 : ℚ) < 1 / 2 ^ 1075 := by positivity
  generalize (1 : ℚ) / 2 ^ 1075 = η at e1 e2 e3 hηpos ⊢
  have n0 := abs_nonneg L
  have n1 := abs_nonneg T
  norm_num at e1 e2 e3 tri ⊢
  linarith

/-! ## The HSV round trip -/

theorem clamp_lipschitz (a b : ℚ) : |max 0 (min 1 a) - max 0 (min 1 b)| ≤ |a - b| := by
  calc |max 0 (min 1 a) - max 0 (min 1 b)| ≤ |min 1 a - min 1 b| := by
        rw [max_comm 0, max_comm 0]; exact abs_max_sub_max_le_abs _ _ _
    _ ≤ |a - b| := by
        refine le_trans (abs_min_sub_min_le_max 1 a 1 b) ?_
        simp

theorem dropR_lipschitz (x y : ℚ) : |dropR x - dropR y| ≤ |x - y| := by
  unfold dropR
  refine le_trans (clamp_lipschitz _ _) ?_
  have : (2 - |x - 3|) - (2 - |y - 3|) = -(|x - 3| - |y - 3|) := by ring
  rw [this, abs_neg]
  refine le_trans (abs_abs_sub_abs_le_abs_sub _ _) ?_
  have : x - 3 - (y - 3) = x - y := by ring
  rw [this]

theorem dropG_lipschitz (x y : ℚ) : |dropG x - dropG y| ≤ |x - y| := by
  unfold dropG
  refine le_trans (clamp_lipschitz _ _) ?_
  have : (|x - 2| - 1) - (|y - 2| - 1) = |x - 2| - |y - 2| := by ring
  rw [this]
  refine le_trans (abs_abs_sub_abs_le_abs_sub _ _) ?_
  have : x - 2 - (y - 2) = x - y := by ring
  rw [this]

theorem dropB_lipschitz (x y : ℚ) : |dropB x - dropB y| ≤ |x - y| := by
  unfold dropB
  refine le_trans (clamp_lipschitz _ _) ?_
  have : (|x - 4| - 1) - (|y - 4| - 1) = |x - 4| - |y - 4| := by ring
  rw [this]
  refine le_trans (abs_abs_sub_abs_le_abs_sub _ _) ?_
  have : x - 4 - (y - 4) = x - y := by ring
  rw [this]

theorem clamp_range (a : ℚ) : 0 ≤ max 0 (min 1 a) ∧ max 0 (min 1 a) ≤ 1 :=
  ⟨le_max_left _ _, max_le (by norm_num) (min_le_left _ _)⟩

/-- The three drops on each sixth of the hue circle. -/
theorem drops_sector (i : Int) (f : ℚ) (hf0 : 0 ≤ f) (hf1 : f < 1) :
    (i = 0 → dropR (i + f) = 0 ∧ dropG (i + f) = 1 - f ∧ dropB (i + f) = 1) ∧
    (i = 1 → dropR (i + f) = f ∧ dropG (i + f) = 0 ∧ dropB (i + f) = 1) ∧
    (i = 2 → dropR (i + f) = 1 ∧ dropG (i + f) = 0 ∧ dropB (i + f) = 1 - f) ∧
    (i = 3 → dropR (i + f) = 1 ∧ dropG (i + f) = f ∧ dropB (i + f) = 0) ∧
    (i = 4 → dropR (i + f) = 1 - f ∧ dropG (i + f) = 1 ∧ dropB (i + f) = 0) ∧
    (i = 5 → dropR (i + f) = 0 ∧ dropG (i + f) = 1 ∧ dropB (i + f) = f) ∧
    (i = 6 → f = 0 → dropR (i + f) = 0 ∧ dropG (i + f) = 1 ∧ dropB (i + f) = 1) := by
  refine ⟨?_, ?_, ?_, ?_, ?_, ?_, ?_⟩
  all_goals
    intro hi
    try intro hz
    subst hi
    try subst hz
    simp only [dropR, dropG, dropB, abs_eq_max_neg, max_def, min_def, Int.cast_ofNat, Int.cast_zero,
      Int.cast_one]
    refine ⟨?_, ?_, ?_⟩ <;> (split_ifs <;> linarith)

theorem hueNum_cases (R G B M m : Int) (hM : M = max (max R G) B) (hm : m = min (min R G) B) :
    hueNum R G B = (if M = R then (if G < B then G - B + 6 * (M - m) else G - B)
      else if M = G then B - R + 2 * (M - m) else R - G + 4 * (M - m)) := by
  subst hM hm
  rfl

theorem hueNum_drops (R G B M m n : Int) (hM : M = max (max R G) B) (hm : m = min (min R G) B)
    (hn : n = hueNum R G B) (hD : 0 < M - m) :
    max 0 (min (M - m) (2 * (M - m) - max (n - 3 * (M - m)) (-(n - 3 * (M - m))))) = M - R ∧
    max 0 (min (M - m) (max (n - 2 * (M - m)) (-(n - 2 * (M - m))) - (M - m))) = M - G ∧
    max 0 (min (M - m) (max (n - 4 * (M - m)) (-(n - 4 * (M - m))) - (M - m))) = M - B ∧
    0 ≤ n ∧ n ≤ 6 * (M - m) := by
  rw [hueNum_cases R G B M m hM hm] at hn
  have h1 : R ≤ M ∧ G ≤ M ∧ B ≤ M ∧ (M = R ∨ M = G ∨ M = B) := by omega
  have h2 : m ≤ R ∧ m ≤ G ∧ m ≤ B ∧ (m = R ∨ m = G ∨ m = B) := by omega
  clear hM hm
  split_ifs at hn <;> (refine ⟨?_, ?_, ?_, ?_, ?_⟩ <;> omega)

theorem scaled_clamp (D a : ℚ) (hD : 0 < D) :
    D * max 0 (min 1 a) = max 0 (min D (D * a)) := by
  rw [mul_max_of_nonneg _ _ hD.le, mul_min_of_nonneg _ _ hD.le, mul_zero, mul_one]

theorem scaled_abs (D n c : ℚ) (hD : 0 < D) : D * |n / D - c| = |n - c * D| := by
  have h : n - c * D = D * (n / D - c) := by field_simp; ring
  rw [h, abs_mul, abs_of_pos hD]

/-- The distance of each channel below the largest one is the drop at the hue of the triple,
times the spread `M - m`. -/
theorem drops_of_triple (R G B M m n : Int) (hM : M = max (max R G) B)
    (hm : m = min (min R G) B) (hn : n = hueNum R G B) (hD : 0 < M - m) :
    (((M - m : Int) : ℚ) * dropR ((n : ℚ) / ((M - m : Int) : ℚ)) = ((M - R : Int) : ℚ)) ∧
    (((M - m : Int) : ℚ) * dropG ((n : ℚ) / ((M - m : Int) : ℚ)) = ((M - G : Int) : ℚ)) ∧
    (((M - m : Int) : ℚ) * dropB ((n : ℚ) / ((M - m : Int) : ℚ)) = ((M - B : Int) : ℚ)) := by
  have hDq : (0 : ℚ) < ((M - m : Int) : ℚ) := by exact_mod_cast hD
  obtain ⟨iR, iG, iB, -, -⟩ := hueNum_drops R G B M m n hM hm hn hD
  refine ⟨?_, ?_, ?_⟩
  · rw [← iR, dropR, scaled_clamp _ _ hDq, mul_sub, scaled_abs _ _ _ hDq, abs_eq_max_neg]
    push_cast
    ring_nf
  · rw [← iG, dropG, scaled_clamp _ _ hDq, mul_sub, scaled_abs _ _ _ hDq, abs_eq_max_neg]
    push_cast
    ring_nf
  · rw [← iB, dropB, scaled_clamp _ _ hDq, mul_sub, scaled_abs _ _ _ hDq, abs_eq_max_neg]
    push_cast
    ring_nf

theorem round_near (z : ℚ) : |((JS.round z : Int) : ℚ) - z| ≤ 1 / 2 := by
  unfold JS.round
  have h1 := Int.floor_le (z + 1 / 2)
  have h2 := Int.lt_floor_add_one (z + 1 / 2)
  rw [abs_le]
  constructor <;> linarith

theorem round_nonneg (z : ℚ) (h : 0 ≤ z) : 0 ≤ JS.round z := by
  unfold JS.round
  exact Int.floor_nonneg.mpr (by linarith)

theorem round_le_of_le (z : ℚ) (N : Int) (h : z ≤ N) : JS.round z ≤ N := by
  unfold JS.round
  have h2 : ⌊z + 1 / 2⌋ < N + 1 := by
    rw [Int.floor_lt]
    push_cast
    linarith
  omega

theorem core_bound (a σ M D e u : ℚ)
    (hα : |51 / 20 * a - M| ≤ 51 / 40)
    (hβ : |M * σ / 100 - D| ≤ M / 200)
    (hγ : |D * u - e| ≤ D / 120)
    (hu0 : 0 ≤ u) (hu1 : u ≤ 1) (hσ0 : 0 ≤ σ) (hσ1 : σ ≤ 100)
    (hDM : D ≤ M) (hM : M ≤ 255) :
    |a / 100 * (1 - u * (σ / 100)) * 255 - (M - e)| < 7 / 2 := by
  rw [abs_le] at hα hβ hγ
  have hid : a / 100 * (1 - u * (σ / 100)) * 255 - (M - e)
      = (51 / 20 * a - M) * (1 - u * (σ / 100)) - (D * u - e) - (M * σ / 100 - D) * u := by ring
  have huw : u * (σ / 100) ≤ 1 := by
    have : u * (σ / 100) ≤ 1 * 1 := mul_le_mul hu1 (by linarith) (by positivity) (by norm_num)
    linarith
  have hk : 0 ≤ 1 - u * (σ / 100) := by linarith
  have a1 := mul_le_mul_of_nonneg_right hα.2 hk
  have a2 := mul_le_mul_of_nonneg_right hα.1 hk
  have b1 := mul_le_mul_of_nonneg_right hβ.2 hu0
  have b2 := mul_le_mul_of_nonneg_right hβ.1 hu0
  have hs : 0 ≤ (255 - M) * σ := mul_nonneg (by linarith) hσ0
  have hc : 0 ≤ (1 - u) * (M / 200 - D / 200 + 51 / 8000) :=
    mul_nonneg (by linarith) (by linarith)
  have hw : 0 ≤ u * (255 * σ - (100 * D - 255 / 2)) :=
    mul_nonneg hu0 (by nlinarith)
  rw [hid, abs_lt]
  constructor <;> nlinarith

theorem dropR_range (x : ℚ) : 0 ≤ dropR x ∧ dropR x ≤ 1 := clamp_range _

theorem dropG_range (x : ℚ) : 0 ≤ dropG x ∧ dropG x ≤ 1 := clamp_range _

theorem dropB_range (x : ℚ) : 0 ≤ dropB x ∧ dropB x ≤ 1 := clamp_range _

/-- One rounding of a value close to a moderate number stays close to it. -/
theorem fl_close (x x0 ε : ℚ) (h : |x - x0| ≤ ε) (hb : |x0| ≤ 1000) (hε : ε ≤ 1) :
    |JS.fl x - x0| ≤ ε + 1 / 2 ^ 42 := by
  have e := fl_err x
  have hx : |x| ≤ |x0| + |x - x0| := by
    have := abs_add x0 (x - x0)
    rw [add_sub_cancel] at this
    exact this
  have tri := abs_add (JS.fl x - x) (x - x0)
  rw [sub_add_sub_cancel] at tri
  generalize |JS.fl x - x0| = a at tri ⊢
  generalize |JS.fl x - x| = b at tri e
  generalize |x - x0| = c at tri h hx
  generalize |x| = d at hx e
  generalize |x0| = d0 at hx hb
  norm_num at e ⊢
  linarith

/-- The rounding of a number is within a half of an exact value with denominator `N` as soon
as the number is closer to it than `1 / (2 N)`. -/
theorem round_near_of_close (zf z : ℚ) (N j : Int) (hN : 0 < N) (hz : z * (N : ℚ) = (j : ℚ))
    (hc : |zf - z| < 1 / (2 * (N : ℚ))) : |((JS.round zf : Int) : ℚ) - z| ≤ 1 / 2 := by
  have h0 := round_near zf
  generalize JS.round zf = k at h0
  have hNq : (0 : ℚ) < (N : ℚ) := by exact_mod_cast hN
  have tri := abs_add ((k : ℚ) - zf) (zf - z)
  rw [sub_add_sub_cancel] at tri
  have hlt : |(k : ℚ) - z| < 1 / 2 + 1 / (2 * (N : ℚ)) := by linarith
  have e : (2 * (N : ℚ)) * ((k : ℚ) - z) = ((2 * N * k - 2 * j : Int) : ℚ) := by
    push_cast
    rw [← hz]
    ring
  have h2 : |((2 * N * k - 2 * j : Int) : ℚ)| < (N : ℚ) + 1 := by
    rw [← e, abs_mul, abs_of_pos (by positivity : (0 : ℚ) < 2 * (N : ℚ))]
    calc 2 * (N : ℚ) * |(k : ℚ) - z| < 2 * (N : ℚ) * (1 / 2 + 1 / (2 * (N : ℚ))) :=
          mul_lt_mul_of_pos_left hlt (by positivity)
      _ = (N : ℚ) + 1 := by field_simp
  have h3 : |2 * N * k - 2 * j| < N + 1 := by exact_mod_cast h2
  have h4 : |2 * N * k - 2 * j| ≤ N := by omega
  have h5 : |((2 * N * k - 2 * j : Int) : ℚ)| ≤ (N : ℚ) := by exact_mod_cast h4
  rw [← e, abs_mul, abs_of_pos (by positivity : (0 : ℚ) < 2 * (N : ℚ))] at h5
  have h6 : 2 * (N : ℚ) * |(k : ℚ) - z| ≤ 2 * (N : ℚ) * (1 / 2) := by
    calc 2 * (N : ℚ) * |(k : ℚ) - z| ≤ (N : ℚ) := h5
      _ = 2 * (N : ℚ) * (1 / 2) := by ring
  exact le_of_mul_le_mul_left h6 (by positivity)

/-- The quotient of two approximations, the divisor at least 1/255 and the exact quotient at
most 1 in magnitude. -/
theorem div_close (a a0 b b0 εa εb : ℚ) (ha : |a - a0| ≤ εa) (hb : |b - b0| ≤ εb)
    (hb0 : 0 < b0) (hbb : 1 / 256 ≤ b) (hab : |a0| ≤ b0) :
    |a / b - a0 / b0| ≤ 256 * (εa + εb) := by
  have hbpos : 0 < b := by linarith
  have e : a / b - a0 / b0 = ((a - a0) * b0 - a0 * (b - b0)) / (b * b0) := by
    field_simp
    ring
  have hεa : 0 ≤ εa := le_trans (abs_nonneg _) ha
  have hεb : 0 ≤ εb := le_trans (abs_nonneg _) hb
  rw [e, abs_div, abs_of_pos (mul_pos hbpos hb0), div_le_iff₀ (mul_pos hbpos hb0)]
  have t1 : |(a - a0) * b0 - a0 * (b - b0)| ≤ |(a - a0) * b0| + |a0 * (b - b0)| := abs_sub _ _
  have t2 : |(a - a0) * b0| ≤ εa * b0 := by
    rw [abs_mul, abs_of_pos hb0]
    exact mul_le_mul_of_nonneg_right ha hb0.le
  have t3 : |a0 * (b - b0)| ≤ b0 * εb := by
    rw [abs_mul]
    exact mul_le_mul hab hb (abs_nonneg _) hb0.le
  have t4 : (εa + εb) * b0 ≤ 256 * (εa + εb) * (b * b0) := by
    have : (εa + εb) * b0 * 1 ≤ (εa + εb) * b0 * (256 * b) :=
      mul_le_mul_of_nonneg_left (by linarith) (by positivity)
    nlinarith
  nlinarith

/-- The product of two approximations of numbers of magnitude at most 1. -/
theorem mul_close (a a0 b b0 εa εb : ℚ) (ha : |a - a0| ≤ εa) (hb : |b - b0| ≤ εb)
    (ha0 : |a0| ≤ 1) (hb0 : |b0| ≤ 1) (hεa : εa ≤ 1) :
    |a * b - a0 * b0| ≤ 2 * εb + εa := by
  have e : a * b - a0 * b0 = a * (b - b0) + (a - a0) * b0 := by ring
  have haa : |a| ≤ 2 := by
    have := abs_add a0 (a - a0)
    rw [add_sub_cancel] at this
    linarith
  have hεb : 0 ≤ εb := le_trans (abs_nonneg _) hb
  rw [e]
  have t1 := abs_add (a * (b - b0)) ((a - a0) * b0)
  have t2 : |a * (b - b0)| ≤ 2 * εb := by
    rw [abs_mul]
    exact mul_le_mul haa hb (abs_nonneg _) (by norm_num)
  have t3 : |(a - a0) * b0| ≤ εa * 1 := by
    rw [abs_mul]
    exact mul_le_mul ha hb0 (abs_nonneg _) (le_trans (abs_nonneg _) ha)
  linarith

/-! ### The channels `x / 255` -/

theorem chan_err (k : Int) (h0 : 0 ≤ k) (h1 : k ≤ 255) :
    |JS.fl ((k : ℚ) / 255) - (k : ℚ) / 255| ≤ 1 / 2 ^ 52 := by
  have e := fl_err ((k : ℚ) / 255)
  have hk0 : (0 : ℚ) ≤ (k : ℚ) := by exact_mod_cast h0
  have hk1 : (k : ℚ) ≤ 255 := by exact_mod_cast h1
  rw [abs_of_nonneg (by positivity : (0 : ℚ) ≤ (k : ℚ) / 255)] at e
  have : (k : ℚ) / 255 ≤ 1 := by
    rw [div_le_one (by norm_num)]
    exact hk1
  norm_num at e ⊢
  linarith

theorem chan_mono : Monotone (fun k : Int => JS.fl ((k : ℚ) / 255)) := by
  intro a b h
  apply fl_mono
  apply div_le_div_of_nonneg_right _ (by norm_num)
  exact_mod_cast h

theorem chan_lt (a b : Int) (ha : 0 ≤ a) (hb : b ≤ 255) (h : a < b) :
    JS.fl ((a : ℚ) / 255) < JS.fl ((b : ℚ) / 255) := by
  have e1 := chan_err a ha (by omega)
  have e2 := chan_err b (by omega) hb
  rw [abs_le] at e1 e2
  have hab : (a : ℚ) + 1 ≤ (b : ℚ) := by exact_mod_cast h
  have : (a : ℚ) / 255 + 1 / 255 ≤ (b : ℚ) / 255 := by
    rw [← add_div]
    exact div_le_div_of_nonneg_right hab (by norm_num)
  norm_num at e1 e2
  linarith

theorem chan_eq_iff (a b : Int) (ha : 0 ≤ a ∧ a ≤ 255) (hb : 0 ≤ b ∧ b ≤ 255) :
    JS.fl ((a : ℚ) / 255) = JS.fl ((b : ℚ) / 255) ↔ a = b := by
  constructor
  · intro h
    by_contra hne
    rcases lt_or_gt_of_ne hne with hlt | hgt
    · exact absurd h (ne_of_lt (chan_lt a b ha.1 hb.2 hlt))
    · exact absurd h.symm (ne_of_lt (chan_lt b a hb.1 ha.2 hgt))
  · intro h
    rw [h]

theorem chan_lt_iff (a b : Int) (ha : 0 ≤ a ∧ a ≤ 255) (hb : 0 ≤ b ∧ b ≤ 255) :
    JS.fl ((a : ℚ) / 255) < JS.fl ((b : ℚ) / 255) ↔ a < b := by
  constructor
  · intro h
    by_contra hge
    push_neg at hge
    exact absurd (chan_mono hge) (not_le.mpr h)
  · exact chan_lt a b ha.1 hb.2

theorem chan_zero_iff (a : Int) (ha : 0 ≤ a ∧ a ≤ 255) :
    JS.fl ((a : ℚ) / 255) = 0 ↔ a = 0 := by
  have h := chan_eq_iff a 0 ha (by omega)
  rw [Int.cast_zero, zero_div, fl_zero] at h
  exact h

theorem chan_max (R G B : Int) :
    max (max (JS.fl ((R : ℚ) / 255)) (JS.fl ((G : ℚ) / 255))) (JS.fl ((B : ℚ) / 255))
      = JS.fl (((max (max R G) B : Int) : ℚ) / 255) := by
  rw [chan_mono.map_max, chan_mono.map_max]

theorem chan_min (R G B : Int) :
    min (min (JS.fl ((R : ℚ) / 255)) (JS.fl ((G : ℚ) / 255))) (JS.fl ((B : ℚ) / 255))
      = JS.fl (((min (min R G) B : Int) : ℚ) / 255) := by
  rw [chan_mono.map_min, chan_mono.map_min]

/-- The float difference of two channels. -/
theorem chan_sub_err (a b : Int) (ha : 0 ≤ a ∧ a ≤ 255) (hb : 0 ≤ b ∧ b ≤ 255) :
    |JS.fl (JS.fl ((a : ℚ) / 255) - JS.fl ((b : ℚ) / 255)) - ((a - b : Int) : ℚ) / 255|
      ≤ 1 / 2 ^ 41 := by
  have e1 := chan_err a ha.1 ha.2
  have e2 := chan_err b hb.1 hb.2
  have hclose : |JS.fl ((a : ℚ) / 255) - JS.fl ((b : ℚ) / 255) - ((a - b : Int) : ℚ) / 255|
      ≤ 1 / 2 ^ 51 := by
    have e : JS.fl ((a : ℚ) / 255) - JS.fl ((b : ℚ) / 255) - ((a - b : Int) : ℚ) / 255
        = (JS.fl ((a : ℚ) / 255) - (a : ℚ) / 255) - (JS.fl ((b : ℚ) / 255) - (b : ℚ) / 255) := by
      push_cast
      ring
    rw [e]
    have := abs_sub (JS.fl ((a : ℚ) / 255) - (a : ℚ) / 255) (JS.fl ((b : ℚ) / 255) - (b : ℚ) / 255)
    norm_num at e1 e2 this ⊢
    linarith
  have hb0 : |((a - b : Int) : ℚ) / 255| ≤ 1000 := by
    have h1 : ((a - b : Int) : ℚ) ≤ 255 := by
      have : a - b ≤ 255 := by omega
      exact_mod_cast this
    have h2 : (-255 : ℚ) ≤ ((a - b : Int) : ℚ) := by
      have : -255 ≤ a - b := by omega
      exact_mod_cast this
    rw [abs_le]
    constructor
    · rw [le_div_iff₀ (by norm_num)]
      linarith
    · rw [div_le_iff₀ (by norm_num)]
      linarith
  have := fl_close _ _ _ hclose hb0 (by norm_num)
  norm_num at this ⊢
  linarith

/-- The value before `Math.round` of the third component of `rgbToHsv`. -/
theorem value_close (M : Int) (hM : 0 ≤ M ∧ M ≤ 255) :
    |JS.fl (JS.fl ((M : ℚ) / 255) * 100) - 100 * (M : ℚ) / 255| ≤ 1 / 2 ^ 40 := by
  have e1 := chan_err M hM.1 hM.2
  have hM0 : (0 : ℚ) ≤ (M : ℚ) := by exact_mod_cast hM.1
  have hM1 : (M : ℚ) ≤ 255 := by exact_mod_cast hM.2
  have hclose : |JS.fl ((M : ℚ) / 255) * 100 - 100 * (M : ℚ) / 255| ≤ 100 / 2 ^ 52 := by
    have e : JS.fl ((M : ℚ) / 255) * 100 - 100 * (M : ℚ) / 255
        = 100 * (JS.fl ((M : ℚ) / 255) - (M : ℚ) / 255) := by ring
    rw [e, abs_mul, abs_of_pos (by norm_num : (0 : ℚ) < 100)]
    linarith
  have hb : |100 * (M : ℚ) / 255| ≤ 1000 := by
    rw [abs_of_nonneg (by positivity)]
    rw [div_le_iff₀ (by norm_num)]
    linarith
  have := fl_close _ _ _ hclose hb (by norm_num)
  norm_num at this ⊢
  linarith

/-- The value before `Math.round` of the second component of `rgbToHsv`. -/
theorem saturation_close (M m : Int) (hM : 0 < M ∧ M ≤ 255) (hm : 0 ≤ m ∧ m ≤ M) :
    |JS.fl (JS.fl (JS.fl (JS.fl ((M : ℚ) / 255) - JS.fl ((m : ℚ) / 255))
        / JS.fl ((M : ℚ) / 255)) * 100) - 100 * ((M - m : Int) : ℚ) / (M : ℚ)| ≤ 1 / 2 ^ 20 := by
  have eM := chan_err M (by omega) hM.2
  have ed := chan_sub_err M m (by omega) (by omega)
  have hMq : (1 : ℚ) ≤ (M : ℚ) := by exact_mod_cast hM.1
  have hMpos : (0 : ℚ) < (M : ℚ) := by linarith
  have hD0 : (0 : ℚ) ≤ ((M - m : Int) : ℚ) := by
    have : 0 ≤ M - m := by omega
    exact_mod_cast this
  have hDM : ((M - m : Int) : ℚ) ≤ (M : ℚ) := by
    have : M - m ≤ M := by omega
    exact_mod_cast this
  have hbb : 1 / 256 ≤ JS.fl ((M : ℚ) / 255) := by
    rw [abs_le] at eM
    have : (1 : ℚ) / 255 ≤ (M : ℚ) / 255 := div_le_div_of_nonneg_right hMq (by norm_num)
    have h52 : (1 : ℚ) / 2 ^ 52 ≤ 1 / 255 - 1 / 256 := by norm_num
    linarith [eM.1]
  have hab : |((M - m : Int) : ℚ) / 255| ≤ (M : ℚ) / 255 := by
    rw [abs_of_nonneg (by positivity)]
    exact div_le_div_of_nonneg_right hDM (by norm_num)
  have hq := div_close _ _ _ _ _ _ ed eM (by positivity) hbb hab
  have hx0 : ((M - m : Int) : ℚ) / 255 / ((M : ℚ) / 255) = ((M - m : Int) : ℚ) / (M : ℚ) := by
    field_simp
  rw [hx0] at hq
  have hr0 : 0 ≤ ((M - m : Int) : ℚ) / (M : ℚ) := by positivity
  have hr1 : ((M - m : Int) : ℚ) / (M : ℚ) ≤ 1 := by
    rw [div_le_one hMpos]
    exact hDM
  have h1 := fl_close _ _ _ hq (by rw [abs_of_nonneg hr0]; linarith) (by norm_num)
  have hclose : |JS.fl (JS.fl (JS.fl ((M : ℚ) / 255) - JS.fl ((m : ℚ) / 255))
        / JS.fl ((M : ℚ) / 255)) * 100 - 100 * ((M - m : Int) : ℚ) / (M : ℚ)|
      ≤ 100 * (256 * (1 / 2 ^ 41 + 1 / 2 ^ 52) + 1 / 2 ^ 42) := by
    have e : ∀ y : ℚ, y * 100 - 100 * ((M - m : Int) : ℚ) / (M : ℚ)
        = 100 * (y - ((M - m : Int) : ℚ) / (M : ℚ)) := by
      intro y
      ring
    rw [e, abs_mul, abs_of_pos (by norm_num : (0 : ℚ) < 100)]
    exact mul_le_mul_of_nonneg_left h1 (by norm_num)
  have hb : |100 * ((M - m : Int) : ℚ) / (M : ℚ)| ≤ 1000 := by
    rw [mul_div_assoc, abs_mul, abs_of_nonneg hr0, abs_of_pos (by norm_num : (0 : ℚ) < 100)]
    linarith
  have := fl_close _ _ _ hclose hb (by norm_num)
  norm_num at this ⊢
  linarith

/-- The value before `Math.round` of the first component of `rgbToHsv`, on one branch of the
`switch`: the channels `a` and `b` and the offset `c`. -/
theorem hue_close (a b M m : Int) (c : ℚ) (ha : 0 ≤ a ∧ a ≤ 255) (hb : 0 ≤ b ∧ b ≤ 255)
    (hM : 0 ≤ M ∧ M ≤ 255) (hm : 0 ≤ m ∧ m ≤ 255) (hD : 0 < M - m)
    (hab : |a - b| ≤ M - m) (hc : 0 ≤ c ∧ c ≤ 6) :
    |JS.fl (JS.fl (JS.fl (JS.fl (JS.fl (JS.fl ((a : ℚ) / 255) - JS.fl ((b : ℚ) / 255))
        / JS.fl (JS.fl ((M : ℚ) / 255) - JS.fl ((m : ℚ) / 255))) + c) / 6) * 360)
      - 60 * (((a - b : Int) : ℚ) + c * ((M - m : Int) : ℚ)) / ((M - m : Int) : ℚ)|
      ≤ 1 / 2 ^ 20 := by
  have en := chan_sub_err a b ha hb
  have ed := chan_sub_err M m hM hm
  have hDq : (1 : ℚ) ≤ ((M - m : Int) : ℚ) := by exact_mod_cast hD
  have hDpos : (0 : ℚ) < ((M - m : Int) : ℚ) := by linarith
  have habq : |((a - b : Int) : ℚ)| ≤ ((M - m : Int) : ℚ) := by exact_mod_cast hab
  have hbb : 1 / 256 ≤ JS.fl (JS.fl ((M : ℚ) / 255) - JS.fl ((m : ℚ) / 255)) := by
    rw [abs_le] at ed
    have : (1 : ℚ) / 255 ≤ ((M - m : Int) : ℚ) / 255 :=
      div_le_div_of_nonneg_right hDq (by norm_num)
    have h41 : (1 : ℚ) / 2 ^ 41 ≤ 1 / 255 - 1 / 256 := by norm_num
    linarith [ed.1]
  have hab2 : |((a - b : Int) : ℚ) / 255| ≤ ((M - m : Int) : ℚ) / 255 := by
    rw [abs_div, abs_of_pos (by norm_num : (0 : ℚ) < 255)]
    exact div_le_div_of_nonneg_right habq (by norm_num)
  have hq := div_close _ _ _ _ _ _ en ed (by positivity) hbb hab2
  have hx0 : ((a - b : Int) : ℚ) / 255 / (((M - m : Int) : ℚ) / 255)
      = ((a - b : Int) : ℚ) / ((M - m : Int) : ℚ) := by
    field_simp
  rw [hx0] at hq
  have hr : |((a - b : Int) : ℚ) / ((M - m : Int) : ℚ)| ≤ 1 := by
    rw [abs_div, abs_of_pos hDpos, div_le_one hDpos]
    exact habq
  have h1 := fl_close _ _ _ hq (by linarith) (by norm_num)
  generalize JS.fl (JS.fl (JS.fl ((a : ℚ) / 255) - JS.fl ((b : ℚ) / 255))
        / JS.fl (JS.fl ((M : ℚ) / 255) - JS.fl ((m : ℚ) / 255))) = y1 at h1 ⊢
  generalize hρ : ((a - b : Int) : ℚ) / ((M - m : Int) : ℚ) = ρ at h1 hr
  have h2c : |y1 + c - (ρ + c)| ≤ 256 * (1 / 2 ^ 41 + 1 / 2 ^ 41) + 1 / 2 ^ 42 := by
    rw [add_sub_add_right_eq_sub]
    exact h1
  have hρc : |ρ + c| ≤ 7 := by
    have := abs_add ρ c
    rw [abs_of_nonneg hc.1] at this
    linarith
  have h2 := fl_close _ _ _ h2c (by linarith) (by norm_num)
  generalize JS.fl (y1 + c) = y2 at h2 ⊢
  have h3c : |y2 / 6 - (ρ + c) / 6| ≤ (256 * (1 / 2 ^ 41 + 1 / 2 ^ 41) + 1 / 2 ^ 42 + 1 / 2 ^ 42) / 6 := by
    rw [← sub_div, abs_div, abs_of_pos (by norm_num : (0 : ℚ) < 6)]
    exact div_le_div_of_nonneg_right h2 (by norm_num)
  have hρ6 : |(ρ + c) / 6| ≤ 1000 := by
    rw [abs_div, abs_of_pos (by norm_num : (0 : ℚ) < 6), div_le_iff₀ (by norm_num)]
    linarith
  have h3 := fl_close _ _ _ h3c hρ6 (by norm_num)
  generalize JS.fl (y2 / 6) = y3 at h3 ⊢
  have etarget : 60 * (((a - b : Int) : ℚ) + c * ((M - m : Int) : ℚ)) / ((M - m : Int) : ℚ)
      = (ρ + c) / 6 * 360 := by
    rw [← hρ]
    have gen : ∀ A D : ℚ, D ≠ 0 → 60 * (A + c * D) / D = (A / D + c) / 6 * 360 := by
      intro A D hD0
      field_simp
      ring
    exact gen _ _ (ne_of_gt hDpos)
  rw [etarget]
  have h4c : |y3 * 360 - (ρ + c) / 6 * 360|
      ≤ 360 * ((256 * (1 / 2 ^ 41 + 1 / 2 ^ 41) + 1 / 2 ^ 42 + 1 / 2 ^ 42) / 6 + 1 / 2 ^ 42) := by
    rw [← sub_mul, abs_mul, abs_of_pos (by norm_num : (0 : ℚ) < 360), mul_comm]
    exact mul_le_mul_of_nonneg_left h3 (by norm_num)
  have hρ360 : |(ρ + c) / 6 * 360| ≤ 1000 := by
    rw [abs_mul, abs_div, abs_of_pos (by norm_num : (0 : ℚ) < 6),
      abs_of_pos (by norm_num : (0 : ℚ) < 360)]
    have : |ρ + c| / 6 * 360 = 60 * |ρ + c| := by ring
    rw [this]
    linarith
  have := fl_close _ _ _ h4c hρ360 (by norm_num)
  norm_num at this ⊢
  linarith

theorem tol_lt (N : Int) (h0 : 0 < N) (h1 : N ≤ 255) :
    (1 : ℚ) / 2 ^ 20 < 1 / (2 * (N : ℚ)) := by
  have hN : (0 : ℚ) < (N : ℚ) := by exact_mod_cast h0
  have hN1 : (N : ℚ) ≤ 255 := by exact_mod_cast h1
  rw [div_lt_div_iff₀ (by positivity) (by positivity)]
  norm_num
  linarith

theorem round_fl_zero : JS.round (JS.fl (0 * 360)) = 0 ∧ JS.round (JS.fl (0 * 100)) = 0 := by
  rw [zero_mul, zero_mul, fl_zero]
  unfold JS.round
  norm_num

/-- The components of `rgbToHsv` are within a half of the exact hue, saturation and value of
the triple. -/
theorem rgbToHsv_near (R G B : Int) (hR : 0 ≤ R ∧ R ≤ 255) (hG : 0 ≤ G ∧ G ≤ 255)
    (hB : 0 ≤ B ∧ B ≤ 255) :
    |(((App.rgbToHsv (R, G, B)).1 : Int) : ℚ)
        - (if max (max R G) B - min (min R G) B = 0 then (0 : ℚ)
          else 60 * (hueNum R G B : ℚ)
            / ((max (max R G) B - min (min R G) B : Int) : ℚ))| ≤ 1 / 2 ∧
    |(((App.rgbToHsv (R, G, B)).2.1 : Int) : ℚ)
        - (if max (max R G) B = 0 then (0 : ℚ)
          else 100 * ((max (max R G) B - min (min R G) B : Int) : ℚ)
            / ((max (max R G) B : Int) : ℚ))| ≤ 1 / 2 ∧
    |(((App.rgbToHsv (R, G, B)).2.2 : Int) : ℚ)
        - 100 * ((max (max R G) B : Int) : ℚ) / 255| ≤ 1 / 2 := by
  have hn := hueNum_cases R G B _ _ rfl rfl
  simp only [App.rgbToHsv, chan_max, chan_min]
  generalize hM : max (max R G) B = M at hn ⊢
  generalize hm : min (min R G) B = m at hn ⊢
  have hMr : 0 ≤ M ∧ M ≤ 255 := by omega
  have hmr : 0 ≤ m ∧ m ≤ 255 := by omega
  have hmM : m ≤ M := by omega
  simp only [chan_zero_iff M hMr, chan_eq_iff M m hMr hmr, chan_eq_iff M R hMr hR,
    chan_eq_iff M G hMr hG, chan_lt_iff G B hG hB]
  refine ⟨?_, ?_, ?_⟩
  · by_cases hD : M - m = 0
    · have hMm : M = m := by omega
      rw [if_pos hD, if_pos hMm, round_fl_zero.1]
      norm_num
    · have hMm : ¬ M = m := by omega
      have hDpos : 0 < M - m := by omega
      rw [if_neg hD, if_neg hMm]
      have hDq : ((M - m : Int) : ℚ) ≠ 0 := by exact_mod_cast hD
      refine round_near_of_close _ _ (M - m) (60 * hueNum R G B) hDpos
        (by rw [div_mul_cancel₀ _ hDq]; push_cast; ring) ?_
      refine lt_of_le_of_lt ?_ (tol_lt (M - m) hDpos (by omega))
      by_cases c1 : M = R
      · by_cases c2 : G < B
        · have hnv : hueNum R G B = G - B + 6 * (M - m) := by rw [hn, if_pos c1, if_pos c2]
          rw [hnv, if_pos c1, if_pos c2]
          have := hue_close G B M m 6 hG hB hMr hmr hDpos (by rw [abs_le]; omega)
            (by norm_num)
          push_cast at this ⊢
          exact this
        · have hnv : hueNum R G B = G - B := by rw [hn, if_pos c1, if_neg c2]
          rw [hnv, if_pos c1, if_neg c2]
          have := hue_close G B M m 0 hG hB hMr hmr hDpos (by rw [abs_le]; omega)
            (by norm_num)
          have e : ((G - B : Int) : ℚ) + 0 * ((M - m : Int) : ℚ) = ((G - B : Int) : ℚ) := by ring
          rw [e] at this
          exact this
      · by_cases c3 : M = G
        · have hnv : hueNum R G B = B - R + 2 * (M - m) := by rw [hn, if_neg c1, if_pos c3]
          rw [hnv, if_neg c1, if_pos c3]
          have := hue_close B R M m 2 hB hR hMr hmr hDpos (by rw [abs_le]; omega)
            (by norm_num)
          push_cast at this ⊢
          exact this
        · have hnv : hueNum R G B = R - G + 4 * (M - m) := by rw [hn, if_neg c1, if_neg c3]
          rw [hnv, if_neg c1, if_neg c3]
          have := hue_close R G M m 4 hR hG hMr hmr hDpos (by rw [abs_le]; omega)
            (by norm_num)
          push_cast at this ⊢
          exact this
  · by_cases hM0 : M = 0
    · rw [if_pos hM0, if_pos hM0, round_fl_zero.2]
      norm_num
    · have hMpos : 0 < M := by omega
      rw [if_neg hM0, if_neg hM0]
      have hMq : (M : ℚ) ≠ 0 := by exact_mod_cast hM0
      refine round_near_of_close _ _ M (100 * (M - m)) hMpos
        (by rw [div_mul_cancel₀ _ hMq]; push_cast; ring) ?_
      exact lt_of_le_of_lt (saturation_close M m ⟨hMpos, hMr.2⟩ ⟨hmr.1, hmM⟩)
        (tol_lt M hMpos hMr.2)
  · refine round_near_of_close _ _ 255 (100 * M) (by norm_num) (by push_cast; field_simp) ?_
    refine lt_of_le_of_lt (value_close M hMr) ?_
    norm_num

/-! ### The channels of `hsvToRgb` -/

theorem fl_one : JS.fl 1 = 1 := by decide!

theorem fl_six : JS.fl 6 = 6 := by decide!

theorem fl_unit (ρ : ℚ) (h0 : 0 ≤ ρ) (h1 : ρ ≤ 1) :
    |JS.fl ρ - ρ| ≤ 1 / 2 ^ 52 ∧ 0 ≤ JS.fl ρ ∧ JS.fl ρ ≤ 1 := by
  refine ⟨?_, fl_nonneg ρ h0, ?_⟩
  · have e := fl_err ρ
    rw [abs_of_nonneg h0] at e
    norm_num at e ⊢
    linarith
  · have := fl_mono ρ 1 h1
    rw [fl_one] at this
    exact this

/-- The channel `q` or `t` of `hsvToRgb` before `Math.round`, for a factor `u` close to
`u0`. -/
theorem chanQ_close (S V : Int) (hS : 0 ≤ S ∧ S ≤ 100) (hV : 0 ≤ V ∧ V ≤ 100) (u u0 : ℚ)
    (hu : |u - u0| ≤ 1 / 2 ^ 40) (hu0 : 0 ≤ u0 ∧ u0 ≤ 1) :
    |JS.fl (JS.fl (JS.fl ((V : ℚ) / 100)
        * JS.fl (1 - JS.fl (u * JS.fl ((S : ℚ) / 100)))) * 255) - chanValue u0 S V|
      ≤ 1 / 2 ^ 29 := by
  have hS0 : (0 : ℚ) ≤ (S : ℚ) / 100 := by
    have : (0 : ℚ) ≤ (S : ℚ) := by exact_mod_cast hS.1
    positivity
  have hS1 : (S : ℚ) / 100 ≤ 1 := by
    have : (S : ℚ) ≤ 100 := by exact_mod_cast hS.2
    rw [div_le_one (by norm_num)]
    exact this
  have hV0 : (0 : ℚ) ≤ (V : ℚ) / 100 := by
    have : (0 : ℚ) ≤ (V : ℚ) := by exact_mod_cast hV.1
    positivity
  have hV1 : (V : ℚ) / 100 ≤ 1 := by
    have : (V : ℚ) ≤ 100 := by exact_mod_cast hV.2
    rw [div_le_one (by norm_num)]
    exact this
  obtain ⟨es, _, _⟩ := fl_unit _ hS0 hS1
  obtain ⟨ev, _, _⟩ := fl_unit _ hV0 hV1
  unfold chanValue
  generalize (S : ℚ) / 100 = σ at *
  generalize (V : ℚ) / 100 = ν at *
  generalize JS.fl σ = s at *
  generalize JS.fl ν = v at *
  have hp0 : 0 ≤ u0 * σ := mul_nonneg hu0.1 hS0
  have hp1 : u0 * σ ≤ 1 := by
    have := mul_le_mul hu0.2 hS1 hS0 (by norm_num : (0 : ℚ) ≤ 1)
    linarith
  have m1 := mul_close u u0 s σ _ _ hu es (by rw [abs_of_nonneg hu0.1]; exact hu0.2)
    (by rw [abs_of_nonneg hS0]; exact hS1) (by norm_num)
  have f1 := fl_close _ _ _ m1 (by rw [abs_of_nonneg hp0]; linarith) (by norm_num)
  generalize JS.fl (u * s) = y1 at f1 ⊢
  have m2 : |1 - y1 - (1 - u0 * σ)| ≤ 2 * (1 / 2 ^ 52) + 1 / 2 ^ 40 + 1 / 2 ^ 42 := by
    rw [sub_sub_sub_cancel_left, abs_sub_comm]
    exact f1
  have hq0 : 0 ≤ 1 - u0 * σ := by linarith
  have f2 := fl_close _ _ _ m2 (by rw [abs_of_nonneg hq0]; linarith) (by norm_num)
  generalize JS.fl (1 - y1) = y2 at f2 ⊢
  have m3 := mul_close v ν y2 (1 - u0 * σ) _ _ ev f2 (by rw [abs_of_nonneg hV0]; exact hV1)
    (by rw [abs_of_nonneg hq0]; linarith) (by norm_num)
  have hr0 : 0 ≤ ν * (1 - u0 * σ) := mul_nonneg hV0 hq0
  have hr1 : ν * (1 - u0 * σ) ≤ 1 := by
    have := mul_le_mul hV1 (by linarith : 1 - u0 * σ ≤ 1) hq0 (by norm_num : (0 : ℚ) ≤ 1)
    linarith
  have f3 := fl_close _ _ _ m3 (by rw [abs_of_nonneg hr0]; linarith) (by norm_num)
  generalize JS.fl (v * y2) = y3 at f3 ⊢
  have m4 : |y3 * 255 - ν * (1 - u0 * σ) * 255|
      ≤ 255 * (2 * (2 * (1 / 2 ^ 52) + 1 / 2 ^ 40 + 1 / 2 ^ 42 + 1 / 2 ^ 42) + 1 / 2 ^ 52
        + 1 / 2 ^ 42) := by
    rw [← sub_mul, abs_mul, abs_of_pos (by norm_num : (0 : ℚ) < 255), mul_comm]
    exact mul_le_mul_of_nonneg_left f3 (by norm_num)
  have f4 := fl_close _ _ _ m4
    (by rw [abs_of_nonneg (by positivity)]; linarith) (by norm_num)
  norm_num at f4 ⊢
  linarith

/-- The channel `p` of `hsvToRgb` before `Math.round`. -/
theorem chanP_close (S V : Int) (hS : 0 ≤ S ∧ S ≤ 100) (hV : 0 ≤ V ∧ V ≤ 100) :
    |JS.fl (JS.fl (JS.fl ((V : ℚ) / 100) * JS.fl (1 - JS.fl ((S : ℚ) / 100))) * 255)
        - chanValue 1 S V| ≤ 1 / 2 ^ 29 := by
  have hS0 : (0 : ℚ) ≤ (S : ℚ) / 100 := by
    have : (0 : ℚ) ≤ (S : ℚ) := by exact_mod_cast hS.1
    positivity
  have hS1 : (S : ℚ) / 100 ≤ 1 := by
    have : (S : ℚ) ≤ 100 := by exact_mod_cast hS.2
    rw [div_le_one (by norm_num)]
    exact this
  have hV0 : (0 : ℚ) ≤ (V : ℚ) / 100 := by
    have : (0 : ℚ) ≤ (V : ℚ) := by exact_mod_cast hV.1
    positivity
  have hV1 : (V : ℚ) / 100 ≤ 1 := by
    have : (V : ℚ) ≤ 100 := by exact_mod_cast hV.2
    rw [div_le_one (by norm_num)]
    exact this
  obtain ⟨es, _, _⟩ := fl_unit _ hS0 hS1
  obtain ⟨ev, _, _⟩ := fl_unit _ hV0 hV1
  unfold chanValue
  rw [one_mul]
  generalize (S : ℚ) / 100 = σ at *
  generalize (V : ℚ) / 100 = ν at *
  generalize JS.fl σ = s at *
  generalize JS.fl ν = v at *
  have m2 : |1 - s - (1 - σ)| ≤ 1 / 2 ^ 52 := by
    rw [sub_sub_sub_cancel_left, abs_sub_comm]
    exact es
  have hq0 : 0 ≤ 1 - σ := by linarith
  have f2 := fl_close _ _ _ m2 (by rw [abs_of_nonneg hq0]; linarith) (by norm_num)
  generalize JS.fl (1 - s) = y2 at f2 ⊢
  have m3 := mul_close v ν y2 (1 - σ) _ _ ev f2 (by rw [abs_of_nonneg hV0]; exact hV1)
    (by rw [abs_of_nonneg hq0]; linarith) (by norm_num)
  have hr0 : 0 ≤ ν * (1 - σ) := mul_nonneg hV0 hq0
  have hr1 : ν * (1 - σ) ≤ 1 := by
    have := mul_le_mul hV1 (by linarith : 1 - σ ≤ 1) hq0 (by norm_num : (0 : ℚ) ≤ 1)
    linarith
  have f3 := fl_close _ _ _ m3 (by rw [abs_of_nonneg hr0]; linarith) (by norm_num)
  generalize JS.fl (v * y2) = y3 at f3 ⊢
  have m4 : |y3 * 255 - ν * (1 - σ) * 255|
      ≤ 255 * (2 * (1 / 2 ^ 52 + 1 / 2 ^ 42) + 1 / 2 ^ 52 + 1 / 2 ^ 42) := by
    rw [← sub_mul, abs_mul, abs_of_pos (by norm_num : (0 : ℚ) < 255), mul_comm]
    exact mul_le_mul_of_nonneg_left f3 (by norm_num)
  have f4 := fl_close _ _ _ m4
    (by rw [abs_of_nonneg (by positivity)]; linarith) (by norm_num)
  norm_num at f4 ⊢
  linarith

/-- The channel `v` of `hsvToRgb` before `Math.round`. -/
theorem chanV_close (S V : Int) (hV : 0 ≤ V ∧ V ≤ 100) :
    |JS.fl (JS.fl ((V : ℚ) / 100) * 255) - chanValue 0 S V| ≤ 1 / 2 ^ 29 := by
  have hV0 : (0 : ℚ) ≤ (V : ℚ) / 100 := by
    have : (0 : ℚ) ≤ (V : ℚ) := by exact_mod_cast hV.1
    positivity
  have hV1 : (V : ℚ) / 100 ≤ 1 := by
    have : (V : ℚ) ≤ 100 := by exact_mod_cast hV.2
    rw [div_le_one (by norm_num)]
    exact this
  obtain ⟨ev, _, _⟩ := fl_unit _ hV0 hV1
  unfold chanValue
  rw [zero_mul, sub_zero, mul_one]
  generalize (V : ℚ) / 100 = ν at *
  generalize JS.fl ν = v at *
  have m4 : |v * 255 - ν * 255| ≤ 255 * (1 / 2 ^ 52) := by
    rw [← sub_mul, abs_mul, abs_of_pos (by norm_num : (0 : ℚ) < 255), mul_comm]
    exact mul_le_mul_of_nonneg_left ev (by norm_num)
  have f4 := fl_close _ _ _ m4
    (by rw [abs_of_nonneg (by positivity)]; linarith) (by norm_num)
  norm_num at f4 ⊢
  linarith

/-- The sixth of the hue circle which `hsvToRgb` selects, and the fraction within it. -/
theorem sector_facts (H : Int) (hH : 0 ≤ H ∧ H ≤ 360) :
    |JS.fl (JS.fl ((H : ℚ) / 360) * 6) - (H : ℚ) / 60| ≤ 1 / 2 ^ 41 ∧
    0 ≤ ⌊JS.fl (JS.fl ((H : ℚ) / 360) * 6)⌋ ∧ ⌊JS.fl (JS.fl ((H : ℚ) / 360) * 6)⌋ ≤ 6 ∧
    (⌊JS.fl (JS.fl ((H : ℚ) / 360) * 6)⌋ = 6 →
      JS.fl (JS.fl ((H : ℚ) / 360) * 6) - ((⌊JS.fl (JS.fl ((H : ℚ) / 360) * 6)⌋ : Int) : ℚ)
        = 0) := by
  have hH0 : (0 : ℚ) ≤ (H : ℚ) / 360 := by
    have : (0 : ℚ) ≤ (H : ℚ) := by exact_mod_cast hH.1
    positivity
  have hH1 : (H : ℚ) / 360 ≤ 1 := by
    have : (H : ℚ) ≤ 360 := by exact_mod_cast hH.2
    rw [div_le_one (by norm_num)]
    exact this
  obtain ⟨eh, h0, h1⟩ := fl_unit _ hH0 hH1
  have hx0 : 0 ≤ JS.fl (JS.fl ((H : ℚ) / 360) * 6) := fl_nonneg _ (by positivity)
  have hx6 : JS.fl (JS.fl ((H : ℚ) / 360) * 6) ≤ 6 := by
    have := fl_mono (JS.fl ((H : ℚ) / 360) * 6) 6 (by linarith)
    rw [fl_six] at this
    exact this
  have hclose : |JS.fl ((H : ℚ) / 360) * 6 - (H : ℚ) / 60| ≤ 6 * (1 / 2 ^ 52) := by
    have e : JS.fl ((H : ℚ) / 360) * 6 - (H : ℚ) / 60
        = 6 * (JS.fl ((H : ℚ) / 360) - (H : ℚ) / 360) := by ring
    rw [e, abs_mul, abs_of_pos (by norm_num : (0 : ℚ) < 6)]
    exact mul_le_mul_of_nonneg_left eh (by norm_num)
  have hb : |(H : ℚ) / 60| ≤ 1000 := by
    have : (H : ℚ) / 60 = 6 * ((H : ℚ) / 360) := by ring
    rw [this, abs_of_nonneg (by positivity)]
    linarith
  have hx := fl_close _ _ _ hclose hb (by norm_num)
  generalize JS.fl (JS.fl ((H : ℚ) / 360) * 6) = x at hx hx0 hx6 ⊢
  have hfl := Int.floor_le x
  refine ⟨?_, Int.floor_nonneg.mpr hx0, ?_, ?_⟩
  · norm_num at hx ⊢
    linarith
  · have : ⌊x⌋ < 7 := by
      rw [Int.floor_lt]
      push_cast
      linarith
    omega
  · intro h6
    rw [h6] at hfl ⊢
    push_cast at hfl ⊢
    linarith

theorem clamp_grid (k : Int) : ∃ j : Int, max 0 (min 1 ((k : ℚ) / 60)) = (j : ℚ) / 60 := by
  rcases le_total ((k : ℚ) / 60) 1 with h1 | h1
  · rw [min_eq_right h1]
    rcases le_total ((k : ℚ) / 60) 0 with h0 | h0
    · rw [max_eq_left h0]
      exact ⟨0, by norm_num⟩
    · rw [max_eq_right h0]
      exact ⟨k, rfl⟩
  · rw [min_eq_left h1, max_eq_right (by norm_num)]
    exact ⟨60, by norm_num⟩

/-- At a whole number of degrees every drop is a whole number of sixtieths. -/
theorem drop_grid (H : Int) :
    (∃ j : Int, dropR ((H : ℚ) / 60) = (j : ℚ) / 60) ∧
    (∃ j : Int, dropG ((H : ℚ) / 60) = (j : ℚ) / 60) ∧
    (∃ j : Int, dropB ((H : ℚ) / 60) = (j : ℚ) / 60) := by
  have e : ∀ c : Int, |(H : ℚ) / 60 - (c : ℚ)| = ((|H - 60 * c| : Int) : ℚ) / 60 := by
    intro c
    rw [show (H : ℚ) / 60 - (c : ℚ) = ((H - 60 * c : Int) : ℚ) / 60 by push_cast; ring,
      abs_div, abs_of_pos (by norm_num : (0 : ℚ) < 60), Int.cast_abs]
  refine ⟨?_, ?_, ?_⟩
  · obtain ⟨j, hj⟩ := clamp_grid (120 - |H - 60 * 3|)
    refine ⟨j, ?_⟩
    rw [← hj, dropR]
    have := e 3
    push_cast at this ⊢
    rw [this]
    ring_nf
  · obtain ⟨j, hj⟩ := clamp_grid (|H - 60 * 2| - 60)
    refine ⟨j, ?_⟩
    rw [← hj, dropG]
    have := e 2
    push_cast at this ⊢
    rw [this]
    ring_nf
  · obtain ⟨j, hj⟩ := clamp_grid (|H - 60 * 4| - 60)
    refine ⟨j, ?_⟩
    rw [← hj, dropB]
    have := e 4
    push_cast at this ⊢
    rw [this]
    ring_nf

/-- The rounding of a channel of `hsvToRgb` is within a half of the exact channel value at the
hue `H`. -/
theorem chan_round_near (drop : ℚ → ℚ) (hlip : ∀ x y, |drop x - drop y| ≤ |x - y|)
    (H S V : Int) (hS : 0 ≤ S ∧ S ≤ 100) (hV : 0 ≤ V ∧ V ≤ 100)
    (hgrid : ∃ j : Int, drop ((H : ℚ) / 60) = (j : ℚ) / 60)
    (x Cf : ℚ) (hx : |x - (H : ℚ) / 60| ≤ 1 / 2 ^ 41)
    (hc : |Cf - chanValue (drop x) S V| ≤ 1 / 2 ^ 29) :
    |((JS.round Cf : Int) : ℚ) - chanValue (drop ((H : ℚ) / 60)) S V| ≤ 1 / 2 := by
  obtain ⟨jd, hjd⟩ := hgrid
  have hSq0 : (0 : ℚ) ≤ (S : ℚ) := by exact_mod_cast hS.1
  have hSq1 : (S : ℚ) ≤ 100 := by exact_mod_cast hS.2
  have hVq0 : (0 : ℚ) ≤ (V : ℚ) := by exact_mod_cast hV.1
  have hVq1 : (V : ℚ) ≤ 100 := by exact_mod_cast hV.2
  have hl := hlip x ((H : ℚ) / 60)
  have hdiff : |chanValue (drop x) S V - chanValue (drop ((H : ℚ) / 60)) S V|
      ≤ 255 * (1 / 2 ^ 41) := by
    have e : chanValue (drop x) S V - chanValue (drop ((H : ℚ) / 60)) S V
        = ((V : ℚ) / 100 * ((S : ℚ) / 100) * 255) * (drop ((H : ℚ) / 60) - drop x) := by
      unfold chanValue
      ring
    have hk0 : 0 ≤ (V : ℚ) / 100 * ((S : ℚ) / 100) * 255 := by positivity
    have hk1 : (V : ℚ) / 100 * ((S : ℚ) / 100) * 255 ≤ 255 := by
      have h1 : (V : ℚ) / 100 ≤ 1 := by rw [div_le_one (by norm_num)]; exact hVq1
      have h2 : (S : ℚ) / 100 ≤ 1 := by rw [div_le_one (by norm_num)]; exact hSq1
      have h3 : (V : ℚ) / 100 * ((S : ℚ) / 100) ≤ 1 * 1 :=
        mul_le_mul h1 h2 (by positivity) (by norm_num)
      linarith
    rw [e, abs_mul, abs_of_nonneg hk0, abs_sub_comm]
    exact mul_le_mul hk1 (le_trans hl hx) (abs_nonneg _) (by norm_num)
  have tri := abs_add (Cf - chanValue (drop x) S V)
    (chanValue (drop x) S V - chanValue (drop ((H : ℚ) / 60)) S V)
  rw [sub_add_sub_cancel] at tri
  refine round_near_of_close _ _ 600000 (255 * V * (6000 - jd * S)) (by norm_num) ?_ ?_
  · rw [hjd]
    unfold chanValue
    push_cast
    ring
  · have : (1 : ℚ) / 2 ^ 29 + 255 * (1 / 2 ^ 41) < 1 / (2 * ((600000 : Int) : ℚ)) := by
      norm_num
    linarith

/-- The channels of `hsvToRgb` at whole degrees and percents are within a half of the exact
channel values. -/
theorem hsvToRgb_near (H S V : Int) (hH : 0 ≤ H ∧ H ≤ 360) (hS : 0 ≤ S ∧ S ≤ 100)
    (hV : 0 ≤ V ∧ V ≤ 100) :
    |(((App.hsvToRgb (H : ℚ) (S : ℚ) (V : ℚ)).1 : Int) : ℚ)
        - chanValue (dropR ((H : ℚ) / 60)) S V| ≤ 1 / 2 ∧
    |(((App.hsvToRgb (H : ℚ) (S : ℚ) (V : ℚ)).2.1 : Int) : ℚ)
        - chanValue (dropG ((H : ℚ) / 60)) S V| ≤ 1 / 2 ∧
    |(((App.hsvToRgb (H : ℚ) (S : ℚ) (V : ℚ)).2.2 : Int) : ℚ)
        - chanValue (dropB ((H : ℚ) / 60)) S V| ≤ 1 / 2 := by
  obtain ⟨hx, hi0, hi6, h6⟩ := sector_facts H hH
  obtain ⟨gR, gG, gB⟩ := drop_grid H
  simp only [App.hsvToRgb]
  generalize JS.fl (JS.fl ((H : ℚ) / 360) * 6) = x at hx hi0 hi6 h6 ⊢
  have hf0 : 0 ≤ x - (⌊x⌋ : ℚ) := by
    have := Int.floor_le x
    linarith
  have hf1 : x - (⌊x⌋ : ℚ) < 1 := by
    have := Int.lt_floor_add_one x
    linarith
  have hsec := drops_sector ⌊x⌋ (x - (⌊x⌋ : ℚ)) hf0 hf1
  rw [add_sub_cancel] at hsec
  obtain ⟨ef, _, _⟩ := fl_unit _ hf0 (le_of_lt hf1)
  have cV := chanV_close S V hV
  have cP := chanP_close S V hS hV
  have cQ := chanQ_close S V hS hV (JS.fl (x - (⌊x⌋ : ℚ))) (x - (⌊x⌋ : ℚ))
    (le_trans ef (by norm_num)) ⟨hf0, le_of_lt hf1⟩
  have cT := chanQ_close S V hS hV (JS.fl (1 - JS.fl (x - (⌊x⌋ : ℚ)))) (1 - (x - (⌊x⌋ : ℚ)))
    (by
      have m : |1 - JS.fl (x - (⌊x⌋ : ℚ)) - (1 - (x - (⌊x⌋ : ℚ)))| ≤ 1 / 2 ^ 52 := by
        rw [sub_sub_sub_cancel_left, abs_sub_comm]
        exact ef
      have := fl_close _ _ _ m (by rw [abs_of_nonneg (by linarith)]; linarith) (by norm_num)
      norm_num at this ⊢
      linarith)
    ⟨by linarith, by linarith⟩
  generalize hfdef : x - (⌊x⌋ : ℚ) = f0 at *
  generalize hidef : ⌊x⌋ = i at *
  have nR := fun Cf hc => chan_round_near dropR dropR_lipschitz H S V hS hV gR x Cf hx hc
  have nG := fun Cf hc => chan_round_near dropG dropG_lipschitz H S V hS hV gG x Cf hx hc
  have nB := fun Cf hc => chan_round_near dropB dropB_lipschitz H S V hS hV gB x Cf hx hc
  interval_cases i
  · obtain ⟨a, b, c⟩ := hsec.1 rfl
    exact ⟨nR _ (by rw [a]; exact cV), nG _ (by rw [b]; exact cT), nB _ (by rw [c]; exact cP)⟩
  · obtain ⟨a, b, c⟩ := hsec.2.1 rfl
    exact ⟨nR _ (by rw [a]; exact cQ), nG _ (by rw [b]; exact cV), nB _ (by rw [c]; exact cP)⟩
  · obtain ⟨a, b, c⟩ := hsec.2.2.1 rfl
    exact ⟨nR _ (by rw [a]; exact cP), nG _ (by rw [b]; exact cV), nB _ (by rw [c]; exact cT)⟩
  · obtain ⟨a, b, c⟩ := hsec.2.2.2.1 rfl
    exact ⟨nR _ (by rw [a]; exact cP), nG _ (by rw [b]; exact cQ), nB _ (by rw [c]; exact cV)⟩
  · obtain ⟨a, b, c⟩ := hsec.2.2.2.2.1 rfl
    exact ⟨nR _ (by rw [a]; exact cT), nG _ (by rw [b]; exact cP), nB _ (by rw [c]; exact cV)⟩
  · obtain ⟨a, b, c⟩ := hsec.2.2.2.2.2.1 rfl
    exact ⟨nR _ (by rw [a]; exact cV), nG _ (by rw [b]; exact cP), nB _ (by rw [c]; exact cQ)⟩
  · have hz := h6 rfl
    obtain ⟨a, b, c⟩ := hsec.2.2.2.2.2.2 rfl hz
    have e1 : (1 : ℚ) - f0 = 1 := by rw [hz, sub_zero]
    rw [e1] at cT
    exact ⟨nR _ (by rw [a]; exact cV), nG _ (by rw [b]; exact cT), nB _ (by rw [c]; exact cP)⟩

/-- A channel after the round trip, from the three roundings of `rgbToHsv` and the rounding
of `hsvToRgb`, each within a half of the exact value. -/
theorem channel_bound (f : ℚ → ℚ) (hlip : ∀ x y, |f x - f y| ≤ |x - y|)
    (hrange : ∀ x, 0 ≤ f x ∧ f x ≤ 1) (M m n X H S V k : Int)
    (hm0 : 0 ≤ m) (hmM : m ≤ M) (hM255 : M ≤ 255) (hX : m ≤ X ∧ X ≤ M)
    (hV : |(V : ℚ) - 100 * (M : ℚ) / 255| ≤ 1 / 2)
    (hS : |(S : ℚ) - (if M = 0 then (0 : ℚ)
      else 100 * ((M - m : Int) : ℚ) / (M : ℚ))| ≤ 1 / 2)
    (hH : |(H : ℚ) - (if M - m = 0 then (0 : ℚ)
      else 60 * (n : ℚ) / ((M - m : Int) : ℚ))| ≤ 1 / 2)
    (hdrop : 0 < M - m →
      ((M - m : Int) : ℚ) * f ((n : ℚ) / ((M - m : Int) : ℚ)) = ((M - X : Int) : ℚ))
    (hk : |(k : ℚ) - chanValue (f ((H : ℚ) / 60)) S V| ≤ 1 / 2) :
    |k - X| ≤ 3 := by
  have hMq : (M : ℚ) ≤ 255 := by exact_mod_cast hM255
  have hmq : (0 : ℚ) ≤ (m : ℚ) := by exact_mod_cast hm0
  have hmMq : (m : ℚ) ≤ (M : ℚ) := by exact_mod_cast hmM
  have hα : |51 / 20 * (V : ℚ) - M| ≤ 51 / 40 := by
    rw [abs_le] at hV ⊢
    constructor <;> linarith
  have hσ : |(M : ℚ) * (S : ℚ) / 100 - ((M : ℚ) - m)| ≤ (M : ℚ) / 200 ∧ (0 : ℚ) ≤ S ∧
      (S : ℚ) ≤ 100 := by
    by_cases hM0 : M = 0
    · have hm00 : m = 0 := by omega
      rw [if_pos hM0, sub_zero, abs_le] at hS
      have h1 : (-1 : ℚ) < (S : ℚ) := by linarith
      have h2 : (S : ℚ) < 1 := by linarith
      have h1i : -1 < S := by exact_mod_cast h1
      have h2i : S < 1 := by exact_mod_cast h2
      have hS0 : S = 0 := by omega
      subst hM0 hm00 hS0
      norm_num
    · have hMpos : (0 : ℚ) < M := by
        have : 0 < M := by omega
        exact_mod_cast this
      rw [if_neg hM0] at hS
      have harg0 : (0 : ℚ) ≤ 100 * ((M - m : Int) : ℚ) / (M : ℚ) := by
        apply div_nonneg _ hMpos.le
        push_cast; linarith
      have harg1 : 100 * ((M - m : Int) : ℚ) / (M : ℚ) ≤ 100 := by
        rw [div_le_iff₀ hMpos]
        push_cast; linarith
      have hSb := abs_le.mp hS
      have h1 : (-1 : ℚ) < (S : ℚ) := by linarith [hSb.1]
      have h2 : (S : ℚ) < 101 := by linarith [hSb.2]
      have h1i : -1 < S := by exact_mod_cast h1
      have h2i : S < 101 := by exact_mod_cast h2
      have hS0 : 0 ≤ S := by omega
      have hS1 : S ≤ 100 := by omega
      refine ⟨?_, by exact_mod_cast hS0, by exact_mod_cast hS1⟩
      have e : (M : ℚ) * (S : ℚ) / 100 - ((M : ℚ) - m)
          = (M : ℚ) / 100 * ((S : ℚ) - 100 * ((M - m : Int) : ℚ) / (M : ℚ)) := by
        push_cast; field_simp; ring
      rw [e, abs_mul, abs_of_pos (by positivity : (0 : ℚ) < (M : ℚ) / 100)]
      calc (M : ℚ) / 100 * |(S : ℚ) - 100 * ((M - m : Int) : ℚ) / (M : ℚ)|
          ≤ (M : ℚ) / 100 * (1 / 2) := mul_le_mul_of_nonneg_left hS (by positivity)
        _ = (M : ℚ) / 200 := by ring
  have hγ : |((M : ℚ) - m) * f ((H : ℚ) / 60) - ((M : ℚ) - X)| ≤ ((M : ℚ) - m) / 120 := by
    by_cases hD : M - m = 0
    · have hXM : X = M := by omega
      have hmM2 : (m : ℚ) = M := by
        have : m = M := by omega
        exact_mod_cast this
      subst hXM
      rw [hmM2]
      norm_num
    · have hDpos : 0 < M - m := by omega
      have hDq : (0 : ℚ) < ((M - m : Int) : ℚ) := by exact_mod_cast hDpos
      rw [if_neg hD] at hH
      have hd := hdrop hDpos
      have e1 : ((M : ℚ) - m) = ((M - m : Int) : ℚ) := by push_cast; ring
      have e2 : ((M : ℚ) - X) = ((M - X : Int) : ℚ) := by push_cast; ring
      rw [e2, ← hd, e1, ← mul_sub, abs_mul, abs_of_pos hDq]
      have hl := hlip ((H : ℚ) / 60) ((n : ℚ) / ((M - m : Int) : ℚ))
      have e3 : (H : ℚ) / 60 - (n : ℚ) / ((M - m : Int) : ℚ)
          = ((H : ℚ) - 60 * (n : ℚ) / ((M - m : Int) : ℚ)) / 60 := by ring
      rw [e3, abs_div, abs_of_pos (by norm_num : (0 : ℚ) < 60)] at hl
      calc ((M - m : Int) : ℚ) * |f ((H : ℚ) / 60) - f ((n : ℚ) / ((M - m : Int) : ℚ))|
          ≤ ((M - m : Int) : ℚ) * (1 / 2 / 60) := by
            apply mul_le_mul_of_nonneg_left _ hDq.le
            refine le_trans hl ?_
            apply div_le_div_of_nonneg_right hH (by norm_num)
        _ = ((M - m : Int) : ℚ) / 120 := by ring
  have hr := hrange ((H : ℚ) / 60)
  have hcore := core_bound (V : ℚ) (S : ℚ) (M : ℚ) ((M : ℚ) - m) ((M : ℚ) - X) (f ((H : ℚ) / 60))
    hα hσ.1 hγ hr.1 hr.2 hσ.2.1 hσ.2.2 (by linarith) hMq
  have e4 : (M : ℚ) - ((M : ℚ) - X) = (X : ℚ) := by ring
  rw [e4] at hcore
  have hcv : chanValue (f ((H : ℚ) / 60)) S V
      = (V : ℚ) / 100 * (1 - f ((H : ℚ) / 60) * ((S : ℚ) / 100)) * 255 := rfl
  rw [hcv] at hk
  rw [abs_lt] at hcore
  rw [abs_le] at hk
  have h1 : (k : ℚ) < (X : ℚ) + 4 := by linarith
  have h2 : (X : ℚ) - 4 < (k : ℚ) := by linarith
  have h1i : k < X + 4 := by exact_mod_cast h1
  have h2i : X - 4 < k := by exact_mod_cast h2
  rw [abs_le]
  constructor <;> omega

theorem hue_near_range (M m n H : Int) (hD : 0 ≤ M - m)
    (hn : 0 < M - m → 0 ≤ n ∧ n ≤ 6 * (M - m))
    (hH : |(H : ℚ) - (if M - m = 0 then (0 : ℚ)
      else 60 * (n : ℚ) / ((M - m : Int) : ℚ))| ≤ 1 / 2) :
    0 ≤ H ∧ H ≤ 360 := by
  have key : (0 : ℚ) ≤ (if M - m = 0 then (0 : ℚ) else 60 * (n : ℚ) / ((M - m : Int) : ℚ)) ∧
      (if M - m = 0 then (0 : ℚ) else 60 * (n : ℚ) / ((M - m : Int) : ℚ)) ≤ 360 := by
    by_cases h0 : M - m = 0
    · rw [if_pos h0]
      norm_num
    · rw [if_neg h0]
      have hpos : 0 < M - m := by omega
      have hq : (0 : ℚ) < ((M - m : Int) : ℚ) := by exact_mod_cast hpos
      obtain ⟨n0, n1⟩ := hn hpos
      have n0q : (0 : ℚ) ≤ (n : ℚ) := by exact_mod_cast n0
      have n1q : (n : ℚ) ≤ 6 * ((M - m : Int) : ℚ) := by exact_mod_cast n1
      constructor
      · apply div_nonneg _ hq.le
        linarith
      · rw [div_le_iff₀ hq]
        linarith
  rw [abs_le] at hH
  have h1 : (-1 : ℚ) < (H : ℚ) := by linarith [hH.1, key.1]
  have h2 : (H : ℚ) < 361 := by linarith [hH.2, key.2]
  have h1i : -1 < H := by exact_mod_cast h1
  have h2i : H < 361 := by exact_mod_cast h2
  constructor <;> omega

theorem percent_near_range (S : Int) (z : ℚ) (hz : 0 ≤ z ∧ z ≤ 100)
    (h : |(S : ℚ) - z| ≤ 1 / 2) : 0 ≤ S ∧ S ≤ 100 := by
  rw [abs_le] at h
  have h1 : (-1 : ℚ) < (S : ℚ) := by linarith [h.1, hz.1]
  have h2 : (S : ℚ) < 101 := by linarith [h.2, hz.2]
  have h1i : -1 < S := by exact_mod_cast h1
  have h2i : S < 101 := by exact_mod_cast h2
  constructor <;> omega

/-- C8 as stated fails: the triple (255, 2, 0) goes to HSV (0, 100, 100) and comes back as
(255, 0, 0), two away in the green channel. -/
theorem C8_counterexample :
    App.rgbToHsv (255, 2, 0) = (0, 100, 100) ∧ App.viaHsv (255, 2, 0) = (255, 0, 0) ∧
    ¬ (|(App.viaHsv (255, 2, 0)).2.1 - 2| ≤ 1) := by
  decide!

/-- The bound three of the HSV round trip is reached: (0, 108, 254) comes back as
(0, 111, 255). -/
theorem viaHsv_three_reached : App.viaHsv (0, 108, 254) = (0, 111, 255) := by
  decide!

/-- C8 (amended): for every RGB triple of integers in [0,255], converting to HSV rounded to
integer degrees and percent and back, in binary64 arithmetic, changes each channel by at
most 3. -/
theorem C8_via_hsv_within_three (R G B : Int)
    (hR : 0 ≤ R ∧ R ≤ 255) (hG : 0 ≤ G ∧ G ≤ 255) (hB : 0 ≤ B ∧ B ≤ 255) :
    |(App.viaHsv (R, G, B)).1 - R| ≤ 3 ∧ |(App.viaHsv (R, G, B)).2.1 - G| ≤ 3 ∧
    |(App.viaHsv (R, G, B)).2.2 - B| ≤ 3 := by
  obtain ⟨nH, nS, nV⟩ := rgbToHsv_near R G B hR hG hB
  generalize hM : max (max R G) B = M at nH nS nV
  generalize hm : min (min R G) B = m at nH nS
  have hm0 : 0 ≤ m := by omega
  have hmM : m ≤ M := by omega
  have hM255 : M ≤ 255 := by omega
  have hdr : 0 < M - m →
      (((M - m : Int) : ℚ) * dropR ((hueNum R G B : ℚ) / ((M - m : Int) : ℚ))
        = ((M - R : Int) : ℚ)) ∧
      (((M - m : Int) : ℚ) * dropG ((hueNum R G B : ℚ) / ((M - m : Int) : ℚ))
        = ((M - G : Int) : ℚ)) ∧
      (((M - m : Int) : ℚ) * dropB ((hueNum R G B : ℚ) / ((M - m : Int) : ℚ))
        = ((M - B : Int) : ℚ)) :=
    fun h => drops_of_triple R G B M m _ hM.symm hm.symm rfl h
  have hnr : 0 < M - m → 0 ≤ hueNum R G B ∧ hueNum R G B ≤ 6 * (M - m) :=
    fun h => (hueNum_drops R G B M m _ hM.symm hm.symm rfl h).2.2.2
  have hHr := hue_near_range M m (hueNum R G B) _ (by omega) hnr nH
  have hSr : 0 ≤ (App.rgbToHsv (R, G, B)).2.1 ∧ (App.rgbToHsv (R, G, B)).2.1 ≤ 100 := by
    refine percent_near_range _ _ ?_ nS
    by_cases hM0 : M = 0
    · rw [if_pos hM0]
      norm_num
    · rw [if_neg hM0]
      have hMpos : (0 : ℚ) < (M : ℚ) := by
        have : 0 < M := by omega
        exact_mod_cast this
      have hD0 : (0 : ℚ) ≤ ((M - m : Int) : ℚ) := by
        have : 0 ≤ M - m := by omega
        exact_mod_cast this
      have hD1 : ((M - m : Int) : ℚ) ≤ (M : ℚ) := by
        have : M - m ≤ M := by omega
        exact_mod_cast this
      constructor
      · positivity
      · rw [div_le_iff₀ hMpos]
        linarith
  have hVr : 0 ≤ (App.rgbToHsv (R, G, B)).2.2 ∧ (App.rgbToHsv (R, G, B)).2.2 ≤ 100 := by
    refine percent_near_range _ _ ?_ nV
    have h0 : (0 : ℚ) ≤ (M : ℚ) := by
      have : 0 ≤ M := by omega
      exact_mod_cast this
    have h1 : (M : ℚ) ≤ 255 := by exact_mod_cast hM255
    constructor
    · positivity
    · rw [div_le_iff₀ (by norm_num)]
      linarith
  obtain ⟨kR, kG, kB⟩ := hsvToRgb_near _ _ _ hHr hSr hVr
  unfold App.viaHsv
  refine ⟨?_, ?_, ?_⟩
  · exact channel_bound dropR dropR_lipschitz dropR_range M m (hueNum R G B) R _ _ _ _
      hm0 hmM hM255 (by omega) nV nS nH (fun h => (hdr h).1) kR
  · exact channel_bound dropG dropG_lipschitz dropG_range M m (hueNum R G B) G _ _ _ _
      hm0 hmM hM255 (by omega) nV nS nH (fun h => (hdr h).2.1) kG
  · exact channel_bound dropB dropB_lipschitz dropB_range M m (hueNum R G B) B _ _ _ _
      hm0 hmM hM255 (by omega) nV nS nH (fun h => (hdr h).2.2) kB

/-- C8 (amended) at the triple (0, 108, 254), where the green channel moves by exactly 3. -/
theorem C8_via_hsv_within_three_witness :
    |(App.viaHsv (0, 108, 254)).1 - 0| ≤ 3 ∧ |(App.viaHsv (0, 108, 254)).2.1 - 108| ≤ 3 ∧
    |(App.viaHsv (0, 108, 254)).2.2 - 254| ≤ 3 :=
  C8_via_hsv_within_three 0 108 254 (by decide) (by decide) (by decide)

/-! ## Objects -/

theorem lookup_map_values (a : Obj) (g : Str → PVal → PVal) (k : Str) :
    (a.map (fun kv => (kv.1, g kv.1 kv.2))).lookup k = (a.lookup k).map (g k) := by
  induction a with
  | nil => rfl
  | cons kv a ih =>
    obtain ⟨k0, v0⟩ := kv
    by_cases h : k = k0
    · subst h
      simp [List.lookup]
    · have hb : (k == k0) = false := by simpa using h
      simp [List.lookup, hb, ih]

theorem lookup_filter_keys (b : Obj) (q : Str → Bool) (k : Str) :
    (b.filter (fun kv => q kv.1)).lookup k = if q k then b.lookup k else none := by
  induction b with
  | nil => simp
  | cons kv b ih =>
    obtain ⟨k0, v0⟩ := kv
    rw [List.filter_cons]
    by_cases h : k = k0
    · subst h
      by_cases hq : q k = true
      · simp only [hq, if_true, List.lookup, beq_self_eq_true]
      · have hq' : q k = false := by simpa using hq
        simp only [hq', Bool.false_eq_true, if_false, ih]
    · have hb : (k == k0) = false := by simpa using h
      by_cases hq : q k0 = true
      · simp only [hq, if_true, List.lookup, hb, ih]
      · have hq' : q k0 = false := by simpa using hq
        simp only [hq', Bool.false_eq_true, if_false, ih, List.lookup, hb]

theorem lookup_append_obj (a b : Obj) (k : Str) :
    (a ++ b).lookup k = match a.lookup k with
      | some v => some v
      | none => b.lookup k := by
  induction a with
  | nil => rfl
  | cons kv a ih =>
    obtain ⟨k0, v0⟩ := kv
    by_cases h : k = k0
    · subst h
      simp [List.lookup]
    · have hb : (k == k0) = false := by simpa using h
      simp [List.lookup, hb, ih]

/-- A key of the spread `{ ...a, ...b }` has the value `b` gives it, else the value `a`
gives it. -/
theorem lookup_spread (a b : Obj) (k : Str) :
    (JS.spread a b).lookup k = match b.lookup k with
      | some v => some v
      | none => a.lookup k := by
  unfold JS.spread
  rw [lookup_append_obj]
  have h1 := lookup_map_values a (fun key v => (b.lookup key).getD v) k
  simp only at h1
  rw [h1, lookup_filter_keys b (fun key => (a.lookup key).isNone) k]
  cases ha : a.lookup k <;> cases hb : b.lookup k <;> simp

theorem mem_keys_iff (o : Obj) (k : Str) : k ∈ JS.keys o ↔ (o.lookup k).isSome = true := by
  unfold JS.keys
  induction o with
  | nil => simp
  | cons kv o ih =>
    obtain ⟨k0, v0⟩ := kv
    rw [List.map_cons, List.mem_cons]
    by_cases h : k = k0
    · subst h
      simp only [true_or, List.lookup, beq_self_eq_true, Option.isSome_some]
    · have hb : (k == k0) = false := by simpa using h
      simp only [h, false_or, List.lookup, hb, ih]

theorem mem_keys_spread (a b : Obj) (k : Str) :
    k ∈ JS.keys (JS.spread a b) ↔ k ∈ JS.keys a ∨ k ∈ JS.keys b := by
  rw [mem_keys_iff, mem_keys_iff, mem_keys_iff, lookup_spread]
  cases ha : a.lookup k <;> cases hb : b.lookup k <;> simp

/-! ## Palette resolution and family selection -/

theorem simulate_wipe (M : JS.JSMath) (e : Effect) (n : Nat) (t : ℚ)
    (h1 : App.isFlow (JS.toLowerCase e.name) = false)
    (h2 : App.isBreath (JS.toLowerCase e.name) = false)
    (h3 : App.isStrobe (JS.toLowerCase e.name) = false)
    (h4 : App.isWipe (JS.toLowerCase e.name) = true) :
    App.simulateEffectPixels M e n t =
      some ((List.range n).map (fun i =>
        App.pixelHex (App.wipePixel M (App.workingPalette e) (App.effectSpeed e) n t i))) := by
  unfold App.simulateEffectPixels
  simp only [h1, h2, h3, h4, if_true, Bool.false_eq_true, if_false]
  rw [forPixels_total n _ _ (List.length_replicate _ _)]

theorem simulate_comet (M : JS.JSMath) (e : Effect) (n : Nat) (t : ℚ)
    (h1 : App.isFlow (JS.toLowerCase e.name) = false)
    (h2 : App.isBreath (JS.toLowerCase e.name) = false)
    (h3 : App.isStrobe (JS.toLowerCase e.name) = false)
    (h4 : App.isWipe (JS.toLowerCase e.name) = false)
    (h5 : App.isComet (JS.toLowerCase e.name) = true) :
    App.simulateEffectPixels M e n t =
      some ((List.range n).map (fun i =>
        App.pixelHex (App.cometPixel M (App.workingPalette e) (App.effectSpeed e) n t i))) := by
  unfold App.simulateEffectPixels
  simp only [h1, h2, h3, h4, h5, if_true, Bool.false_eq_true, if_false]
  rw [forPixels_total n _ _ (List.length_replicate _ _)]

/-- The order of `effectPalette` for every palette name that is not a member of
`Object.prototype`: a `color` wins, then a non-empty `colors`, then the table entry of
`palette`, then neon. -/
theorem effectPalette_priority (e : Effect) :
    (∀ c, (e.default_params.getD App.noParams).color = some c →
      App.effectPalette e = .colours [App.rgbToHex (some c.1, some c.2.1, some c.2.2)]) ∧
    (∀ c cs, (e.default_params.getD App.noParams).color = none →
      (e.default_params.getD App.noParams).colors = some (c :: cs) →
      App.effectPalette e = .colours ((c :: cs).map App.entryHex)) ∧
    (∀ p entry, (e.default_params.getD App.noParams).color = none →
      ((e.default_params.getD App.noParams).colors = none ∨
        (e.default_params.getD App.noParams).colors = some []) →
      (e.default_params.getD App.noParams).palette = some p →
      App.paletteMap.lookup p = some entry → App.effectPalette e = .colours entry) ∧
    (∀ p, (e.default_params.getD App.noParams).color = none →
      ((e.default_params.getD App.noParams).colors = none ∨
        (e.default_params.getD App.noParams).colors = some []) →
      (e.default_params.getD App.noParams).palette = some p →
      App.paletteMap.lookup p = none → JS.objectProtoMember p = none →
      App.effectPalette e = .colours App.neon) ∧
    ((e.default_params.getD App.noParams).color = none →
      ((e.default_params.getD App.noParams).colors = none ∨
        (e.default_params.getD App.noParams).colors = some []) →
      (e.default_params.getD App.noParams).palette = none →
      App.effectPalette e = .colours App.neon) := by
  have hneon : App.paletteColors "neon".toList = .colours App.neon := by decide
  have hempty : App.paletteMap.lookup [] = none := by decide
  have hproto : JS.objectProtoMember [] = none := by decide
  refine ⟨?_, ?_, ?_, ?_, ?_⟩
  · intro c hc
    unfold App.effectPalette
    simp only [hc]
  · intro c cs hc hcs
    unfold App.effectPalette
    simp only [hc, hcs]
  · intro p entry hc hcs hp hl
    unfold App.effectPalette
    rcases hcs with hcs | hcs <;> cases p with
      | nil => rw [hempty] at hl; exact absurd hl (by simp)
      | cons a p => simp only [hc, hcs, hp, App.paletteColors, hl]
  · intro p hc hcs hp hl hn
    unfold App.effectPalette
    rcases hcs with hcs | hcs <;> cases p with
      | nil => simp only [hc, hcs, hp, hneon]
      | cons a p => simp only [hc, hcs, hp, App.paletteColors, hl, hn]
  · intro hc hcs hp
    unfold App.effectPalette
    rcases hcs with hcs | hcs <;> simp only [hc, hcs, hp, hneon]

/-- C11: at `default_params = {palette: "constructor"}` the name is no key of the built-in
table, yet `effectPalette` does not return the neon palette: it returns the `Object` function
that the table inherits under that name, a value of `length` 1 without a single colour. -/
theorem C11_unknown_palette_is_not_neon :
    App.paletteMap.lookup "constructor".toList = none ∧
    App.effectPalette inheritedPaletteEffect = PaletteVal.inherited (some 1) ∧
    App.effectPalette inheritedPaletteEffect ≠ PaletteVal.colours App.neon ∧
    App.effectPalette ⟨"rainbow".toList, some ⟨none, none, some "unknown".toList, none⟩⟩
      = PaletteVal.colours ["#32ffe0".toList, "#7c3aed".toList, "#ff61d6".toList] := by
  decide

theorem paletteColors_colours (p : Str) (h : JS.objectProtoMember p = none) :
    ∃ l, App.paletteColors p = .colours l := by
  unfold App.paletteColors
  cases App.paletteMap.lookup p with
  | none => simp only [h]; exact ⟨_, rfl⟩
  | some entry => exact ⟨_, rfl⟩

theorem effectPalette_colours (e : Effect)
    (h : ∀ p, (e.default_params.getD App.noParams).palette = some p →
      JS.objectProtoMember p = none) :
    ∃ l, App.effectPalette e = .colours l := by
  unfold App.effectPalette
  simp only
  cases hc : (e.default_params.getD App.noParams).color with
  | some c => exact ⟨_, rfl⟩
  | none =>
    have hneon : ∃ l, App.paletteColors "neon".toList = .colours l :=
      ⟨App.neon, by decide⟩
    have hpal : ∃ l, (match (e.default_params.getD App.noParams).palette with
        | some (c :: cs) => App.paletteColors (c :: cs)
        | _ => App.paletteColors "neon".toList) = .colours l := by
      cases hp : (e.default_params.getD App.noParams).palette with
      | none => exact hneon
      | some p =>
        cases p with
        | nil => exact hneon
        | cons a p => exact paletteColors_colours _ (h _ hp)
    cases hcs : (e.default_params.getD App.noParams).colors with
    | none => exact hpal
    | some cs =>
      cases cs with
      | nil => exact hpal
      | cons c cs => exact ⟨_, rfl⟩

/-- The working palette is an array with at least one element whenever the palette name, if
one is read, is not a member of `Object.prototype`. -/
theorem workingPalette_colours (e : Effect)
    (h : ∀ p, (e.default_params.getD App.noParams).palette = some p →
      JS.objectProtoMember p = none) :
    ∃ c cs, App.workingPalette e = .colours (c :: cs) := by
  obtain ⟨l, hl⟩ := effectPalette_colours e h
  unfold App.workingPalette
  rw [hl]
  cases l with
  | nil => exact ⟨"#32ffe0".toList, ["#7c3aed".toList, "#ff61d6".toList], by decide⟩
  | cons c cs => exact ⟨c, cs, rfl⟩

/-- The value `palette.length` of the working palette is at least 1 for every effect. -/
theorem workingPalette_length_pos (e : Effect) : 1 ≤ App.paletteLen (App.workingPalette e) := by
  have hneon : App.paletteLen (App.paletteColors "neon".toList) = 3 := by decide
  unfold App.workingPalette
  cases hl : (App.effectPalette e).length? with
  | none => simp only [hneon]; omega
  | some n =>
    cases n with
    | zero => simp only [hneon]; omega
    | succ n =>
      simp only [App.paletteLen, hl, Option.getD_some]
      omega

/-- C12: for the effect `{name: "rainbow", default_params: {palette: "constructor"}}` the
palette `simulateEffectPixels` works with is the inherited `Object` function: its `length` is
1, and it has no colour at any index. -/
theorem C12_working_palette_without_colour :
    App.workingPalette inheritedPaletteEffect = PaletteVal.inherited (some 1) ∧
    App.paletteLen (App.workingPalette inheritedPaletteEffect) = 1 ∧
    ∀ k : Int, (App.workingPalette inheritedPaletteEffect).get k = none := by
  refine ⟨by decide, by decide, ?_⟩
  intro k
  have h : App.workingPalette inheritedPaletteEffect = PaletteVal.inherited (some 1) := by decide
  rw [h]
  rfl

/-- C13 as stated fails: the name "comet_wipe" contains "comet", yet the wipe family renders
it; at one pixel and `t = 0` the wipe colour is "#3fffff", where the comet algorithm gives
"#32ffe0". -/
theorem C13_counterexample :
    ¬ ∀ (M : JS.JSMath) (e : Effect) (n : Nat) (t : ℚ),
      JS.includes (JS.toLowerCase e.name) "comet".toList = true →
      App.simulateEffectPixels M e n t =
        some ((List.range n).map (fun i =>
          App.pixelHex (App.cometPixel M (App.workingPalette e) (App.effectSpeed e) n t i))) := by
  intro h
  have h2 := h unitMath cometWipeEffect 1 0 (by decide)
  rw [simulate_wipe _ _ _ _ (by decide) (by decide) (by decide) (by decide)] at h2
  revert h2
  decide!

/-- C13 (amended): an effect whose lower-cased name contains "comet" and matches none of the
flow, breathing and strobe families is rendered by the comet algorithm when it does not match
the wipe family either, and by the wipe algorithm when it matches the wipe family, whose test
runs before the comet test. -/
theorem C13_comet_after_earlier_families (M : JS.JSMath) (e : Effect) (n : Nat) (t : ℚ)
    (hs : JS.includes (JS.toLowerCase e.name) "comet".toList = true)
    (h1 : App.isFlow (JS.toLowerCase e.name) = false)
    (h2 : App.isBreath (JS.toLowerCase e.name) = false)
    (h3 : App.isStrobe (JS.toLowerCase e.name) = false) :
    (App.isWipe (JS.toLowerCase e.name) = false →
      App.simulateEffectPixels M e n t =
        some ((List.range n).map (fun i =>
          App.pixelHex (App.cometPixel M (App.workingPalette e) (App.effectSpeed e) n t i)))) ∧
    (App.isWipe (JS.toLowerCase e.name) = true →
      App.simulateEffectPixels M e n t =
        some ((List.range n).map (fun i =>
          App.pixelHex (App.wipePixel M (App.workingPalette e) (App.effectSpeed e) n t i)))) :=
  ⟨fun h4 => simulate_comet M e n t h1 h2 h3 h4 hs, fun h4 => simulate_wipe M e n t h1 h2 h3 h4⟩

/-- C13 (amended) at the effects "comet" and "comet_wipe" with the default palette, two pixels
and `t = 0`: the first is rendered by the comet algorithm, the second by the wipe algorithm. -/
theorem C13_comet_after_earlier_families_witness :
    App.simulateEffectPixels unitMath ⟨"comet".toList, none⟩ 2 0 =
      some ((List.range 2).map (fun i =>
        App.pixelHex (App.cometPixel unitMath (App.workingPalette ⟨"comet".toList, none⟩)
          (App.effectSpeed ⟨"comet".toList, none⟩) 2 0 i))) ∧
    App.simulateEffectPixels unitMath cometWipeEffect 2 0 =
      some ((List.range 2).map (fun i =>
        App.pixelHex (App.wipePixel unitMath (App.workingPalette cometWipeEffect)
          (App.effectSpeed cometWipeEffect) 2 0 i))) :=
  ⟨(C13_comet_after_earlier_families unitMath ⟨"comet".toList, none⟩ 2 0
      (by decide) (by decide) (by decide) (by decide)).1 (by decide),
   (C13_comet_after_earlier_families unitMath cometWipeEffect 2 0
      (by decide) (by decide) (by decide) (by decide)).2 (by decide)⟩

/-- C14 as stated fails: a configured speed 0 gives the speed 1, not `max(0.2, 0) = 0.2`. -/
theorem C14_counterexample :
    ¬ ∀ (e : Effect) (s : ℚ), e.default_params.bind (fun p => p.speed) = some s → 0 ≤ s →
      App.effectSpeed e = max (1 / 5) s := by
  intro h
  have h2 := h zeroSpeedEffect 0 rfl (le_refl 0)
  revert h2
  decide!

/-- C14 (amended): the speed is `max(0.2, s)` for a configured speed `s` other than 0, it is 1
when the configured speed is 0 or missing, and it is never below 0.2. -/
theorem C14_effect_speed (e : Effect) :
    (∀ s : ℚ, e.default_params.bind (fun p => p.speed) = some s → s ≠ 0 →
      App.effectSpeed e = max (1 / 5) s) ∧
    (e.default_params.bind (fun p => p.speed) = some 0 → App.effectSpeed e = 1) ∧
    (e.default_params.bind (fun p => p.speed) = none → App.effectSpeed e = 1) ∧
    1 / 5 ≤ App.effectSpeed e := by
  refine ⟨?_, ?_, ?_, ?_⟩
  · intro s hs h0
    unfold App.effectSpeed
    simp only [hs, h0, if_false]
  · intro hs
    unfold App.effectSpeed
    simp only [hs, if_true]
    norm_num
  · intro hs
    unfold App.effectSpeed
    simp only [hs]
    norm_num
  · unfold App.effectSpeed
    exact le_max_left _ _

/-- C14 (amended) at the configured speeds 1/10 and 3, at the configured speed 0 and without
`default_params`. -/
theorem C14_effect_speed_witness :
    App.effectSpeed ⟨"x".toList, some ⟨none, none, none, some (1 / 10)⟩⟩ = max (1 / 5) (1 / 10) ∧
    App.effectSpeed ⟨"x".toList, some ⟨none, none, none, some 3⟩⟩ = max (1 / 5) 3 ∧
    App.effectSpeed zeroSpeedEffect = 1 ∧
    App.effectSpeed ⟨"x".toList, none⟩ = 1 :=
  ⟨(C14_effect_speed ⟨"x".toList, some ⟨none, none, none, some (1 / 10)⟩⟩).1 (1 / 10) rfl
      (by norm_num),
   (C14_effect_speed ⟨"x".toList, some ⟨none, none, none, some 3⟩⟩).1 3 rfl (by norm_num),
   (C14_effect_speed zeroSpeedEffect).2.1 rfl,
   (C14_effect_speed ⟨"x".toList, none⟩).2.2.1 rfl⟩

/-! ## Normalisation of a snapshot -/

theorem spread_idempotent (a b : Obj) (ha : ∀ kv ∈ a, a.lookup kv.1 = some kv.2) :
    JS.spread a (JS.spread a b) = JS.spread a b := by
  have h1 : a.map (fun kv => (kv.1, ((JS.spread a b).lookup kv.1).getD kv.2))
      = a.map (fun kv => (kv.1, (b.lookup kv.1).getD kv.2)) := by
    apply List.map_congr_left
    intro kv hkv
    rw [lookup_spread, ha kv hkv]
    cases b.lookup kv.1 <;> rfl
  have h2 : (JS.spread a b).filter (fun kv => (a.lookup kv.1).isNone)
      = b.filter (fun kv => (a.lookup kv.1).isNone) := by
    unfold JS.spread
    rw [List.filter_append, List.filter_filter]
    have h3 : (a.map (fun kv => (kv.1, (b.lookup kv.1).getD kv.2))).filter
        (fun kv => (a.lookup kv.1).isNone) = [] := by
      rw [List.filter_eq_nil_iff]
      intro x hx
      rw [List.mem_map] at hx
      obtain ⟨kv, hkv, rfl⟩ := hx
      simp only [ha kv hkv, Option.isNone_some, Bool.false_eq_true, not_false_eq_true]
    rw [h3, List.nil_append]
    congr 1
    funext kv
    simp only [Bool.and_self]
  show a.map (fun kv => (kv.1, ((JS.spread a b).lookup kv.1).getD kv.2)) ++
      (JS.spread a b).filter (fun kv => (a.lookup kv.1).isNone) = JS.spread a b
  rw [h1, h2]
  rfl

theorem defaultLive_lookup_self : ∀ kv ∈ App.defaultLive, App.defaultLive.lookup kv.1 = some kv.2 := by
  intro kv hkv
  simp only [App.defaultLive, List.mem_cons, List.mem_singleton, List.not_mem_nil, or_false] at hkv
  rcases hkv with rfl | rfl | rfl | rfl | rfl | rfl <;> rfl

/-- A call of `ensureLive` leaves a normalised state as it is. -/
theorem ensureLive_normalise (led_count : Option ℚ) (st : Current) :
    App.ensureLive (App.normalise led_count st) = App.normalise led_count st := by
  unfold App.ensureLive App.normalise
  simp only [Option.getD_some, spread_idempotent _ _ defaultLive_lookup_self]

/-- A call of `getEffectParams` returns the `effect_params` of a normalised state, which it
assigns back unchanged. -/
theorem getEffectParams_normalise (led_count : Option ℚ) (st : Current) :
    some (App.getEffectParams (App.normalise led_count st))
      = (App.normalise led_count st).effect_params ∧
    (App.normalise led_count st).params = (App.normalise led_count st).effect_params :=
  ⟨rfl, rfl⟩

theorem liveKeys_default : ∀ k ∈ App.liveKeys, (App.defaultLive.lookup k).isSome = true := by
  decide

theorem normalisedFrom_of (st cur : Current)
    (hl : cur.live = some (JS.spread App.defaultLive (st.live.getD [])))
    (hp : cur.effect_params = some (match st.effect_params with
      | some o => o
      | none => st.params.getD [])) :
    NormalisedFrom st (some cur) := by
  refine ⟨cur, _, rfl, hl, ?_, ?_, hp⟩
  · intro k hk
    rw [mem_keys_iff, lookup_spread]
    cases (st.live.getD []).lookup k with
    | some v => rfl
    | none => exact liveKeys_default k hk
  · intro k
    exact lookup_spread _ _ k

/-- C15: after `loadStatus`, `ws.onmessage`, the `applyPreset` response and the `applyEffect`
response have stored a server state, `state.current.live` has the six keys `master_speed`,
`frame_blend`, `gamma`, `direction`, `dither`, `dither_strength`, each with the server's value
when the server sent the key and with its default (1, 0.15, 1, "forward", true, 0.3)
otherwise, and `state.current.effect_params` is present: the server's `effect_params`, else
its `params`, else the empty object. -/
theorem C15_snapshot_paths_normalise (ui : Presentation) (s : AppState) (st : Current)
    (audio : Option Audio) (data : App.StatusData) (restore : ℚ) :
    NormalisedFrom st (App.loadStatusApply s { data with state := some st }).current ∧
    NormalisedFrom st (App.wsOnMessage ui s (.json (some st) audio)).1.current ∧
    NormalisedFrom st (App.applyPresetResponse s st).current ∧
    NormalisedFrom st (App.applyEffectResponse s st restore).current ∧
    App.liveKeys = JS.keys App.defaultLive ∧
    App.defaultLive =
      [("master_speed".toList, .num 1), ("frame_blend".toList, .num (15 / 100)),
       ("gamma".toList, .num 1), ("direction".toList, .str "forward".toList),
       ("dither".toList, .bool true), ("dither_strength".toList, .num (3 / 10))] ∧
    ((App.wsOnMessage ui s
        (.json (some { st with effect_params := none, params := none }) audio)).1.current.bind
      (fun c => c.effect_params)) = some [] := by
  refine ⟨normalisedFrom_of _ _ rfl rfl, normalisedFrom_of _ _ rfl rfl,
    normalisedFrom_of _ _ rfl rfl, ?_, rfl, rfl, rfl⟩
  unfold App.applyEffectResponse
  simp only
  split
  · exact normalisedFrom_of _ _ rfl rfl
  · exact normalisedFrom_of _ _ rfl rfl

/-- C16 as stated fails: a payload state that carries `effect_params = {speed: 1}` and
`params = {speed: 2}` leaves `state.current.params = {speed: 1}`, not the payload's value;
the handler, with presentation calls that return, finishes with the acknowledgment. -/
theorem C16_counterexample :
    ∃ cur,
      App.wsOnMessage (fun _ => true) (App.initialState none)
          (.json (some doubleParamsSnapshot) (some ⟨none, none, none⟩))
        = ({ App.initialState none with current := some cur }, [.send "ok".toList]) ∧
      doubleParamsSnapshot.params = some [("speed".toList, .num 2)] ∧
      cur.params = some [("speed".toList, .num 1)] ∧
      ¬ KeepsField doubleParamsSnapshot.params cur.params := by
  refine ⟨App.normalise none doubleParamsSnapshot, rfl, rfl, rfl, ?_⟩
  intro h
  rcases h with h | h
  · exact absurd h (by decide)
  · revert h
    decide!

/-- C16 (amended): for two prior states with the same hardware info and the same payload
carrying a state, `ws.onmessage` leaves the same `state.current`, in app.js and in app_v2.js.
In app.js every field of the payload state other than `params` and `live` keeps the payload's
value, `params` becomes the stored `effect_params`, and `live` keeps the payload's value under
every key the payload has; in app_v2.js every field of the payload state keeps its value. -/
theorem C16_snapshot_replaces_local_state (ui : Presentation) (s1 s2 : AppState) (st : Current)
    (audio : Option Audio) (hled : s1.led_count = s2.led_count) :
    (App.wsOnMessage ui s1 (.json (some st) audio)).1.current
      = (App.wsOnMessage ui s2 (.json (some st) audio)).1.current ∧
    (AppV2.wsOnMessage ui s1 (.json (some st) audio)).1.current
      = (AppV2.wsOnMessage ui s2 (.json (some st) audio)).1.current ∧
    (∃ cur live, (App.wsOnMessage ui s1 (.json (some st) audio)).1.current = some cur ∧
      KeepsField st.power cur.power ∧ KeepsField st.brightness cur.brightness ∧
      KeepsField st.effect cur.effect ∧ KeepsField st.fps cur.fps ∧
      KeepsField st.intensity_boost cur.intensity_boost ∧
      KeepsField st.max_leds cur.max_leds ∧
      KeepsField st.effect_params cur.effect_params ∧
      KeepsField st.frame_preview cur.frame_preview ∧
      KeepsField st.segments cur.segments ∧
      cur.params = cur.effect_params ∧
      cur.live = some live ∧
      ∀ k, (st.live.getD []).lookup k = none ∨ live.lookup k = (st.live.getD []).lookup k) ∧
    (∃ cur, (AppV2.wsOnMessage ui s1 (.json (some st) audio)).1.current = some cur ∧
      KeepsField st.power cur.power ∧ KeepsField st.brightness cur.brightness ∧
      KeepsField st.effect cur.effect ∧ KeepsField st.fps cur.fps ∧
      KeepsField st.intensity_boost cur.intensity_boost ∧
      KeepsField st.max_leds cur.max_leds ∧
      KeepsField st.effect_params cur.effect_params ∧
      KeepsField st.params cur.params ∧
      KeepsField st.live cur.live ∧
      KeepsField st.frame_preview cur.frame_preview ∧
      KeepsField st.segments cur.segments) := by
  have keep : ∀ {α : Type} (a : Option α) (d : α), KeepsField a (some (a.getD d)) := by
    intro α a d
    cases a with
    | none => exact Or.inl rfl
    | some v => exact Or.inr rfl
  refine ⟨?_, ?_, ?_, ?_⟩
  · show some (App.normalise s1.led_count st) = some (App.normalise s2.led_count st)
    rw [hled]
  · cases audio <;> rfl
  · refine ⟨App.normalise s1.led_count st, _, rfl, Or.inr rfl, Or.inr rfl, Or.inr rfl,
      keep _ _, keep _ _, keep _ _, ?_, keep _ _, Or.inr rfl, rfl, rfl, ?_⟩
    · cases h : st.effect_params with
      | none => exact Or.inl rfl
      | some o =>
        right
        show some (match st.effect_params with
          | some o => o
          | none => st.params.getD []) = some o
        rw [h]
    · intro k
      rw [lookup_spread]
      cases (st.live.getD []).lookup k with
      | none => exact Or.inl rfl
      | some v => exact Or.inr rfl
  · cases audio with
    | none =>
      exact ⟨_, rfl, Or.inr rfl, Or.inr rfl, Or.inr rfl, Or.inr rfl, Or.inr rfl, Or.inr rfl,
        keep _ _, Or.inr rfl, keep _ _, Or.inr rfl, Or.inr rfl⟩
    | some a =>
      exact ⟨_, rfl, Or.inr rfl, Or.inr rfl, Or.inr rfl, Or.inr rfl, Or.inr rfl, Or.inr rfl,
        keep _ _, Or.inr rfl, keep _ _, Or.inr rfl, Or.inr rfl⟩

/-- C16 (amended) at two prior states that differ in `state.current`, the start state and one
with local parameters, and the snapshot of the end-to-end scenario. -/
theorem C16_snapshot_replaces_local_state_witness :
    (App.wsOnMessage (fun _ => true) (App.initialState none)
        (.json scenarioStatus.state (some ⟨none, none, none⟩))).1.current
      = (App.wsOnMessage (fun _ => true)
        { App.initialState none with current := some gammaSnapshot }
        (.json scenarioStatus.state (some ⟨none, none, none⟩))).1.current ∧
    (App.initialState none).current
      ≠ ({ App.initialState none with current := some gammaSnapshot } : AppState).current :=
  ⟨(C16_snapshot_replaces_local_state (fun _ => true) (App.initialState none)
      { App.initialState none with current := some gammaSnapshot }
      (scenarioStatus.state.getD App.initialCurrent) (some ⟨none, none, none⟩) rfl).1,
   by decide⟩

/-! ## Local edits of the effect parameters -/

/-- C17 as stated fails: from the start state, whose `effect_params` are empty, `applyEffect`
with an effect whose `default_params` hold `gamma` leaves `gamma` in
`state.current.effect_params`. -/
theorem C17_counterexample :
    JS.keys (App.getEffectParams App.initialCurrent) = [] ∧
    "gamma".toList ∈ App.globalKeys ∧
    "gamma".toList ∈ JS.keys (gammaDefaultsEffect.default_params.getD []) ∧
    "gamma".toList ∈
      JS.keys ((App.applyEffectLocal App.initialCurrent gammaDefaultsEffect).effect_params.getD []) := by
  refine ⟨rfl, by decide, by decide, by decide⟩

/-- The keys of `state.current.effect_params` after a local edit: after
`mergeEffectParams(extra)` the prior keys and the keys of `extra`; after
`updateParam(key, value)` the prior keys and `key`; after the merge of `applyEffect` the keys
of the effect's `default_params`, and the prior keys as well when the effect is the current
one. -/
theorem effectParams_keys_after_edit (cur : Current) (extra : Obj) (key : Str) (value : PVal)
    (effect : EffectMeta) (k : Str) :
    (k ∈ JS.keys ((App.mergeEffectParams cur extra).effect_params.getD []) ↔
      k ∈ JS.keys (App.getEffectParams cur) ∨ k ∈ JS.keys extra) ∧
    (k ∈ JS.keys ((App.updateParam cur key value).effect_params.getD []) ↔
      k ∈ JS.keys (App.getEffectParams cur) ∨ k = key) ∧
    (k ∈ JS.keys ((App.applyEffectLocal cur effect).effect_params.getD []) ↔
      k ∈ JS.keys (effect.default_params.getD []) ∨
        (cur.effect = some effect.name ∧ k ∈ JS.keys (App.getEffectParams cur))) := by
  have hm : ∀ x : Obj, ∀ q : Str,
      q ∈ JS.keys ((App.mergeEffectParams cur x).effect_params.getD []) ↔
        q ∈ JS.keys (App.getEffectParams cur) ∨ q ∈ JS.keys x := by
    intro x q
    exact mem_keys_spread _ _ q
  refine ⟨hm extra k, ?_, ?_⟩
  · have h := hm [(key, value)] k
    have hk : k ∈ JS.keys [(key, value)] ↔ k = key := by
      simp only [JS.keys, List.map_cons, List.map_nil, List.mem_singleton]
    rw [hk] at h
    exact h
  · unfold App.applyEffectLocal
    by_cases hsame : cur.effect = some effect.name
    · simp only [hsame, decide_True, if_true, true_and]
      exact mem_keys_spread _ _ k
    · simp only [hsame, decide_False, Bool.false_eq_true, if_false, false_and, or_false]
      rfl

/-- The fields `renderEffectParams` builds carry no global-modifier key. -/
theorem renderEffectParams_not_global (s : AppState) :
    ∀ k ∈ App.renderEffectParams s, k ∉ App.globalKeys := by
  intro k hk
  unfold App.renderEffectParams at hk
  split at hk
  · simp at hk
  · split at hk
    · simp at hk
    · exact mem_filter_not_global _ _ hk

/-- C17 (amended): for prior `effect_params` free of global-modifier keys, `updateParam(key,
value)` with a key that is no global-modifier key leaves `effect_params` free of them, and so
does `mergeEffectParams(extra)` with an `extra` free of them; the keys `updateParam` is called
with, those of the fields `renderEffectParams` builds, "color" and "secondary_color", are no
global-modifier keys.  The merge of `applyEffect` copies the effect's `default_params`
unfiltered: after it `effect_params` is free of global-modifier keys exactly when the effect's
`default_params` are. -/
theorem C17_edits_and_global_keys (cur : Current) (extra : Obj) (key : Str) (value : PVal)
    (effect : EffectMeta) (s : AppState)
    (hprior : ∀ g ∈ App.globalKeys, g ∉ JS.keys (App.getEffectParams cur)) :
    (key ∉ App.globalKeys →
      ∀ g ∈ App.globalKeys,
        g ∉ JS.keys ((App.updateParam cur key value).effect_params.getD [])) ∧
    ((∀ g ∈ App.globalKeys, g ∉ JS.keys extra) →
      ∀ g ∈ App.globalKeys,
        g ∉ JS.keys ((App.mergeEffectParams cur extra).effect_params.getD [])) ∧
    ((∀ k ∈ App.renderEffectParams s, k ∉ App.globalKeys) ∧
      "color".toList ∉ App.globalKeys ∧ "secondary_color".toList ∉ App.globalKeys) ∧
    ((∀ g ∈ App.globalKeys,
        g ∉ JS.keys ((App.applyEffectLocal cur effect).effect_params.getD [])) ↔
      (∀ g ∈ App.globalKeys, g ∉ JS.keys (effect.default_params.getD []))) := by
  refine ⟨?_, ?_, ⟨renderEffectParams_not_global s, by decide, by decide⟩, ?_⟩
  · intro hkey g hg hin
    rcases (effectParams_keys_after_edit cur extra key value effect g).2.1.mp hin with h | h
    · exact hprior g hg h
    · exact hkey (h ▸ hg)
  · intro hextra g hg hin
    rcases (effectParams_keys_after_edit cur extra key value effect g).1.mp hin with h | h
    · exact hprior g hg h
    · exact hextra g hg h
  · constructor
    · intro h g hg hin
      exact h g hg ((effectParams_keys_after_edit cur extra key value effect g).2.2.mpr
        (Or.inl hin))
    · intro h g hg hin
      rcases (effectParams_keys_after_edit cur extra key value effect g).2.2.mp hin with h1 | h1
      · exact h g hg h1
      · exact hprior g hg h1.2

/-- C17 (amended) at the start state: the edit `updateParam("speed", 2)` leaves no
global-modifier key, and `applyEffect` with an effect whose `default_params` are `{speed: 1}`
leaves none either. -/
theorem C17_edits_and_global_keys_witness :
    (∀ g ∈ App.globalKeys, g ∉ JS.keys
      ((App.updateParam App.initialCurrent "speed".toList (.num 2)).effect_params.getD [])) ∧
    (∀ g ∈ App.globalKeys, g ∉ JS.keys
      ((App.applyEffectLocal App.initialCurrent
        ⟨"rainbow_cycle".toList, some [("speed".toList, .num 1)]⟩).effect_params.getD [])) :=
  ⟨(C17_edits_and_global_keys App.initialCurrent [] "speed".toList (.num 2)
      ⟨"rainbow_cycle".toList, some [("speed".toList, .num 1)]⟩ (App.initialState none)
      (by decide)).1 (by decide),
   (C17_edits_and_global_keys App.initialCurrent [] "speed".toList (.num 2)
      ⟨"rainbow_cycle".toList, some [("speed".toList, .num 1)]⟩ (App.initialState none)
      (by decide)).2.2.2.mpr (by decide)⟩

/-! ## Acknowledgment and malformed messages -/

/-- C19: in app.js a message that carries a state and no audio snapshot replaces
`state.current` by the normalised state of the message and is not acknowledged: the handler
throws in `setUiValues` before it gets to `ws.send("ok")`.  For every message the handler sends
"ok" at most once, and when it does, the message carried a state and the store holds its
normalised state; an unparseable message changes nothing and is not acknowledged, in either
front end.  In app_v2.js a message without `state` and `audio` leaves the store as it was and
is acknowledged when `updateUI` returns. -/
theorem C19_state_applied_without_acknowledgment (ui : Presentation) (s : AppState)
    (st : Current) (data : WsData) :
    ((App.wsOnMessage ui s (.json (some st) none)).1.current
        = some (App.normalise s.led_count st) ∧
      (App.wsOnMessage ui s (.json (some st) none)).2 = [] ∧
      App.stateAtAck ui s (.json (some st) none) = none) ∧
    ((App.wsOnMessage ui s data).2 = [] ∨
      ((App.wsOnMessage ui s data).2 = [Outcall.send "ok".toList] ∧
        App.stateAtAck ui s data = some (App.wsOnMessage ui s data).1 ∧
        ∃ st2 audio, data = .json (some st2) (some audio) ∧
          (App.wsOnMessage ui s data).1.current = some (App.normalise s.led_count st2))) ∧
    (App.wsOnMessage ui s .unparseable = (s, []) ∧
      AppV2.wsOnMessage ui s .unparseable = (s, [])) ∧
    (AppV2.wsOnMessage ui s (.json none none)
      = (s, if ui s then [Outcall.send "ok".toList] else [])) := by
  refine ⟨⟨rfl, rfl, rfl⟩, ?_, ⟨rfl, rfl⟩, rfl⟩
  cases data with
  | unparseable => exact Or.inl rfl
  | jsonNull => exact Or.inl rfl
  | json state audio =>
    cases state with
    | none => exact Or.inl rfl
    | some st2 =>
      cases audio with
      | none => exact Or.inl rfl
      | some a =>
        by_cases hui : ui { s with
            current := some (App.normalise s.led_count st2)
            audio := some a
            viz := App.updateAudioTargets s.viz (some a) } = true
        · right
          refine ⟨?_, ?_, st2, a, rfl, rfl⟩
          · simp only [App.wsOnMessage, Option.isSome_some, hui, Bool.and_self, if_true]
          · simp only [App.stateAtAck, App.wsOnMessage, hui, if_true]
        · left
          simp only [App.wsOnMessage, Option.isSome_some, hui, Bool.true_and, if_false,
            Bool.false_eq_true]

/-- C20: in app.js a message that is valid JSON without `state` leaves `state.current`
`undefined`, where it held a state with `effect_params` and `live` before; an unparseable
message and the message `null` leave the store unchanged, and a message with a state leaves a
state that has both sub-objects. -/
theorem C20_stateless_message_clears_current (ui : Presentation) :
    (App.initialState none).current = some App.initialCurrent ∧
    App.initialCurrent.effect_params = some [] ∧
    App.initialCurrent.live = some App.defaultLive ∧
    (App.wsOnMessage ui (App.initialState none) (.json none none)).1.current = none ∧
    (∀ (s : AppState) (audio : Option Audio),
      (App.wsOnMessage ui s (.json none audio)).1.current = none) ∧
    (∀ s : AppState, (App.wsOnMessage ui s .unparseable).1 = s) ∧
    (∀ s : AppState, (App.wsOnMessage ui s .jsonNull).1 = s) ∧
    (∀ (s : AppState) (st : Current) (audio : Option Audio),
      ∃ cur ep live, (App.wsOnMessage ui s (.json (some st) audio)).1.current = some cur ∧
        cur.effect_params = some ep ∧ cur.live = some live) :=
  ⟨rfl, rfl, rfl, rfl, fun _ _ => rfl, fun _ => rfl, fun _ => rfl,
    fun _ _ _ => ⟨_, _, _, rfl, rfl, rfl⟩⟩

/-! ## The queue of state writes -/

/-- C18: the brightness handler and the live-speed handler hand their bodies to the one queue
`pushState`; when the live edit comes less than 80 ms after the brightness edit, the queue
makes a single write, 80 ms after the live edit, whose body holds `live` and no `brightness`:
the brightness value is not written.  Here `t1` is the time of the brightness edit and `t2`
the time of the live edit. -/
theorem C18_brightness_write_superseded (cur : Current) (v : Int) (mult : ℚ) (t1 t2 : Nat)
    (h2 : t2 < t1 + App.pushStateWait) :
    JS.runDebounced (App.debounce App.pushStateWait) ⟨none⟩
        [(t1, (App.onBrightness cur v).2),
         (t2, (App.onLiveSpeed (App.onBrightness cur v).1 mult).2)]
      = [(t2 + 80, (App.onLiveSpeed (App.onBrightness cur v).1 mult).2)] ∧
    (App.onLiveSpeed (App.onBrightness cur v).1 mult).2.brightness = none ∧
    (App.onLiveSpeed (App.onBrightness cur v).1 mult).2.live
      = (App.onLiveSpeed (App.onBrightness cur v).1 mult).1.live ∧
    (App.onBrightness cur v).2.brightness = some (v : ℚ) := by
  refine ⟨?_, rfl, rfl, rfl⟩
  have hnot : ¬ t1 + App.pushStateWait ≤ t2 := by omega
  simp only [JS.runDebounced, App.debounce, hnot, if_false]
  rfl

/-- C18 at the brightness 200 set at 0 ms and the speed 1.5 set at 50 ms, from the start
state: one write at 130 ms, without the brightness. -/
theorem C18_brightness_write_superseded_witness :
    JS.runDebounced (App.debounce App.pushStateWait) ⟨none⟩
        [(0, (App.onBrightness App.initialCurrent 200).2),
         (50, (App.onLiveSpeed (App.onBrightness App.initialCurrent 200).1 (3 / 2)).2)]
      = [(50 + 80, (App.onLiveSpeed (App.onBrightness App.initialCurrent 200).1 (3 / 2)).2)] ∧
    (App.onLiveSpeed (App.onBrightness App.initialCurrent 200).1 (3 / 2)).2.brightness = none :=
  ⟨(C18_brightness_write_superseded App.initialCurrent 200 (3 / 2) 0 50 (by decide)).1,
   (C18_brightness_write_superseded App.initialCurrent 200 (3 / 2) 0 50 (by decide)).2.1⟩

/-! ## Requests and session invalidation -/

/-- C21: `api` of app.js clears the token and its stored copy exactly on the statuses 401 and
403, and then throws an error that carries the status, after the one `fetch`; on any other
status outside 200-299 it leaves the state as it was and throws an error that carries the
status; on a status in 200-299 it leaves the state as it was and returns `res.json()`, the
parsed body.  In each case `fetch` is called once. -/
theorem C21_api_status {β : Type} (s : AppState) (path method : Str) (skipAuth : Bool)
    (res : Response β) :
    ((res.status = 401 ∨ res.status = 403) →
      (App.api s path method skipAuth res).1.token = [] ∧
      (App.api s path method skipAuth res).1.storedToken = none ∧
      (∃ message, (App.api s path method skipAuth res).2.2
        = Except.error ⟨message, some res.status⟩) ∧
      (∃ sent message, (App.api s path method skipAuth res).2.1
        = [Outcall.fetch path method sent, Outcall.showAuth message])) ∧
    (¬ (res.status = 401 ∨ res.status = 403) → JS.responseOk res = false →
      (App.api s path method skipAuth res).1 = s ∧
      (∃ message, (App.api s path method skipAuth res).2.2
        = Except.error ⟨message, some res.status⟩) ∧
      (∃ sent, (App.api s path method skipAuth res).2.1 = [Outcall.fetch path method sent])) ∧
    (JS.responseOk res = true →
      ¬ (res.status = 401 ∨ res.status = 403) ∧
      (App.api s path method skipAuth res).1 = s ∧
      (∀ v, res.json = some v → (App.api s path method skipAuth res).2.2 = Except.ok v) ∧
      (∃ sent, (App.api s path method skipAuth res).2.1 = [Outcall.fetch path method sent])) := by
  refine ⟨?_, ?_, ?_⟩
  · intro h
    have hok : JS.responseOk res = false := by
      unfold JS.responseOk
      rcases h with h | h <;> simp [h]
    simp [App.api, h, hok, App.forceReauth]
  · intro h hok
    simp [App.api, h, hok]
  · intro hok
    have h : ¬ (res.status = 401 ∨ res.status = 403) := by
      unfold JS.responseOk at hok
      simp only [decide_eq_true_eq] at hok
      omega
    refine ⟨h, ?_, ?_, ?_⟩
    · simp [App.api, h, hok]
    · intro v hv
      simp [App.api, h, hok, hv]
    · simp [App.api, h, hok]

/-- C21 on a session with the token "abc": the status 401 clears the token, the status 500
leaves the session as it was and fails, the status 200 leaves it and returns the body. -/
theorem C21_api_status_witness :
    (App.api sessionState "/api/state".toList "POST".toList false (statusResponse 401)).1.token = [] ∧
    (App.api sessionState "/api/state".toList "POST".toList false (statusResponse 500)).1
      = sessionState ∧
    (App.api sessionState "/api/state".toList "POST".toList false (statusResponse 200)).2.2
      = Except.ok 7 :=
  ⟨((C21_api_status sessionState "/api/state".toList "POST".toList false (statusResponse 401)).1
      (Or.inl rfl)).1,
   ((C21_api_status sessionState "/api/state".toList "POST".toList false (statusResponse 500)).2.1
      (by decide) rfl).1,
   ((C21_api_status sessionState "/api/state".toList "POST".toList false (statusResponse 200)).2.2
      rfl).2.2.1 7 rfl⟩

/-- C23: in app_v2.js neither `api` nor `ws.onclose` assigns the token: `api` leaves the state
as it was on every response and `ws.onclose` on every code.  On a session with the token
"abc", a 401 response and a close with code 4401 show the login dialog and leave
`state.token` and the stored copy at "abc". -/
theorem C23_token_kept_on_invalidation :
    (∀ (s : AppState) (path method : Str) (res : Response Nat),
      (AppV2.api s path method res).1 = s) ∧
    (∀ (s : AppState) (code : Int), (AppV2.wsOnClose s code).1 = s) ∧
    AppV2.api sessionState "/api/state".toList "POST".toList (statusResponse 401)
      = (sessionState,
          [Outcall.fetch "/api/state".toList "POST".toList (some "abc".toList),
           Outcall.showAuth "Sessie verlopen".toList], none) ∧
    AppV2.wsOnClose sessionState 4401
      = (sessionState, [Outcall.showAuth "Sessie verlopen".toList]) ∧
    sessionState.token = "abc".toList ∧ sessionState.storedToken = some "abc".toList := by
  refine ⟨?_, ?_, rfl, rfl, rfl, rfl⟩
  · intro s path method res
    unfold AppV2.api AppV2.showAuth
    split_ifs <;> rfl
  · intro s code
    unfold AppV2.wsOnClose AppV2.showAuth
    split_ifs <;> rfl

/-! ## The effect request of app_v2.js -/

/-- C30: in app_v2.js a call of the debounced `pushEffect` returns `undefined`, and
`applyEffect` leaves the whole state, `state.current` included, as it was, for every effect
and every state; what it leaves behind is the pending request in the queue. -/
theorem C30_apply_effect_keeps_state (s : AppState) (effect : Option EffectMeta) (now : Nat)
    (d : Debounced EffectBody) :
    (AppV2.applyEffect s effect now d).1 = s ∧
    (AppV2.applyEffect s effect now d).1.current = s.current ∧
    (∀ body : EffectBody, (AppV2.pushEffect now body d).2 = none) ∧
    (∀ eff cur, effect = some eff → s.current = some cur →
      (AppV2.applyEffect s effect now d).2.t
        = some (now + 100, ⟨eff.name, eff.default_params.getD [], cur.live, true⟩)) := by
  have h1 : (AppV2.applyEffect s effect now d).1 = s := by
    unfold AppV2.applyEffect
    cases effect with
    | none => rfl
    | some eff =>
      cases s.current with
      | none => rfl
      | some cur => rfl
  refine ⟨h1, by rw [h1], fun _ => rfl, ?_⟩
  intro eff cur he hc
  subst he
  unfold AppV2.applyEffect
  simp only [hc]
  rfl

/-- C30 at the start state and the effect "fire": the state is the start state, and the
request waits in the queue. -/
theorem C30_apply_effect_keeps_state_witness :
    (AppV2.applyEffect (App.initialState none) (some gammaDefaultsEffect) 0 ⟨none⟩).1
      = App.initialState none ∧
    (AppV2.applyEffect (App.initialState none) (some gammaDefaultsEffect) 0 ⟨none⟩).2.t
      = some (0 + 100, ⟨gammaDefaultsEffect.name, gammaDefaultsEffect.default_params.getD [],
          App.initialCurrent.live, true⟩) :=
  ⟨(C30_apply_effect_keeps_state (App.initialState none) (some gammaDefaultsEffect) 0 ⟨none⟩).1,
   (C30_apply_effect_keeps_state (App.initialState none) (some gammaDefaultsEffect) 0 ⟨none⟩).2.2.2
      gammaDefaultsEffect App.initialCurrent rfl rfl⟩

/-! ## The preview's pixel source -/

theorem previewCount_range (led_count : Option ℚ) (cur : Current) :
    1 ≤ App.previewCount led_count cur ∧ App.previewCount led_count cur ≤ 300 := by
  unfold App.previewCount
  simp only
  refine ⟨le_min (le_max_left _ _) (by norm_num), min_le_right _ _⟩

/-- C22: with a non-empty `frame_preview`, the pixels `drawLedViz` draws are the entries of
`frame_preview` through `rgbToHex`, in their order, whatever the effect and the time; without
one they are what `simulateEffectPixels` returns for the pixel count
`min(max(1, max_leds || getStripLength()), 300)`, which lies in [1, 300]. -/
theorem C22_preview_source (M : JS.JSMath) (s : AppState) (ledViz : App.LedVizState) (now : ℚ)
    (cur : Current) (hcur : s.current = some cur) :
    (∀ p ps, cur.frame_preview = some (p :: ps) →
      App.drawLedViz M s ledViz now
        = some ((p :: ps).map (fun c => App.rgbToHex (some c.1, some c.2.1, some c.2.2))) ∧
      ((p :: ps).map (fun c => App.rgbToHex (some c.1, some c.2.1, some c.2.2))).length
        = (p :: ps).length) ∧
    ((cur.frame_preview = none ∨ cur.frame_preview = some []) →
      App.drawLedViz M s ledViz now
        = App.simulateEffectPixelsAt M (App.toEffect (App.simEffect s.effects cur))
            (App.previewCount s.led_count cur)
            (if ledViz.time = 0 then now / 1000 else ledViz.time)) ∧
    App.previewCount s.led_count cur
      = min (max 1 (match cur.max_leds with
          | some m => if m = 0 then App.getStripLength s.led_count cur else m
          | none => App.getStripLength s.led_count cur)) 300 ∧
    1 ≤ App.previewCount s.led_count cur ∧ App.previewCount s.led_count cur ≤ 300 ∧
    (∀ (k : Nat) (e : Effect) (t : ℚ), App.previewCount s.led_count cur = (k : ℚ) →
      App.simulateEffectPixelsAt M e (App.previewCount s.led_count cur) t
        = App.simulateEffectPixels M e k t) := by
  refine ⟨?_, ?_, rfl, (previewCount_range _ _).1, (previewCount_range _ _).2, ?_⟩
  · intro p ps hp
    refine ⟨?_, by simp⟩
    unfold App.drawLedViz
    simp only [hcur, hp]
  · intro hp
    unfold App.drawLedViz
    rcases hp with hp | hp <;> simp only [hcur, hp]
  · intro k e t hk
    unfold App.simulateEffectPixelsAt
    rw [hk]
    have h1 : ((k : ℚ)).den = 1 := Rat.den_natCast k
    have h2 : (0 : ℚ) ≤ (k : ℚ) := Nat.cast_nonneg k
    have h3 : (k : ℚ) < 4294967296 := by
      have := (previewCount_range s.led_count cur).2
      rw [hk] at this
      linarith
    have h4 : ((k : ℚ)).num.toNat = k := by
      rw [Rat.num_natCast]
      rfl
    simp only [h1, h2, h3, and_self, if_true, h4]

/-- C22 on the end-to-end scenario: with a frame preview of two pixels the two pixels are
drawn; without one the synthesizer is called with the pixel count. -/
theorem C22_preview_source_witness :
    App.drawLedViz unitMath previewState ⟨0, 0, 0⟩ 0 = some ["#ff0000".toList, "#0000ff".toList] ∧
    App.drawLedViz unitMath (App.loadStatusApply (App.initialState none) scenarioStatus)
        ⟨0, 0, 0⟩ 0
      = App.simulateEffectPixelsAt unitMath
          (App.toEffect (App.simEffect
            (App.loadStatusApply (App.initialState none) scenarioStatus).effects scenarioCurrent))
          (App.previewCount
            (App.loadStatusApply (App.initialState none) scenarioStatus).led_count scenarioCurrent)
          (if (0 : ℚ) = 0 then 0 / 1000 else 0) :=
  ⟨by
      have h := ((C22_preview_source unitMath previewState ⟨0, 0, 0⟩ 0
        { scenarioCurrent with frame_preview := some [(255, 0, 0), (0, 0, 255)] } rfl).1
        (255, 0, 0) [(0, 0, 255)] rfl).1
      rw [h]
      decide,
   (C22_preview_source unitMath (App.loadStatusApply (App.initialState none) scenarioStatus)
      ⟨0, 0, 0⟩ 0 scenarioCurrent rfl).2.1 (Or.inr rfl)⟩

/-! ## Smoothing of the audio levels -/

theorem smooth_entry (levels targets : List ℚ) (i : Nat) (hi : i < levels.length) :
    ((List.range levels.length).map (fun i =>
        JS.fl (levels.getD i 0
          + JS.fl (JS.fl (targets.getD i 0 - levels.getD i 0) * JS.fl (2 / 10)))))[i]?
      = some (JS.fl (levels.getD i 0
          + JS.fl (JS.fl (targets.getD i 0 - levels.getD i 0) * JS.fl (2 / 10)))) := by
  rw [List.getElem?_map, List.getElem?_range hi]
  rfl

/-- C29 as stated fails: from the load state with the target 1, the first frame leaves the
level at the double 0.2, and the second frame leaves it at 0.36000000000000004, so the gap to
the target, 0.6399999999999999, is not 0.8 times the gap 0.8 before. -/
theorem C29_counterexample :
    (App.audioLoop vizGlobals).app.viz.audioLevels.getD 0 0
      = 3602879701896397 / 18014398509481984 ∧
    (App.audioLoop (App.audioLoop vizGlobals)).app.viz.audioLevels.getD 0 0
      = 6485183463413515 / 18014398509481984 ∧
    ¬ ((App.audioLoop vizGlobals).app.viz.audioTargets.getD 0 0
        - (App.audioLoop (App.audioLoop vizGlobals)).app.viz.audioLevels.getD 0 0
      = 8 / 10 * ((App.audioLoop vizGlobals).app.viz.audioTargets.getD 0 0
        - (App.audioLoop vizGlobals).app.viz.audioLevels.getD 0 0)) := by
  decide!

/-- C29 (amended): one frame of the audio loop, in app.js and in app_v2.js, replaces every
displayed level `L` with target `T` (0 when there is no target at that index) by the binary64
value of `L + 0.2 * (T - L)`, each of the three operations rounded.  For doubles `L` and `T` of
magnitude at most `2^1022` no operation overflows, the gap to the target is 0.8 times the gap
before up to the rounding error `(|L| + |T|) / 2^52 + 2^-1073`, the new level lies between `L`
and `T`, and it is in [0,1] when `L` and `T` are; the number of levels (16 from the start)
stays, and nothing else in the program state changes. -/
theorem C29_smoothing_step (g : App.Globals) (i : Nat)
    (hi : i < g.app.viz.audioLevels.length)
    (hL : IsDouble (g.app.viz.audioLevels.getD i 0))
    (hT : IsDouble (g.app.viz.audioTargets.getD i 0))
    (hLr : |g.app.viz.audioLevels.getD i 0| ≤ 2 ^ 1022)
    (hTr : |g.app.viz.audioTargets.getD i 0| ≤ 2 ^ 1022) :
    ((App.audioLoop g).app.viz.audioLevels[i]?
      = some (JS.fl (g.app.viz.audioLevels.getD i 0
          + JS.fl (JS.fl (g.app.viz.audioTargets.getD i 0 - g.app.viz.audioLevels.getD i 0)
              * JS.fl (2 / 10))))) ∧
    (RoundsFinite (g.app.viz.audioTargets.getD i 0 - g.app.viz.audioLevels.getD i 0) ∧
      RoundsFinite (JS.fl (g.app.viz.audioTargets.getD i 0 - g.app.viz.audioLevels.getD i 0)
        * JS.fl (2 / 10)) ∧
      RoundsFinite (g.app.viz.audioLevels.getD i 0
        + JS.fl (JS.fl (g.app.viz.audioTargets.getD i 0 - g.app.viz.audioLevels.getD i 0)
            * JS.fl (2 / 10)))) ∧
    (AppV2.audioLoop g = App.audioLoop g) ∧
    (|(g.app.viz.audioTargets.getD i 0 - (App.audioLoop g).app.viz.audioLevels.getD i 0)
        - 8 / 10 * (g.app.viz.audioTargets.getD i 0 - g.app.viz.audioLevels.getD i 0)|
      ≤ (|g.app.viz.audioLevels.getD i 0| + |g.app.viz.audioTargets.getD i 0|) / 2 ^ 52
        + 1 / 2 ^ 1073) ∧
    (min (g.app.viz.audioLevels.getD i 0) (g.app.viz.audioTargets.getD i 0)
        ≤ (App.audioLoop g).app.viz.audioLevels.getD i 0 ∧
      (App.audioLoop g).app.viz.audioLevels.getD i 0
        ≤ max (g.app.viz.audioLevels.getD i 0) (g.app.viz.audioTargets.getD i 0)) ∧
    (0 ≤ g.app.viz.audioLevels.getD i 0 → g.app.viz.audioLevels.getD i 0 ≤ 1 →
      0 ≤ g.app.viz.audioTargets.getD i 0 → g.app.viz.audioTargets.getD i 0 ≤ 1 →
      0 ≤ (App.audioLoop g).app.viz.audioLevels.getD i 0 ∧
        (App.audioLoop g).app.viz.audioLevels.getD i 0 ≤ 1) ∧
    ((App.audioLoop g).app.viz.audioLevels.length = g.app.viz.audioLevels.length) ∧
    (App.audioLoop g =
      { g with app := { g.app with viz := { g.app.viz with
          audioLevels := (App.audioLoop g).app.viz.audioLevels } } }) ∧
    ((App.initialState none).viz.audioLevels.length = 16) := by
  have hnew : (App.audioLoop g).app.viz.audioLevels[i]?
      = some (JS.fl (g.app.viz.audioLevels.getD i 0
          + JS.fl (JS.fl (g.app.viz.audioTargets.getD i 0 - g.app.viz.audioLevels.getD i 0)
              * JS.fl (2 / 10)))) :=
    smooth_entry _ _ i hi
  have hD : (App.audioLoop g).app.viz.audioLevels.getD i 0
      = JS.fl (g.app.viz.audioLevels.getD i 0
          + JS.fl (JS.fl (g.app.viz.audioTargets.getD i 0 - g.app.viz.audioLevels.getD i 0)
              * JS.fl (2 / 10))) := by
    rw [List.getD_eq_getElem?_getD, hnew]
    rfl
  have hbetween := smooth_between _ _ hL hT
  have herr := smooth_error (g.app.viz.audioLevels.getD i 0) (g.app.viz.audioTargets.getD i 0)
  refine ⟨hnew, smooth_finite _ _ hL hT hLr hTr, rfl, ?_, ?_, ?_, ?_, rfl, by decide⟩
  · rw [hD]
    rw [abs_sub_comm] at herr
    have e : ∀ L T n : ℚ, T - n - 8 / 10 * (T - L) = L + 2 / 10 * (T - L) - n := by
      intro L T n
      ring
    rw [e]
    exact herr
  · rw [hD]
    exact hbetween
  · intro h1 h2 h3 h4
    rw [hD]
    constructor
    · exact le_trans (le_min h1 h3) hbetween.1
    · exact le_trans hbetween.2 (max_le h2 h4)
  · show ((List.range g.app.viz.audioLevels.length).map _).length = _
    rw [List.length_map, List.length_range]

/-- C29 (amended) at load with the targets `[1, 1/2]`: level 0 moves from 0 to the double
0.2, between 0 and 1. -/
theorem C29_smoothing_step_witness :
    (App.audioLoop vizGlobals).app.viz.audioLevels[0]?
      = some (JS.fl (0 + JS.fl (JS.fl (1 - 0) * JS.fl (2 / 10)))) ∧
    (min 0 1 ≤ (App.audioLoop vizGlobals).app.viz.audioLevels.getD 0 0 ∧
      (App.audioLoop vizGlobals).app.viz.audioLevels.getD 0 0 ≤ max 0 1) :=
  ⟨(C29_smoothing_step vizGlobals 0 (by decide) ⟨0, 0, by decide, by decide, by decide, by decide!⟩
      ⟨1, 0, by decide, by decide, by decide, by decide!⟩ (by decide!) (by decide!)).1,
   (C29_smoothing_step vizGlobals 0 (by decide) ⟨0, 0, by decide, by decide, by decide, by decide!⟩
      ⟨1, 0, by decide, by decide, by decide, by decide!⟩ (by decide!) (by decide!)).2.2.2.2.1⟩

/-! ## The flow formula -/

theorem foldlM_pixels_congr (n : Nat) (body body2 : Nat → Option Pixel) :
    ∀ (l : List Nat) (cs : List Str), (∀ i ∈ l, body i = body2 i) →
      l.foldlM (fun cs i => (body i).map (fun col => App.setPixel n cs (i : Int) col)) cs
        = l.foldlM (fun cs i => (body2 i).map (fun col => App.setPixel n cs (i : Int) col)) cs := by
  intro l
  induction l with
  | nil => intro cs _; rfl
  | cons a l ih =>
    intro cs h
    rw [List.foldlM_cons, List.foldlM_cons, h a (List.mem_cons_self _ _)]
    congr 1
    funext cs2
    exact ih cs2 (fun i hi => h i (List.mem_cons_of_mem _ hi))

theorem forPixels_of_some (n : Nat) (body : Nat → Option Pixel) (p : Nat → Pixel)
    (cs : List Str) (hcs : cs.length = n) (h : ∀ i, i < n → body i = some (p i)) :
    App.forPixels n body cs = some ((List.range n).map (fun i => App.pixelHex (p i))) := by
  rw [← forPixels_total n p cs hcs]
  unfold App.forPixels
  exact foldlM_pixels_congr n body (fun i => some (p i)) _ cs
    (fun i hi => h i (List.mem_range.mp hi))

theorem foldlM_pixels_none (n : Nat) (body : Nat → Option Pixel) (i : Nat)
    (hb : body i = none) :
    ∀ (k : Nat) (cs : List Str), i < k →
      (List.range k).foldlM
        (fun cs i => (body i).map (fun col => App.setPixel n cs (i : Int) col)) cs = none := by
  intro k
  induction k with
  | zero => intro cs h; omega
  | succ k ih =>
    intro cs h
    rw [List.range_succ, List.foldlM_append]
    by_cases hik : i < k
    · rw [ih cs hik]
      rfl
    · have hk : i = k := by omega
      subst hk
      cases (List.range i).foldlM
          (fun cs i => (body i).map (fun col => App.setPixel n cs (i : Int) col)) cs with
      | none => rfl
      | some cs2 =>
        simp only [List.foldlM_cons, List.foldlM_nil, hb, Option.map_none', Option.bind_eq_bind,
          Option.some_bind, Option.none_bind]

theorem forPixels_none (n : Nat) (body : Nat → Option Pixel) (cs : List Str) (i : Nat)
    (hi : i < n) (hb : body i = none) : App.forPixels n body cs = none :=
  foldlM_pixels_none n body i hb n cs hi

/-- When the pixel loop returns, every iteration returned a colour, and entry `i` of the result
is the colour of iteration `i`. -/
theorem forPixels_some_entry (n : Nat) (body : Nat → Option Pixel) (cs out : List Str)
    (hcs : cs.length = n) (h : App.forPixels n body cs = some out) (i : Nat) (hi : i < n) :
    ∃ p, body i = some p ∧ out[i]? = some (App.pixelHex p) := by
  have hall : ∀ j, j < n → body j = some ((body j).getD (.str [])) := by
    intro j hj
    cases hb : body j with
    | none =>
      rw [forPixels_none n body cs j hj hb] at h
      exact absurd h (by simp)
    | some p => rfl
  rw [forPixels_of_some n body (fun j => (body j).getD (.str [])) cs hcs hall] at h
  simp only [Option.some.injEq] at h
  refine ⟨(body i).getD (.str []), hall i hi, ?_⟩
  rw [← h, List.getElem?_map, List.getElem?_range hi]
  rfl

theorem simulate_default (M : JS.JSMath) (e : Effect) (n : Nat) (t : ℚ)
    (h : matchesNoFamily (JS.toLowerCase e.name) = true) :
    App.simulateEffectPixels M e n t =
      App.forPixels n (App.flowPixel (App.workingPalette e) (App.effectSpeed e) (4 / 10) n t)
        (List.replicate n App.off) := by
  unfold matchesNoFamily at h
  simp only [Bool.not_eq_true', Bool.or_eq_false_iff] at h
  obtain ⟨⟨⟨⟨⟨⟨⟨h1, h2⟩, h3⟩, h4⟩, h5⟩, h6⟩, h7⟩, h8⟩ := h
  unfold App.simulateEffectPixels
  simp only [h1, h2, h3, h4, h5, h6, h7, h8, Bool.false_eq_true, if_false]

/-- In the flow family and in the final `else`, the result is the pixel loop over `flowPixel`
with the rate of the name. -/
theorem simulate_flowRate (M : JS.JSMath) (e : Effect) (n : Nat) (t : ℚ)
    (h : App.isFlow (JS.toLowerCase e.name) = true ∨
      matchesNoFamily (JS.toLowerCase e.name) = true) :
    App.simulateEffectPixels M e n t =
      App.forPixels n (App.flowPixel (App.workingPalette e) (App.effectSpeed e)
        (flowRate (JS.toLowerCase e.name)) n t) (List.replicate n App.off) := by
  rcases h with h | h
  · rw [simulate_flow M e n t h]
    unfold flowRate
    simp only [h, if_true]
  · rw [simulate_default M e n t h]
    have h1 : App.isFlow (JS.toLowerCase e.name) = false := by
      unfold matchesNoFamily at h
      simp only [Bool.not_eq_true', Bool.or_eq_false_iff] at h
      exact h.1.1.1.1.1.1.1
    unfold flowRate
    simp only [h1, Bool.false_eq_true, if_false]

theorem flowRate_pos (name : Str) : 0 < flowRate name := by
  unfold flowRate
  split <;> norm_num

theorem effectSpeed_pos (e : Effect) : 0 < App.effectSpeed e := by
  have h : (1 : ℚ) / 5 ≤ App.effectSpeed e := by
    unfold App.effectSpeed
    exact le_max_left _ _
  linarith

theorem rem_one_nonneg (a : ℚ) (h : 0 ≤ a) : JS.rem a 1 = Int.fract a := by
  unfold JS.rem
  simp only [div_one, h, if_true, one_mul]
  exact Int.self_sub_floor a

theorem flowPixel_scale (palette : PaletteVal) (speed rate t : ℚ) (n k i : Nat)
    (hk : 1 ≤ k) :
    App.flowPixel palette speed rate (k * n) t (k * i) = App.flowPixel palette speed rate n t i := by
  have hk0 : (k : ℚ) ≠ 0 := by
    have : (0 : ℚ) < (k : ℚ) := by exact_mod_cast hk
    exact ne_of_gt this
  have h : (((k * i : Nat) : ℚ)) / (((k * n : Nat) : ℚ)) = (i : ℚ) / (n : ℚ) := by
    push_cast
    exact mul_div_mul_left _ _ hk0
  unfold App.flowPixel
  simp only [h]

theorem flowPixel_inherited (len : Option Nat) (speed rate t : ℚ) (n i : Nat) :
    App.flowPixel (.inherited len) speed rate n t i = none := by
  unfold App.flowPixel
  simp only [PaletteVal.get, App.colorArgOf, App.lerpColor, App.colorChannels, Option.map_none']

/-- The loop body of the flow formula on an array palette at a phase that is not negative:
the two palette entries it blends and the weight. -/
theorem flowPixel_colours (cs : List Str) (hpos : cs ≠ []) (speed rate t : ℚ) (n i : Nat)
    (ha : 0 ≤ t * speed * rate + (i : ℚ) / (n : ℚ)) :
    ⌊Int.fract (t * speed * rate + (i : ℚ) / (n : ℚ)) * (cs.length : ℚ)⌋.toNat < cs.length ∧
    ∃ b, cs[(⌊Int.fract (t * speed * rate + (i : ℚ) / (n : ℚ)) * (cs.length : ℚ)⌋.toNat + 1)
          % cs.length]? = some b ∧
      App.flowPixel (.colours cs) speed rate n t i
        = (App.lerpColor
            (.str (App.pick (.colours cs)
              ⌊Int.fract (t * speed * rate + (i : ℚ) / (n : ℚ)) * (cs.length : ℚ)⌋))
            (.str b)
            (Int.fract (Int.fract (t * speed * rate + (i : ℚ) / (n : ℚ)) * (cs.length : ℚ)))).map
          Pixel.arr := by
  have hL : 0 < cs.length := List.length_pos.mpr hpos
  have hLq : (0 : ℚ) < (cs.length : ℚ) := by exact_mod_cast hL
  have hp0 := Int.fract_nonneg (t * speed * rate + (i : ℚ) / (n : ℚ))
  have hp1 := Int.fract_lt_one (t * speed * rate + (i : ℚ) / (n : ℚ))
  generalize hphase : Int.fract (t * speed * rate + (i : ℚ) / (n : ℚ)) = phase at hp0 hp1 ⊢
  have hx0 : 0 ≤ phase * (cs.length : ℚ) := mul_nonneg hp0 (le_of_lt hLq)
  have hidx0 : 0 ≤ ⌊phase * (cs.length : ℚ)⌋ := Int.floor_nonneg.mpr hx0
  have hidx1 : ⌊phase * (cs.length : ℚ)⌋ < (cs.length : Int) := by
    rw [Int.floor_lt]
    push_cast
    nlinarith
  generalize hidx : ⌊phase * (cs.length : ℚ)⌋ = idx at hidx0 hidx1 ⊢
  obtain ⟨k, rfl⟩ := Int.eq_ofNat_of_zero_le hidx0
  have hk : k < cs.length := by exact_mod_cast hidx1
  have hmod : (k + 1) % cs.length < cs.length := Nat.mod_lt _ hL
  refine ⟨by simpa using hk, cs[(k + 1) % cs.length], ?_, ?_⟩
  · simp only [Int.toNat_ofNat]
    exact List.getElem?_eq_getElem hmod
  · unfold App.flowPixel
    simp only [App.paletteLen, PaletteVal.length?, Option.getD_some]
    rw [rem_one_nonneg _ ha, hphase, rem_one_nonneg _ hx0, hidx]
    have hnext : Int.tmod ((k : Int) + 1) (cs.length : Int) = (((k + 1) % cs.length : Nat) : Int) := by
      rw [Int.tmod_eq_emod (by omega) (by omega)]
      push_cast
      rfl
    rw [hnext]
    simp only [PaletteVal.get, Int.toNat_ofNat, Nat.cast_nonneg, if_true, List.get?_eq_getElem?,
      List.getElem?_eq_getElem hmod, App.colorArgOf]

theorem pick_colours (cs : List Str) (hne : ∀ c ∈ cs, c ≠ []) (k : Nat) (hk : k < cs.length) :
    App.pick (.colours cs) (k : Int) = cs[k] := by
  unfold App.pick
  have h1 : Int.tmod (k : Int) ((App.paletteLen (.colours cs) : Nat) : Int) = (k : Int) := by
    apply Int.tmod_eq_of_lt (by omega)
    simp only [App.paletteLen, PaletteVal.length?, Option.getD_some]
    exact_mod_cast hk
  rw [h1]
  simp only [PaletteVal.get, Nat.cast_nonneg, if_true, Int.toNat_ofNat, List.get?_eq_getElem?,
    List.getElem?_eq_getElem hk]
  have hc : cs[k] ≠ [] := hne _ (List.getElem_mem _)
  cases hck : cs[k] with
  | nil => exact absurd hck hc
  | cons a as => rfl

theorem flow_returns (cs : List Str) (hpos : cs ≠ []) (speed rate t : ℚ) (n : Nat)
    (hs : 0 ≤ t * speed * rate) :
    ∃ out, App.forPixels n (App.flowPixel (.colours cs) speed rate n t)
      (List.replicate n App.off) = some out := by
  refine ⟨_, forPixels_of_some n _
    (fun j => (App.flowPixel (.colours cs) speed rate n t j).getD (.str [])) _
    (List.length_replicate _ _) ?_⟩
  intro j _
  have ha : 0 ≤ t * speed * rate + (j : ℚ) / (n : ℚ) :=
    add_nonneg hs (div_nonneg (Nat.cast_nonneg _) (Nat.cast_nonneg _))
  obtain ⟨_, b, _, hb⟩ := flowPixel_colours cs hpos speed rate t n j ha
  show App.flowPixel (.colours cs) speed rate n t j
    = some ((App.flowPixel (.colours cs) speed rate n t j).getD (.str []))
  rw [hb]
  rfl

theorem workingPalette_colours_ne (e : Effect) (cs : List Str)
    (h : App.workingPalette e = .colours cs) : cs ≠ [] := by
  have hlen := workingPalette_length_pos e
  rw [h] at hlen
  intro hnil
  subst hnil
  exact absurd hlen (by decide)

/-- The entries `i` of `n` pixels and `k * i` of `k * n` pixels of the flow formula: equal
whenever both calls return, equal as results for `t ≥ 0`, and a colour for `t ≥ 0` when the
palette is an array. -/
theorem flow_sampling (M : JS.JSMath) (e : Effect) (n k i : Nat) (t : ℚ)
    (hfam : App.isFlow (JS.toLowerCase e.name) = true ∨
      matchesNoFamily (JS.toLowerCase e.name) = true)
    (hk : 1 ≤ k) (hi : i < n) :
    (∀ out out2, App.simulateEffectPixels M e n t = some out →
      App.simulateEffectPixels M e (k * n) t = some out2 → out[i]? = out2[k * i]?) ∧
    (0 ≤ t →
      (App.simulateEffectPixels M e n t).bind (fun out => out[i]?)
        = (App.simulateEffectPixels M e (k * n) t).bind (fun out => out[k * i]?)) ∧
    (0 ≤ t → ∀ cs, App.workingPalette e = .colours cs →
      ∃ c, (App.simulateEffectPixels M e n t).bind (fun out => out[i]?) = some c) := by
  have hki : k * i < k * n := Nat.mul_lt_mul_of_pos_left hi (by omega)
  have part1 : ∀ out out2, App.simulateEffectPixels M e n t = some out →
      App.simulateEffectPixels M e (k * n) t = some out2 → out[i]? = out2[k * i]? := by
    intro out out2 h1 h2
    rw [simulate_flowRate M e n t hfam] at h1
    rw [simulate_flowRate M e (k * n) t hfam] at h2
    obtain ⟨p, hp, hout⟩ := forPixels_some_entry n _ _ out (List.length_replicate _ _) h1 i hi
    obtain ⟨p2, hp2, hout2⟩ :=
      forPixels_some_entry (k * n) _ _ out2 (List.length_replicate _ _) h2 (k * i) hki
    rw [flowPixel_scale _ _ _ _ n k i hk, hp] at hp2
    simp only [Option.some.injEq] at hp2
    rw [hout, hout2, hp2]
  have hs : 0 ≤ t → 0 ≤ t * App.effectSpeed e * flowRate (JS.toLowerCase e.name) := fun ht =>
    mul_nonneg (mul_nonneg ht (le_of_lt (effectSpeed_pos e))) (le_of_lt (flowRate_pos _))
  refine ⟨part1, ?_, ?_⟩
  · intro ht
    cases hpal : App.workingPalette e with
    | colours cs =>
      have hpos := workingPalette_colours_ne e cs hpal
      obtain ⟨out, hout⟩ := flow_returns cs hpos _ _ t n (hs ht)
      obtain ⟨out2, hout2⟩ := flow_returns cs hpos _ _ t (k * n) (hs ht)
      have h1 : App.simulateEffectPixels M e n t = some out := by
        rw [simulate_flowRate M e n t hfam, hpal, hout]
      have h2 : App.simulateEffectPixels M e (k * n) t = some out2 := by
        rw [simulate_flowRate M e (k * n) t hfam, hpal, hout2]
      rw [h1, h2]
      exact part1 out out2 h1 h2
    | inherited len =>
      have h1 : App.simulateEffectPixels M e n t = none := by
        rw [simulate_flowRate M e n t hfam, hpal]
        exact forPixels_none n _ _ 0 (by omega) (flowPixel_inherited _ _ _ _ _ _)
      have h2 : App.simulateEffectPixels M e (k * n) t = none := by
        rw [simulate_flowRate M e (k * n) t hfam, hpal]
        exact forPixels_none (k * n) _ _ 0 (by omega) (flowPixel_inherited _ _ _ _ _ _)
      rw [h1, h2]
      rfl
  · intro ht cs hpal
    have hpos := workingPalette_colours_ne e cs hpal
    obtain ⟨out, hout⟩ := flow_returns cs hpos _ _ t n (hs ht)
    have h1 : App.simulateEffectPixels M e n t = some out := by
      rw [simulate_flowRate M e n t hfam, hpal, hout]
    rw [simulate_flowRate M e n t hfam, hpal] at h1
    obtain ⟨p, _, hp⟩ := forPixels_some_entry n _ _ out (List.length_replicate _ _) h1 i hi
    refine ⟨App.pixelHex p, ?_⟩
    rw [simulate_flowRate M e n t hfam, hpal, h1]
    exact hp

/-- C28: for an effect of the flow family or of the final `else`, every `n` (at least 1, as
it holds a pixel `i < n`), every factor `k ≥ 1`, every pixel `i < n` and every time `t ≥ 0` of
the animation clock, entry `i` of
`simulateEffectPixels(effect, n, t)` is entry `k * i` of
`simulateEffectPixels(effect, k * n, t)`; with a palette that is an array both are colours. -/
theorem C28_flow_sampling (M : JS.JSMath) (e : Effect) (n k i : Nat) (t : ℚ)
    (hfam : App.isFlow (JS.toLowerCase e.name) = true ∨
      matchesNoFamily (JS.toLowerCase e.name) = true)
    (hk : 1 ≤ k) (hi : i < n) (ht : 0 ≤ t) :
    (App.simulateEffectPixels M e n t).bind (fun out => out[i]?)
        = (App.simulateEffectPixels M e (k * n) t).bind (fun out => out[k * i]?) ∧
    (∀ cs, App.workingPalette e = .colours cs →
      ∃ c, (App.simulateEffectPixels M e n t).bind (fun out => out[i]?) = some c ∧
        (App.simulateEffectPixels M e (k * n) t).bind (fun out => out[k * i]?) = some c) := by
  have h := flow_sampling M e n k i t hfam hk hi
  refine ⟨h.2.1 ht, ?_⟩
  intro cs hcs
  obtain ⟨c, hc⟩ := h.2.2 ht cs hcs
  exact ⟨c, hc, (h.2.1 ht) ▸ hc⟩

/-- C28 at the effect "rainbow", `t = 0`: pixel 1 of 3 is pixel 2 of 6. -/
theorem C28_flow_sampling_witness :
    (App.simulateEffectPixels unitMath ⟨"rainbow".toList, none⟩ 3 0).bind (fun out => out[1]?)
      = (App.simulateEffectPixels unitMath ⟨"rainbow".toList, none⟩ (2 * 3) 0).bind
          (fun out => out[2 * 1]?) :=
  (C28_flow_sampling unitMath ⟨"rainbow".toList, none⟩ 3 2 1 0 (Or.inl (by decide)) (by decide)
    (by decide) (le_refl 0)).1

/-- C24: for an effect of the flow family (rate 0.5) or of the final `else` (rate 0.4) whose
palette is an array of `L` non-empty strings, `n ≥ 1` pixels and `t ≥ 0`, the call returns `n`
colours, and with `phase` the fractional part of `t * speed * rate + i / n` and
`k = floor(phase * L)`, pixel `i` is `lerpColor(palette[k], palette[(k + 1) mod L], w)` with `w`
the fractional part of `phase * L`.  With the palette name "constructor" in place of that
palette the call throws for every `n ≥ 1`. -/
theorem C24_flow_formula (M : JS.JSMath) (e : Effect) (n : Nat) (t : ℚ) (cs : List Str)
    (hfam : App.isFlow (JS.toLowerCase e.name) = true ∨
      matchesNoFamily (JS.toLowerCase e.name) = true)
    (hn : 1 ≤ n) (ht : 0 ≤ t)
    (hpal : App.workingPalette e = .colours cs) (hne : ∀ c ∈ cs, c ≠ []) :
    (∃ out, App.simulateEffectPixels M e n t = some out ∧ out.length = n ∧
      ∀ i, i < n →
        ⌊Int.fract (t * App.effectSpeed e * flowRate (JS.toLowerCase e.name)
            + (i : ℚ) / (n : ℚ)) * (cs.length : ℚ)⌋.toNat < cs.length ∧
        ∃ a b,
          cs[⌊Int.fract (t * App.effectSpeed e * flowRate (JS.toLowerCase e.name)
            + (i : ℚ) / (n : ℚ)) * (cs.length : ℚ)⌋.toNat]? = some a ∧
          cs[(⌊Int.fract (t * App.effectSpeed e * flowRate (JS.toLowerCase e.name)
            + (i : ℚ) / (n : ℚ)) * (cs.length : ℚ)⌋.toNat + 1) % cs.length]? = some b ∧
          out[i]? = (App.lerpColor (.str a) (.str b)
            (Int.fract (Int.fract (t * App.effectSpeed e * flowRate (JS.toLowerCase e.name)
              + (i : ℚ) / (n : ℚ)) * (cs.length : ℚ)))).map App.rgbToHex) ∧
    App.simulateEffectPixels M
      ⟨e.name, some ⟨none, none, some "constructor".toList, none⟩⟩ n t = none := by
  have hpos := workingPalette_colours_ne e cs hpal
  have hs : 0 ≤ t * App.effectSpeed e * flowRate (JS.toLowerCase e.name) :=
    mul_nonneg (mul_nonneg ht (le_of_lt (effectSpeed_pos e))) (le_of_lt (flowRate_pos _))
  constructor
  · obtain ⟨out, hout⟩ := flow_returns cs hpos _ _ t n hs
    refine ⟨out, by rw [simulate_flowRate M e n t hfam, hpal, hout], ?_, ?_⟩
    · rw [forPixels_length _ _ _ _ hout, List.length_replicate]
    · intro i hi
      have ha : 0 ≤ t * App.effectSpeed e * flowRate (JS.toLowerCase e.name)
          + (i : ℚ) / (n : ℚ) :=
        add_nonneg hs (div_nonneg (Nat.cast_nonneg _) (Nat.cast_nonneg _))
      obtain ⟨hk, b, hb, hpix⟩ := flowPixel_colours cs hpos _ _ t n i ha
      obtain ⟨p, hp, hentry⟩ :=
        forPixels_some_entry n _ _ out (List.length_replicate _ _) hout i hi
      refine ⟨hk, _, b, List.getElem?_eq_getElem hk, hb, ?_⟩
      rw [hpix] at hp
      have hidx : ⌊Int.fract (t * App.effectSpeed e * flowRate (JS.toLowerCase e.name)
          + (i : ℚ) / (n : ℚ)) * (cs.length : ℚ)⌋
          = ((⌊Int.fract (t * App.effectSpeed e * flowRate (JS.toLowerCase e.name)
            + (i : ℚ) / (n : ℚ)) * (cs.length : ℚ)⌋.toNat : Nat) : Int) := by
        rw [Int.toNat_of_nonneg]
        exact Int.floor_nonneg.mpr
          (mul_nonneg (Int.fract_nonneg _) (Nat.cast_nonneg _))
      rw [hidx, pick_colours cs hne _ hk] at hp
      rw [hentry]
      cases hl : App.lerpColor
          (.str cs[⌊Int.fract (t * App.effectSpeed e * flowRate (JS.toLowerCase e.name)
            + (i : ℚ) / (n : ℚ)) * (cs.length : ℚ)⌋.toNat]) (.str b)
          (Int.fract (Int.fract (t * App.effectSpeed e * flowRate (JS.toLowerCase e.name)
            + (i : ℚ) / (n : ℚ)) * (cs.length : ℚ))) with
      | none =>
        rw [hl] at hp
        exact absurd hp (by simp)
      | some c =>
        rw [hl] at hp
        simp only [Option.map_some', Option.some.injEq] at hp
        rw [← hp]
        rfl
  · have hname : JS.toLowerCase
        (⟨e.name, some ⟨none, none, some "constructor".toList, none⟩⟩ : Effect).name
        = JS.toLowerCase e.name := rfl
    have hw : App.workingPalette ⟨e.name, some ⟨none, none, some "constructor".toList, none⟩⟩
        = .inherited (some 1) := by
      rfl
    rw [simulate_flowRate M _ n t (by rw [hname]; exact hfam), hw]
    exact forPixels_none n _ _ 0 (by omega) (flowPixel_inherited _ _ _ _ _ _)

/-- C24 at the effect "rainbow" with the neon palette, three pixels and `t = 0`: the call
returns three colours; with the palette name "constructor" it throws. -/
theorem C24_flow_formula_witness :
    (∃ out, App.simulateEffectPixels unitMath ⟨"rainbow".toList, none⟩ 3 0 = some out ∧
      out.length = 3) ∧
    App.simulateEffectPixels unitMath
      ⟨"rainbow".toList, some ⟨none, none, some "constructor".toList, none⟩⟩ 3 0 = none :=
  ⟨by
      obtain ⟨out, h1, h2, _⟩ :=
        (C24_flow_formula unitMath ⟨"rainbow".toList, none⟩ 3 0 App.neon (Or.inl (by decide))
          (by decide) (le_refl 0) (by decide) (by decide)).1
      exact ⟨out, h1, h2⟩,
   (C24_flow_formula unitMath ⟨"rainbow".toList, none⟩ 3 0 App.neon (Or.inl (by decide))
      (by decide) (le_refl 0) (by decide) (by decide)).2⟩

/-! ## Head and tail of the wipe and the comet family -/

theorem cometPixel_eq (M : JS.JSMath) (palette : PaletteVal) (speed : ℚ) (n : Nat) (t : ℚ)
    (i : Nat) :
    App.cometPixel M palette speed n t i
      = .str (App.adjustHex (App.pick palette 0)
          (if 0 ≤ App.cometHead speed n t - (i : Int) ∧
              App.cometHead speed n t - (i : Int) ≤ App.cometTail n
            then M.pow (1 - ((App.cometHead speed n t - (i : Int) : Int) : ℚ)
              / ((App.cometTail n : Int) : ℚ)) (8 / 5)
            else 0)) := rfl

theorem wipePixel_eq (M : JS.JSMath) (palette : PaletteVal) (speed : ℚ) (n : Nat) (t : ℚ)
    (i : Nat) :
    App.wipePixel M palette speed n t i
      = .str (App.adjustHex (App.pick palette 0)
          (1 / 4 + (if |(i : Int) - App.wipeHead speed n t| ≤ App.wipeTail n
            then M.pow (1 - ((|(i : Int) - App.wipeHead speed n t| : Int) : ℚ)
              / ((App.wipeTail n : Int) : ℚ)) (3 / 2)
            else 0))) := rfl

theorem jsRound_zero : JS.round 0 = 0 := by
  unfold JS.round
  norm_num

theorem adjustHex_zero (c : Str) (h : ParsesAsColour c) :
    App.adjustHex c 0 = "#000000".toList := by
  obtain ⟨r, g, b, h⟩ := h
  unfold App.adjustHex
  simp only [h, mul_zero, jsRound_zero, Option.bind_eq_bind, Option.some_bind, Option.pure_def,
    Option.map_some']
  decide

theorem floor_div_natCast (x : ℚ) (n : Nat) (hn : 1 ≤ n) : ⌊x / (n : ℚ)⌋ = ⌊x⌋ / (n : Int) := by
  have hnq : (0 : ℚ) < (n : ℚ) := by exact_mod_cast hn
  have hni : (0 : Int) < (n : Int) := by exact_mod_cast hn
  rw [Int.floor_eq_iff]
  have h1 := Int.floor_le x
  have h2 := Int.lt_floor_add_one x
  have h3 := Int.ediv_add_emod ⌊x⌋ (n : Int)
  have h4 := Int.emod_nonneg ⌊x⌋ (ne_of_gt hni)
  have h5 := Int.emod_lt_of_pos ⌊x⌋ hni
  have h6 : ((⌊x⌋ : Int) : ℚ) = (n : ℚ) * ((⌊x⌋ / (n : Int) : Int) : ℚ)
      + ((⌊x⌋ % (n : Int) : Int) : ℚ) := by
    exact_mod_cast h3.symm
  have h7 : (0 : ℚ) ≤ ((⌊x⌋ % (n : Int) : Int) : ℚ) := by exact_mod_cast h4
  have h8 : ((⌊x⌋ % (n : Int) : Int) : ℚ) + 1 ≤ (n : ℚ) := by exact_mod_cast h5
  constructor
  · rw [le_div_iff₀ hnq]
    nlinarith
  · rw [div_lt_iff₀ hnq]
    nlinarith

/-- The head of the wipe family is `floor(t * speed * n) mod n` when `t * speed ≥ 0`. -/
theorem wipeHead_eq (speed t : ℚ) (n : Nat) (hn : 1 ≤ n) (hx : 0 ≤ t * speed) :
    App.wipeHead speed n t = ⌊t * speed * (n : ℚ)⌋ % (n : Int) := by
  have hnq : (0 : ℚ) < (n : ℚ) := by exact_mod_cast hn
  have hq : 0 ≤ t * speed * (n : ℚ) / (n : ℚ) :=
    div_nonneg (mul_nonneg hx (le_of_lt hnq)) (le_of_lt hnq)
  unfold App.wipeHead JS.rem
  simp only [hq, if_true]
  have hc : (n : ℚ) * ((⌊t * speed * (n : ℚ) / (n : ℚ)⌋ : Int) : ℚ)
      = (((n : Int) * ⌊t * speed * (n : ℚ) / (n : ℚ)⌋ : Int) : ℚ) := by
    push_cast
    rfl
  rw [hc, Int.floor_sub_int, floor_div_natCast _ n hn, Int.emod_def]

theorem cometHead_at_exit (speed : ℚ) (hs : 0 < speed) (n : Nat) :
    App.cometHead speed n (((n : ℚ) + 9) / (speed * ((n : ℚ) + 10))) = (n : Int) + 9 := by
  have hn : (0 : ℚ) ≤ (n : ℚ) := Nat.cast_nonneg n
  have h10 : (0 : ℚ) < (n : ℚ) + 10 := by linarith
  have hx : ((n : ℚ) + 9) / (speed * ((n : ℚ) + 10)) * speed * ((n : ℚ) + 10) = (n : ℚ) + 9 := by
    field_simp
    ring
  have hq0 : 0 ≤ ((n : ℚ) + 9) / ((n : ℚ) + 10) := div_nonneg (by linarith) (le_of_lt h10)
  have hq1 : ((n : ℚ) + 9) / ((n : ℚ) + 10) < 1 := by
    rw [div_lt_one h10]
    linarith
  have hfl : ⌊((n : ℚ) + 9) / ((n : ℚ) + 10)⌋ = 0 := Int.floor_eq_zero_iff.mpr ⟨hq0, hq1⟩
  unfold App.cometHead JS.rem
  rw [hx]
  simp only [hq0, if_true, hfl, Int.cast_zero, mul_zero, sub_zero]
  have : ((n : ℚ) + 9) = (((n : Int) + 9 : Int) : ℚ) := by push_cast; rfl
  rw [this, Int.floor_intCast]

theorem cometTail_small (n : Nat) (hn : n ≤ 183) : App.cometTail n ≤ 10 := by
  unfold App.cometTail
  apply max_le (by norm_num)
  have h : (n : ℚ) * (6 / 100) < ((11 : Int) : ℚ) := by
    have : (n : ℚ) ≤ 183 := by exact_mod_cast hn
    push_cast
    linarith
  have := Int.floor_lt.mpr h
  omega

theorem cometTail_min (n : Nat) : 6 ≤ App.cometTail n := by
  unfold App.cometTail
  exact le_max_left _ _

theorem hexToRgb_rgbToHex_byte (r g b : Int)
    (hr : 0 ≤ r ∧ r ≤ 255) (hg : 0 ≤ g ∧ g ≤ 255) (hb : 0 ≤ b ∧ b ≤ 255) :
    App.hexToRgb (App.rgbToHex (some r, some g, some b)) = (some r, some g, some b) := by
  obtain ⟨lr, pr⟩ := chanHex_byte r hr.1 hr.2
  obtain ⟨lg, pg⟩ := chanHex_byte g hg.1 hg.2
  obtain ⟨lb, pb⟩ := chanHex_byte b hb.1 hb.2
  obtain ⟨s1, s2, s3⟩ := slices_of_pairs _ _ _ lr lg lb
  have e1 : App.rgbToHex (some r, some g, some b) =
      '#' :: [chanHex (some r), chanHex (some g), chanHex (some b)].flatten := rfl
  simp only [App.hexToRgb, e1, s1, s2, s3, pr, pg, pb]

theorem adjustHex_of_parsed (c : Str) (r g b : Int) (f : ℚ)
    (h : App.hexToRgb c = (some r, some g, some b)) :
    App.adjustHex c f
      = App.rgbToHex (some (min 255 (max 0 (JS.round ((r : ℚ) * f)))),
          some (min 255 (max 0 (JS.round ((g : ℚ) * f)))),
          some (min 255 (max 0 (JS.round ((b : ℚ) * f))))) := by
  unfold App.adjustHex
  simp only [h, Option.bind_eq_bind, Option.some_bind, Option.pure_def, Option.map_some']

/-- The colour "#32ffe0" dimmed by a factor of at least 16/81 is not black. -/
theorem adjustHex_neon_visible (f : ℚ) (hf : 16 / 81 ≤ f) :
    App.adjustHex "#32ffe0".toList f ≠ "#000000".toList := by
  intro h
  have hp : App.hexToRgb "#32ffe0".toList = (some 50, some 255, some 224) := by decide
  rw [adjustHex_of_parsed _ 50 255 224 f hp] at h
  have hround : 1 ≤ JS.round (((255 : Int) : ℚ) * f) := by
    unfold JS.round
    rw [Int.le_floor]
    push_cast
    linarith
  have hbyte : ∀ z : Int, 0 ≤ min 255 (max 0 z) ∧ min 255 (max 0 z) ≤ 255 := by
    intro z
    omega
  have h2 := congrArg App.hexToRgb h
  rw [hexToRgb_rgbToHex_byte _ _ _ (hbyte _) (hbyte _) (hbyte _)] at h2
  have hblack : App.hexToRgb "#000000".toList = (some 0, some 0, some 0) := by decide
  rw [hblack] at h2
  simp only [Prod.mk.injEq, Option.some.injEq] at h2
  omega

theorem cometHead_range (speed t : ℚ) (n : Nat) (hx : 0 ≤ t * speed) :
    0 ≤ App.cometHead speed n t ∧ App.cometHead speed n t < (n : Int) + 10 := by
  have hn : (0 : ℚ) ≤ (n : ℚ) := Nat.cast_nonneg n
  have hb : (0 : ℚ) < (n : ℚ) + 10 := by linarith
  have hq : 0 ≤ t * speed * ((n : ℚ) + 10) / ((n : ℚ) + 10) :=
    div_nonneg (mul_nonneg hx (le_of_lt hb)) (le_of_lt hb)
  have h1 := Int.floor_le (t * speed * ((n : ℚ) + 10) / ((n : ℚ) + 10))
  have h2 := Int.lt_floor_add_one (t * speed * ((n : ℚ) + 10) / ((n : ℚ) + 10))
  rw [le_div_iff₀ hb] at h1
  rw [div_lt_iff₀ hb] at h2
  unfold App.cometHead JS.rem
  simp only [hq, if_true]
  constructor
  · apply Int.floor_nonneg.mpr
    nlinarith
  · rw [Int.floor_lt]
    push_cast
    nlinarith

theorem powLike_unitMath : PowLike unitMath := by
  refine ⟨rfl, rfl, ?_⟩
  intro x h0 h1
  show x ^ 2 ≤ x
  nlinarith

/-- For an effect rendered by the comet family whose primary colour parses, with
`Math.pow(0, 1.6) = 0` and at most 183 pixels (a tail of at most 10), at the head position
`n + 9` every pixel is "#000000"; and for every pixel count, at every head position, each pixel
ahead of the head is "#000000". -/
theorem comet_exit_small_strip (M : JS.JSMath) (e : Effect) (n : Nat)
    (h1 : App.isFlow (JS.toLowerCase e.name) = false)
    (h2 : App.isBreath (JS.toLowerCase e.name) = false)
    (h3 : App.isStrobe (JS.toLowerCase e.name) = false)
    (h4 : App.isWipe (JS.toLowerCase e.name) = false)
    (h5 : App.isComet (JS.toLowerCase e.name) = true)
    (hcol : ParsesAsColour (App.pick (App.workingPalette e) 0)) :
    (n ≤ 183 → M.pow 0 (8 / 5) = 0 →
      ∃ t : ℚ, 0 ≤ t ∧ App.cometHead (App.effectSpeed e) n t = (n : Int) + 9 ∧
        App.simulateEffectPixels M e n t = some (List.replicate n "#000000".toList)) ∧
    (∀ (t : ℚ) (i : Nat), i < n → App.cometHead (App.effectSpeed e) n t < (i : Int) →
      ∃ out, App.simulateEffectPixels M e n t = some out ∧
        out[i]? = some "#000000".toList) := by
  constructor
  · intro hn hpow0
    have hs := effectSpeed_pos e
    have hhead := cometHead_at_exit (App.effectSpeed e) hs n
    refine ⟨((n : ℚ) + 9) / (App.effectSpeed e * ((n : ℚ) + 10)), ?_, hhead, ?_⟩
    · apply div_nonneg
      · have : (0 : ℚ) ≤ (n : ℚ) := Nat.cast_nonneg n
        linarith
      · apply mul_nonneg (le_of_lt hs)
        have : (0 : ℚ) ≤ (n : ℚ) := Nat.cast_nonneg n
        linarith
    · rw [simulate_comet M e n _ h1 h2 h3 h4 h5]
      congr 1
      rw [List.eq_replicate_iff]
      refine ⟨by simp, ?_⟩
      intro b hb
      rw [List.mem_map] at hb
      obtain ⟨i, hi, rfl⟩ := hb
      rw [List.mem_range] at hi
      rw [cometPixel_eq, hhead]
      have ht1 := cometTail_small n hn
      have ht2 := cometTail_min n
      have hfade : (if 0 ≤ (n : Int) + 9 - (i : Int) ∧ (n : Int) + 9 - (i : Int) ≤ App.cometTail n
          then M.pow (1 - (((n : Int) + 9 - (i : Int) : Int) : ℚ)
            / ((App.cometTail n : Int) : ℚ)) (8 / 5)
          else 0) = 0 := by
        split_ifs with hc
        · have heq : (n : Int) + 9 - (i : Int) = App.cometTail n := by omega
          have hne : ((App.cometTail n : Int) : ℚ) ≠ 0 := by
            have : (0 : Int) < App.cometTail n := by omega
            exact_mod_cast ne_of_gt this
          rw [heq, div_self hne, sub_self, hpow0]
        · rfl
      rw [hfade]
      exact adjustHex_zero _ hcol
  · intro t i hi hahead
    refine ⟨_, simulate_comet M e n t h1 h2 h3 h4 h5, ?_⟩
    rw [List.getElem?_map, List.getElem?_range hi]
    simp only [Option.map_some', Option.some.injEq]
    rw [cometPixel_eq]
    have hfade : (if 0 ≤ App.cometHead (App.effectSpeed e) n t - (i : Int) ∧
          App.cometHead (App.effectSpeed e) n t - (i : Int) ≤ App.cometTail n
        then M.pow (1 - ((App.cometHead (App.effectSpeed e) n t - (i : Int) : Int) : ℚ)
          / ((App.cometTail n : Int) : ℚ)) (8 / 5)
        else 0) = 0 := by
      split_ifs with hc
      · omega
      · rfl
    rw [hfade]
    exact adjustHex_zero _ hcol

/-- C25: with 300 pixels, the count the preview uses for a strip of 300 or more, and the
default palette, the comet never leaves the strip: at every time `t ≥ 0`, hence at every head
position in `[0, 310)`, some pixel is not "#000000", for every `Math.pow` with the properties
`PowLike`.  The tail is 18 pixels long and the head stops 10 pixels past the strip. -/
theorem C25_comet_never_dark_at_300 (M : JS.JSMath) (hM : PowLike M) (t : ℚ) (ht : 0 ≤ t) :
    App.simulateEffectPixels M cometEffect 300 t
      ≠ some (List.replicate 300 "#000000".toList) := by
  obtain ⟨_, hpow1, hpow⟩ := hM
  intro h
  rw [simulate_comet M cometEffect 300 t (by decide) (by decide) (by decide) (by decide)
    (by decide)] at h
  simp only [Option.some.injEq] at h
  have hspeed : App.effectSpeed cometEffect = 1 := by decide!
  have hpick : App.pick (App.workingPalette cometEffect) 0 = "#32ffe0".toList := by decide
  have htail : App.cometTail 300 = 18 := by decide!
  have hentry : ∀ j, j < 300 →
      App.pixelHex (App.cometPixel M (App.workingPalette cometEffect)
        (App.effectSpeed cometEffect) 300 t j) = "#000000".toList := by
    intro j hj
    have h2 := congrArg (fun l => l[j]?) h
    simp only [List.getElem?_map, List.getElem?_range hj, Option.map_some',
      List.getElem?_replicate, hj, if_true, Option.some.injEq] at h2
    exact h2
  obtain ⟨hh0, hh1⟩ := cometHead_range 1 t 300 (by linarith)
  rw [hspeed] at hentry
  by_cases hlt : App.cometHead 1 300 t < 300
  · obtain ⟨k, hk⟩ := Int.eq_ofNat_of_zero_le hh0
    have hk300 : k < 300 := by omega
    have h3 := hentry k hk300
    rw [cometPixel_eq, hpick, htail, hk] at h3
    simp only [sub_self, le_refl, true_and, Int.cast_zero, zero_div, sub_zero, hpow1,
      App.pixelHex] at h3
    norm_num at h3
    revert h3
    decide!
  · have h3 := hentry 299 (by norm_num)
    rw [cometPixel_eq, hpick, htail] at h3
    have hd0 : 0 ≤ App.cometHead 1 300 t - ((299 : Nat) : Int) := by omega
    have hd1 : App.cometHead 1 300 t - ((299 : Nat) : Int) ≤ 18 := by omega
    simp only [hd0, hd1, and_self, if_true, App.pixelHex] at h3
    have hdq1 : (1 : ℚ) ≤ ((App.cometHead 1 300 t - ((299 : Nat) : Int) : Int) : ℚ) := by
      have : (1 : Int) ≤ App.cometHead 1 300 t - ((299 : Nat) : Int) := by omega
      exact_mod_cast this
    have hdq2 : ((App.cometHead 1 300 t - ((299 : Nat) : Int) : Int) : ℚ) ≤ 10 := by
      have : App.cometHead 1 300 t - ((299 : Nat) : Int) ≤ (10 : Int) := by omega
      exact_mod_cast this
    generalize ((App.cometHead 1 300 t - ((299 : Nat) : Int) : Int) : ℚ) = d at h3 hdq1 hdq2
    have hx0 : 0 < 1 - d / ((18 : Int) : ℚ) := by
      push_cast
      linarith
    have hx1 : 1 - d / ((18 : Int) : ℚ) < 1 := by
      push_cast
      linarith
    have hsq := hpow _ hx0 hx1
    have hlow : (16 : ℚ) / 81 ≤ (1 - d / ((18 : Int) : ℚ)) ^ 2 := by
      push_cast
      nlinarith
    exact adjustHex_neon_visible _ (le_trans hlow hsq) h3

/-- C25 at `t = 0` with the power function of `unitMath`. -/
theorem C25_comet_never_dark_at_300_witness :
    PowLike unitMath ∧ (0 : ℚ) ≤ 0 ∧
    App.simulateEffectPixels unitMath cometEffect 300 0
      ≠ some (List.replicate 300 "#000000".toList) :=
  ⟨powLike_unitMath, le_refl 0,
    C25_comet_never_dark_at_300 unitMath powLike_unitMath 0 (le_refl 0)⟩

/-- C26 as stated fails: with 20 pixels the tail window of the wipe family is 4 pixels, where
`floor(0.05 * 20)` is 1. -/
theorem C26_counterexample :
    ¬ ∀ n : Nat, 1 ≤ n → App.wipeTail n = ⌊(n : ℚ) * (5 / 100)⌋ := by
  intro h
  have h2 := h 20 (by norm_num)
  revert h2
  decide!

/-- C26 (amended): for an effect rendered by the wipe family, `n ≥ 1` and `t ≥ 0`, the head is
`floor(t * speed * n) mod n`, the tail window is `max(4, floor(0.05 * n))` pixels, which is
`floor(0.05 * n)` from 80 pixels on and 4 below, and pixel `i` at distance `d = |i - head|` is
the primary colour scaled by `0.25 + (1 - d / tail)^1.5` inside the window and by 0.25
outside. -/
theorem C26_wipe_head_and_tail (M : JS.JSMath) (e : Effect) (n : Nat) (t : ℚ)
    (h1 : App.isFlow (JS.toLowerCase e.name) = false)
    (h2 : App.isBreath (JS.toLowerCase e.name) = false)
    (h3 : App.isStrobe (JS.toLowerCase e.name) = false)
    (h4 : App.isWipe (JS.toLowerCase e.name) = true)
    (hn : 1 ≤ n) (ht : 0 ≤ t) :
    App.wipeHead (App.effectSpeed e) n t = ⌊t * App.effectSpeed e * (n : ℚ)⌋ % (n : Int) ∧
    App.wipeTail n = max 4 ⌊(n : ℚ) * (5 / 100)⌋ ∧
    (80 ≤ n → App.wipeTail n = ⌊(n : ℚ) * (5 / 100)⌋) ∧
    (n < 80 → App.wipeTail n = 4) ∧
    App.simulateEffectPixels M e n t =
      some ((List.range n).map (fun (i : Nat) =>
        App.adjustHex (App.pick (App.workingPalette e) 0)
          (1 / 4 + (if |(i : Int) - App.wipeHead (App.effectSpeed e) n t| ≤ App.wipeTail n
            then M.pow (1 - ((|(i : Int) - App.wipeHead (App.effectSpeed e) n t| : Int) : ℚ)
              / ((App.wipeTail n : Int) : ℚ)) (3 / 2)
            else 0)))) := by
  refine ⟨wipeHead_eq _ t n hn (mul_nonneg ht (le_of_lt (effectSpeed_pos e))), rfl, ?_, ?_, ?_⟩
  · intro h80
    unfold App.wipeTail
    apply max_eq_right
    rw [Int.le_floor]
    have : (80 : ℚ) ≤ (n : ℚ) := by exact_mod_cast h80
    push_cast
    linarith
  · intro h80
    unfold App.wipeTail
    apply max_eq_left
    have h : (n : ℚ) * (5 / 100) < ((4 : Int) : ℚ) := by
      have : (n : ℚ) < 80 := by exact_mod_cast h80
      push_cast
      linarith
    exact le_of_lt (Int.floor_lt.mpr h)
  · rw [simulate_wipe M e n t h1 h2 h3 h4]
    rfl

/-- C26 (amended) at the effect "wipe" with 100 pixels and `t = 0`: the head is 0 and the
tail is 5. -/
theorem C26_wipe_head_and_tail_witness :
    App.wipeHead (App.effectSpeed wipeEffect) 100 0
      = ⌊(0 : ℚ) * App.effectSpeed wipeEffect * ((100 : Nat) : ℚ)⌋ % ((100 : Nat) : Int) ∧
    App.wipeTail 100 = ⌊((100 : Nat) : ℚ) * (5 / 100)⌋ :=
  ⟨(C26_wipe_head_and_tail unitMath wipeEffect 100 0 (by decide) (by decide) (by decide)
      (by decide) (by decide) (le_refl 0)).1,
   (C26_wipe_head_and_tail unitMath wipeEffect 100 0 (by decide) (by decide) (by decide)
      (by decide) (by decide) (le_refl 0)).2.2.1 (by decide)⟩

/-! ## The bands of the audio family -/

theorem setPixel_getElem_ne (n : Nat) (cs : List Str) (idx j : Nat) (col : Pixel)
    (h : idx ≠ j) : (App.setPixel n cs (idx : Int) col)[j]? = cs[j]? := by
  unfold App.setPixel
  split
  · rw [Int.toNat_ofNat, List.getElem?_set_ne h]
  · rfl

theorem setPixel_getElem_self (n : Nat) (cs : List Str) (idx : Nat) (col : Pixel)
    (h1 : idx < n) (h2 : idx < cs.length) :
    (App.setPixel n cs (idx : Int) col)[idx]? = some (App.pixelHex col) := by
  unfold App.setPixel
  have hc : (0 : Int) ≤ (idx : Int) ∧ (idx : Int) < (n : Int) := ⟨by omega, by omega⟩
  simp only [hc, and_self, if_true, Int.toNat_ofNat]
  rw [List.getElem?_set_self h2]

theorem foldl_setPixel_length (n : Nat) (idx : Nat → Int) (col : Nat → Pixel) (l : List Nat)
    (cs : List Str) :
    (l.foldl (fun cs i => App.setPixel n cs (idx i) (col i)) cs).length = cs.length := by
  induction l generalizing cs with
  | nil => rfl
  | cons a l ih => rw [List.foldl_cons, ih, setPixel_length]

/-- The inner loop of the audio family over the first `k` pixels of band `b`: what it leaves at
index `j`. -/
theorem audioBand_prefix (n : Nat) (seg b : Nat) (v : Nat → Str) (cs : List Str)
    (hcs : cs.length = n) :
    ∀ k, b * seg + k ≤ n → ∀ j,
      ((List.range k).foldl
        (fun cs i => App.setPixel n cs ((b * seg + i : Nat) : Int) (.str (v i))) cs)[j]?
        = if b * seg ≤ j ∧ j < b * seg + k then some (v (j - b * seg)) else cs[j]? := by
  intro k
  induction k with
  | zero =>
    intro _ j
    have : ¬ (b * seg ≤ j ∧ j < b * seg + 0) := by omega
    simp only [List.range_zero, List.foldl_nil, this, if_false]
  | succ k ih =>
    intro hk j
    rw [List.range_succ, List.foldl_append, List.foldl_cons, List.foldl_nil]
    have hlen : ((List.range k).foldl
        (fun cs i => App.setPixel n cs ((b * seg + i : Nat) : Int) (.str (v i))) cs).length = n := by
      rw [foldl_setPixel_length n (fun i => ((b * seg + i : Nat) : Int)) (fun i => .str (v i))]
      exact hcs
    by_cases hj : j = b * seg + k
    · subst hj
      rw [setPixel_getElem_self n _ _ _ (by omega) (by omega)]
      have : b * seg ≤ b * seg + k ∧ b * seg + k < b * seg + (k + 1) := by omega
      simp only [this, and_self, if_true, App.pixelHex, Nat.add_sub_cancel_left]
    · rw [setPixel_getElem_ne n _ _ j _ (fun h => hj h.symm), ih (by omega) j]
      by_cases hin : b * seg ≤ j ∧ j < b * seg + k
      · have : b * seg ≤ j ∧ j < b * seg + (k + 1) := by omega
        simp only [hin, this, and_self, if_true]
      · have : ¬ (b * seg ≤ j ∧ j < b * seg + (k + 1)) := by omega
        simp only [hin, this, if_false]

/-- What band `b` of the audio family leaves at index `j`, when the band lies within the
strip. -/
theorem audioBand_entry (M : JS.JSMath) (palette : PaletteVal) (n : Nat) (t : ℚ) (seg : Nat)
    (cs : List Str) (hcs : cs.length = n) (b : Nat) (hb : (b + 1) * seg ≤ n) (j : Nat) :
    (App.audioBand M palette n t seg cs b)[j]?
      = if b * seg ≤ j ∧ j < (b + 1) * seg then
          some (if ((j - b * seg : Nat) : ℚ) < App.audioLevel M t b * (seg : ℚ)
            then App.pick palette (b : Int)
            else App.adjustHex (App.pick palette (b : Int)) (12 / 100))
        else cs[j]? := by
  have hexp : (b + 1) * seg = b * seg + seg := by ring
  have htw : (List.range seg).takeWhile (fun i => decide (b * seg + i < n)) = List.range seg := by
    rw [List.takeWhile_eq_self_iff]
    intro i hi
    have := List.mem_range.mp hi
    simp only [decide_eq_true_eq]
    omega
  unfold App.audioBand
  simp only [htw]
  have h := audioBand_prefix n seg b
    (fun i => if (i : ℚ) < App.audioLevel M t b * (seg : ℚ) then App.pick palette (b : Int)
      else App.adjustHex (App.pick palette (b : Int)) (12 / 100)) cs hcs seg (by omega) j
  rw [hexp]
  simp only [decide_eq_true_eq] at h ⊢
  exact h

/-- The bands of the audio family after the first `m`: what they leave at index `j`. -/
theorem audioBands_entry (M : JS.JSMath) (palette : PaletteVal) (n : Nat) (t : ℚ) (seg : Nat)
    (hseg : 8 * seg ≤ n) :
    ∀ m, m ≤ 8 → ∀ j,
      ((List.range m).foldl (App.audioBand M palette n t seg) (List.replicate n App.off))[j]?
        = if j < m * seg then
            some (if ((j % seg : Nat) : ℚ) < App.audioLevel M t (j / seg) * (seg : ℚ)
              then App.pick palette ((j / seg : Nat) : Int)
              else App.adjustHex (App.pick palette ((j / seg : Nat) : Int)) (12 / 100))
          else (List.replicate n App.off)[j]? := by
  intro m
  induction m with
  | zero =>
    intro _ j
    simp only [List.range_zero, List.foldl_nil, Nat.zero_mul, Nat.not_lt_zero, if_false]
  | succ m ih =>
    intro hm j
    rw [List.range_succ, List.foldl_append, List.foldl_cons, List.foldl_nil]
    have hexp : (m + 1) * seg = m * seg + seg := by ring
    have hle : (m + 1) * seg ≤ 8 * seg := Nat.mul_le_mul_right seg hm
    rw [audioBand_entry M palette n t seg _ (by rw [audioBands_length, List.length_replicate]) m
      (by omega) j, ih (by omega) j]
    by_cases hband : m * seg ≤ j ∧ j < (m + 1) * seg
    · have hdiv : j / seg = m := Nat.div_eq_of_lt_le hband.1 hband.2
      have hmod : j % seg = j - m * seg := by
        have := Nat.div_add_mod j seg
        rw [hdiv] at this
        have h2 : seg * m = m * seg := Nat.mul_comm _ _
        omega
      simp only [hband, and_self, if_true, hdiv, hmod]
    · simp only [hband, if_false]
      by_cases hlow : j < m * seg
      · have : j < (m + 1) * seg := by omega
        simp only [hlow, this, if_true]
      · have : ¬ j < (m + 1) * seg := by omega
        simp only [hlow, this, if_false]

theorem simulate_audio (M : JS.JSMath) (e : Effect) (n : Nat) (t : ℚ)
    (h1 : App.isFlow (JS.toLowerCase e.name) = false)
    (h2 : App.isBreath (JS.toLowerCase e.name) = false)
    (h3 : App.isStrobe (JS.toLowerCase e.name) = false)
    (h4 : App.isWipe (JS.toLowerCase e.name) = false)
    (h5 : App.isComet (JS.toLowerCase e.name) = false)
    (h6 : App.isMatrix (JS.toLowerCase e.name) = false)
    (h7 : App.isAudio (JS.toLowerCase e.name) = true) :
    App.simulateEffectPixels M e n t =
      some ((List.range 8).foldl (App.audioBand M (App.workingPalette e) n t (n / 8))
        (List.replicate n App.off)) := by
  unfold App.simulateEffectPixels
  simp only [h1, h2, h3, h4, h5, h6, h7, if_true, Bool.false_eq_true, if_false]

/-- C27: for an effect rendered by the audio family, the call returns `n` colours.  With
`seg = floor(n / 8)`, pixel `j < 8 * seg` belongs to band `b = floor(j / seg)` and is `pick(b)`
when `j mod seg < level(b) * seg` and `adjustHex(pick(b), 0.12)` otherwise; every pixel from
`8 * seg` on is left at the placeholder "#0a1220", and with fewer than 8 pixels that is every
pixel.  The level of a band lies in [0.2, 1] when the sine lies in [-1, 1]. -/
theorem C27_audio_leftover_pixels (M : JS.JSMath) (e : Effect) (n : Nat) (t : ℚ)
    (h1 : App.isFlow (JS.toLowerCase e.name) = false)
    (h2 : App.isBreath (JS.toLowerCase e.name) = false)
    (h3 : App.isStrobe (JS.toLowerCase e.name) = false)
    (h4 : App.isWipe (JS.toLowerCase e.name) = false)
    (h5 : App.isComet (JS.toLowerCase e.name) = false)
    (h6 : App.isMatrix (JS.toLowerCase e.name) = false)
    (h7 : App.isAudio (JS.toLowerCase e.name) = true) :
    (∃ out, App.simulateEffectPixels M e n t = some out ∧ out.length = n ∧
      (∀ j, j < 8 * (n / 8) →
        out[j]? = some
          (if ((j % (n / 8) : Nat) : ℚ) < App.audioLevel M t (j / (n / 8)) * ((n / 8 : Nat) : ℚ)
            then App.pick (App.workingPalette e) ((j / (n / 8) : Nat) : Int)
            else App.adjustHex (App.pick (App.workingPalette e) ((j / (n / 8) : Nat) : Int))
              (12 / 100))) ∧
      (∀ j, 8 * (n / 8) ≤ j → j < n → out[j]? = some "#0a1220".toList) ∧
      (n < 8 → out = List.replicate n "#0a1220".toList)) ∧
    (∀ b : Nat, -1 ≤ M.sin (t * 2 + (b : ℚ)) → M.sin (t * 2 + (b : ℚ)) ≤ 1 →
      1 / 5 ≤ App.audioLevel M t b ∧ App.audioLevel M t b ≤ 1) := by
  have hseg : 8 * (n / 8) ≤ n := Nat.mul_div_le n 8
  have hentry := audioBands_entry M (App.workingPalette e) n t (n / 8) hseg 8 (le_refl 8)
  have hleft : ∀ j, 8 * (n / 8) ≤ j → j < n →
      ((List.range 8).foldl (App.audioBand M (App.workingPalette e) n t (n / 8))
        (List.replicate n App.off))[j]? = some "#0a1220".toList := by
    intro j hj hjn
    have hnot : ¬ j < 8 * (n / 8) := by omega
    rw [hentry j, List.getElem?_replicate]
    simp only [hnot, hjn, if_false, if_true]
    rfl
  have hlen : ((List.range 8).foldl (App.audioBand M (App.workingPalette e) n t (n / 8))
      (List.replicate n App.off)).length = n := by
    rw [audioBands_length, List.length_replicate]
  refine ⟨⟨_, simulate_audio M e n t h1 h2 h3 h4 h5 h6 h7, hlen, ?_, hleft, ?_⟩, ?_⟩
  · intro j hj
    rw [hentry j]
    simp only [hj, if_true]
  · intro h8
    apply List.ext_getElem?
    intro j
    by_cases hjn : j < n
    · rw [hleft j (by omega) hjn, List.getElem?_replicate]
      simp only [hjn, if_true]
    · rw [List.getElem?_eq_none (by omega), List.getElem?_eq_none (by simp; omega)]
  · intro b hs1 hs2
    unfold App.audioLevel
    constructor <;> nlinarith

/-- C27 at the effect "audio" with 12 pixels: pixels 8 to 11 are left at "#0a1220". -/
theorem C27_audio_leftover_pixels_witness :
    ∃ out, App.simulateEffectPixels unitMath audioEffect 12 0 = some out ∧ out.length = 12 ∧
      out[8]? = some "#0a1220".toList ∧ out[11]? = some "#0a1220".toList := by
  obtain ⟨out, h1, h2, _, h3, _⟩ :=
    (C27_audio_leftover_pixels unitMath audioEffect 12 0 (by decide) (by decide) (by decide)
      (by decide) (by decide) (by decide) (by decide)).1
  exact ⟨out, h1, h2, h3 8 (by decide) (by decide), h3 11 (by decide) (by decide)⟩
